import Mathlib

/-!
# RegionSlicer — formal model and verification

A shallow embedding of the RegionSlicer mesh core (`src/polygonMesh.ts`,
`src/polygon.ts`, `src/vector.ts`) and its selection utilities
(`TopN`, `IndexChoiceFunctions`, `MultipleIndicesChoiceFunctions` from
`meshSlicer.ts`), together with proofs about the embedded code.

Modelling notes.
* JavaScript numbers are modelled by exact rationals `ℚ`.  All claims proved
  here are either purely combinatorial or are exact rational identities.
* The TypeScript mesh is a mutable object graph: polygons hold references to
  shared mutable `Edge` objects, and edges hold references to shared mutable
  polygon arrays.  We model the object graph with arenas: `edgeStore` holds
  every `Edge` object ever allocated, in allocation order, and an
  `OrientedEdge` refers to an edge by its arena index.  Polygon objects are
  each pushed onto `this.polygons` exactly once, so a polygon's position in
  `polygons` is a faithful identity for the object, and the adjacency slots of
  an edge store such positions.
* A JavaScript exception (a `TypeError` from dereferencing `undefined`)
  surfaces as `none` from `splitPolygon`; since the model is functional, a
  `none` result leaves the caller's mesh untouched, matching the fact that the
  concrete exception is thrown before any mutation.
-/

namespace RegionSlicer

/-- 2-D vector over exact rationals, mirroring `Vector2` of `src/vector.ts`
(`data = [x, y]`). -/
structure Vector2 where
  x : ℚ
  y : ℚ
deriving DecidableEq, Repr

instance : Inhabited Vector2 := ⟨⟨0, 0⟩⟩

namespace Vector2

/-- `Vector2.Add` (vector.ts line 70). -/
def Add (v1 v2 : Vector2) : Vector2 := ⟨v1.x + v2.x, v1.y + v2.y⟩

/-- `Vector2.Subtract` (vector.ts line 80). -/
def Subtract (v1 v2 : Vector2) : Vector2 := ⟨v1.x - v2.x, v1.y - v2.y⟩

/-- `Vector2.ScalarMult` (vector.ts line 90). -/
def ScalarMult (v : Vector2) (n : ℚ) : Vector2 := ⟨v.x * n, v.y * n⟩

/-- `Vector2.Dot` (vector.ts line 100). -/
def Dot (v1 v2 : Vector2) : ℚ := v1.x * v2.x + v1.y * v2.y

/-- `Vector2.Cross` (vector.ts line 108): the 2-D determinant product. -/
def Cross (v1 v2 : Vector2) : ℚ := v1.x * v2.y - v1.y * v2.x

/-- `Vector2.Interpolate(v0, v1, t) = ScalarMult(v0, 1-t).add(ScalarMult(v1, t))`
(vector.ts line 170). -/
def Interpolate (v0 v1 : Vector2) (t : ℚ) : Vector2 :=
  Add (ScalarMult v0 (1 - t)) (ScalarMult v1 t)

end Vector2

/-- An edge of the mesh (polygonMesh.ts lines 12-15): a pair of vertex indices
(`indices`, order significant) plus the two adjacent-polygon slots
(`adjacentPolys`), one per traversal direction.  The TypeScript slots hold
object references or `undefined`; here they hold `Option` positions into
`PolygonMesh.polygons`. -/
structure Edge where
  indices : Nat × Nat
  adjacentPolys : Option Nat × Option Nat
deriving DecidableEq, Repr

instance : Inhabited Edge := ⟨⟨(0, 0), (none, none)⟩⟩

/-- `edge.indices[o]` for an orientation value `o` (the code only ever produces
`o ∈ {0, 1}`). -/
def Edge.index (e : Edge) (o : Nat) : Nat :=
  if o = 0 then e.indices.1 else e.indices.2

/-- The in-place write `edge.indices[o] = v`. -/
def Edge.setIndex (e : Edge) (o : Nat) (v : Nat) : Edge :=
  if o = 0 then { e with indices := (v, e.indices.2) }
  else { e with indices := (e.indices.1, v) }

/-- `edge.adjacentPolys[o]`. -/
def Edge.adjacentPoly (e : Edge) (o : Nat) : Option Nat :=
  if o = 0 then e.adjacentPolys.1 else e.adjacentPolys.2

/-- The in-place write `edge.adjacentPolys[o] = p`. -/
def Edge.setAdjacentPoly (e : Edge) (o : Nat) (p : Option Nat) : Edge :=
  if o = 0 then { e with adjacentPolys := (p, e.adjacentPolys.2) }
  else { e with adjacentPolys := (e.adjacentPolys.1, p) }

/-- An oriented edge (polygonMesh.ts lines 17-20): an edge reference (here an
arena index into `PolygonMesh.edgeStore`) plus the orientation bit selecting
the leading endpoint. -/
structure OrientedEdge where
  edge : Nat
  orientation : Nat
deriving DecidableEq, Repr

instance : Inhabited OrientedEdge := ⟨⟨0, 0⟩⟩

/-- A polygon: an ordered cyclic sequence of oriented edges
(polygonMesh.ts line 21). -/
abbrev IndexedPolygon := List OrientedEdge

/-- Dereference an edge arena index (a TypeScript edge-object reference). -/
def arenaGet (es : List Edge) (i : Nat) : Edge := es.getD i default

/-- The in-place write `edge.indices[o] = v` through an arena reference. -/
def arenaSetIndex (es : List Edge) (i o v : Nat) : List Edge :=
  es.set i ((arenaGet es i).setIndex o v)

/-- The in-place write `edge.adjacentPolys[o] = p` through an arena reference. -/
def arenaSetAdj (es : List Edge) (i o : Nat) (p : Option Nat) : List Edge :=
  es.set i ((arenaGet es i).setAdjacentPoly o p)

/-- The leading vertex index of an oriented edge: `edge.indices[orientation]`
(cf. polygonMesh.ts line 265 and spec §3). -/
def leadVertex (es : List Edge) (oe : OrientedEdge) : Nat :=
  (arenaGet es oe.edge).index oe.orientation

/-- The trailing vertex index of an oriented edge:
`edge.indices[1 - orientation]`. -/
def trailVertex (es : List Edge) (oe : OrientedEdge) : Nat :=
  (arenaGet es oe.edge).index (1 - oe.orientation)

/-- The mesh (polygonMesh.ts lines 47-52): vertex sequence, edge sequence,
polygon sequence.  `edgeStore` is the arena of every `Edge` object the program
has allocated; `edges` is the TypeScript `this.edges` array, as arena indices.
The viewport fields are output framing only and are omitted. -/
structure PolygonMesh where
  vertices : List Vector2
  edgeStore : List Edge
  edges : List Nat
  polygons : List IndexedPolygon
deriving DecidableEq, Repr

/-- The `PolygonMesh` constructor (polygonMesh.ts lines 55-95): four corner
vertices, four boundary edges `idx → (idx+1) % 4`, one polygon of the four
edges in orientation 0.  The trailing `forEach` sets side 0 of every edge to
the polygon, so each edge ends up with `adjacentPolys = [polygons[0],
undefined]`; we build that final state directly. -/
def PolygonMesh.init (vmin vmax : Vector2) : PolygonMesh :=
  { vertices := [⟨vmin.x, vmin.y⟩, ⟨vmax.x, vmin.y⟩, ⟨vmax.x, vmax.y⟩, ⟨vmin.x, vmax.y⟩]
    edgeStore := (List.range 4).map fun idx =>
      { indices := (idx, (idx + 1) % 4), adjacentPolys := (some 0, none) }
    edges := [0, 1, 2, 3]
    polygons := [(List.range 4).map fun idx => { edge := idx, orientation := 0 }] }

/-- `findIntersectionT` (polygonMesh.ts lines 25-44): the parameter `t` at
which the line `v0–v1` meets the line `v2–v3`,
`Cross(d20, d32) / Cross(d10, d32)`.  Rational division by zero yields `0`
where JavaScript would yield `±Infinity`/`NaN`; the call sites below only use
the value to displace the two freshly appended vertices, and no claim depends
on the displaced coordinates in the degenerate (parallel-lines) case. -/
def findIntersectionT (v0 v1 v2 v3 : Vector2) : ℚ :=
  let delta10 := Vector2.Subtract v1 v0
  let delta32 := Vector2.Subtract v3 v2
  let delta20 := Vector2.Subtract v2 v0
  Vector2.Cross delta20 delta32 / Vector2.Cross delta10 delta32

namespace PolygonMesh

/-! ## The split operation, stage by stage

`splitPolygon` (polygonMesh.ts lines 104-248) is decomposed into named stages
so that the proofs can speak about each intermediate state.  All stages take
the pre-call mesh `m`, the polygon position `p`, and the two edge positions
in ascending order `i0 < i1` (the entry point `splitPolygon` performs the
ascending normalisation of lines 110-118). -/

/-- `oldOrientedEdges[0] = poly[edgeIndices[0]]` (line 119). -/
def sOe0 (m : PolygonMesh) (p i0 : Nat) : OrientedEdge :=
  (m.polygons.getD p []).getD i0 default

/-- `oldOrientedEdges[1] = poly[edgeIndices[1]]` (line 119). -/
def sOe1 (m : PolygonMesh) (p i1 : Nat) : OrientedEdge :=
  (m.polygons.getD p []).getD i1 default

/-- The midpoint of a split edge (lines 121-127):
`Interpolate(vertices[edge.indices[0]], vertices[edge.indices[1]], t)`. -/
def sMid (m : PolygonMesh) (oe : OrientedEdge) (t : ℚ) : Vector2 :=
  Vector2.Interpolate
    (m.vertices.getD (arenaGet m.edgeStore oe.edge).indices.1 default)
    (m.vertices.getD (arenaGet m.edgeStore oe.edge).indices.2 default) t

/-- The vertex sequence after the two pushes of lines 128-130: the two
midpoints are appended at positions `vertices.length` and
`vertices.length + 1`. -/
def sVerts1 (m : PolygonMesh) (p i0 i1 : Nat) (t0 t1 : ℚ) : List Vector2 :=
  m.vertices ++ [sMid m (sOe0 m p i0) t0, sMid m (sOe1 m p i1) t1]

/-- The displacement bound for one split edge (lines 133-155).  `none` models
the `Number.MAX_VALUE` sentinel returned when the edge has no far-side
polygon.  Otherwise: locate the edge inside the far polygon, take its two
neighbouring oriented edges there, intersect the midpoint-to-midpoint segment
with each (halving the parameter, mapping negative values to 1), and fold with
`Math.min` starting from `1/4`.  `findIndex` is modelled by `List.findIdx`
(not-found gives `length` instead of `-1`; under the adjacency invariant the
edge is always found). -/
def sDisplacementT (m : PolygonMesh) (verts1 : List Vector2)
    (midSelf midOther : Vector2) (oe : OrientedEdge) : Option ℚ :=
  match (arenaGet m.edgeStore oe.edge).adjacentPoly (1 - oe.orientation) with
  | none => none
  | some op =>
    let otherPoly := m.polygons.getD op []
    let k := otherPoly.findIdx fun x => x.edge == oe.edge
    let adjacentEdges := [otherPoly.getD ((k + 1) % otherPoly.length) default,
                          otherPoly.getD ((k + otherPoly.length - 1) % otherPoly.length) default]
    some ((adjacentEdges.map fun ae =>
        let t := findIntersectionT midSelf midOther
            (verts1.getD (arenaGet m.edgeStore ae.edge).indices.1 default)
            (verts1.getD (arenaGet m.edgeStore ae.edge).indices.2 default) / 2
        if t < 0 then 1 else t).foldl min (1 / 4))

/-- The vertex sequence after the optional displacement block (lines 131-161).
When `displaceVerts` is set, each defined bound rewrites the vertex at
`this.vertices.length - 2 + idx`, which is position `m.vertices.length + idx`:
only the two freshly appended midpoints are ever written. -/
def sVerts2 (m : PolygonMesh) (p i0 i1 : Nat) (t0 t1 : ℚ) (d : Bool) : List Vector2 :=
  let verts1 := sVerts1 m p i0 i1 t0 t1
  if d then
    let mid0 := sMid m (sOe0 m p i0) t0
    let mid1 := sMid m (sOe1 m p i1) t1
    let va := match sDisplacementT m verts1 mid0 mid1 (sOe0 m p i0) with
      | none => verts1
      | some t => verts1.set m.vertices.length (Vector2.Interpolate mid0 mid1 t)
    match sDisplacementT m verts1 mid1 mid0 (sOe1 m p i1) with
      | none => va
      | some t => va.set (m.vertices.length + 1) (Vector2.Interpolate mid1 mid0 t)
  else verts1

/-- Arena index of `newEdges[0]` (allocated at line 166). -/
def sNewId0 (m : PolygonMesh) : Nat := m.edgeStore.length

/-- Arena index of `newEdges[1]`. -/
def sNewId1 (m : PolygonMesh) : Nat := m.edgeStore.length + 1

/-- Arena index of `newMiddleEdge` (allocated at line 201). -/
def sMiddleId (m : PolygonMesh) : Nat := m.edgeStore.length + 2

/-- The split edge's entry reversed: the far-side occurrence of the edge
(spec: the far polygon traverses a shared edge with the opposite
orientation). -/
def sW0 (m : PolygonMesh) (p i0 : Nat) : OrientedEdge :=
  ⟨(sOe0 m p i0).edge, 1 - (sOe0 m p i0).orientation⟩

def sW1 (m : PolygonMesh) (p i1 : Nat) : OrientedEdge :=
  ⟨(sOe1 m p i1).edge, 1 - (sOe1 m p i1).orientation⟩

/-- The reversed new half edge spliced into the far polygon (lines 192-196). -/
def sRev0 (m : PolygonMesh) (p i0 : Nat) : OrientedEdge :=
  ⟨sNewId0 m, 1 - (sOe0 m p i0).orientation⟩

def sRev1 (m : PolygonMesh) (p i1 : Nat) : OrientedEdge :=
  ⟨sNewId1 m, 1 - (sOe1 m p i1).orientation⟩

/-- The far-side adjacency slot of the first split edge
(`oldEdge.edge.adjacentPolys[1 - orientation]`). -/
def sAdj0 (m : PolygonMesh) (p i0 : Nat) : Option Nat :=
  (arenaGet m.edgeStore (sOe0 m p i0).edge).adjacentPoly (1 - (sOe0 m p i0).orientation)

def sAdj1 (m : PolygonMesh) (p i1 : Nat) : Option Nat :=
  (arenaGet m.edgeStore (sOe1 m p i1).edge).adjacentPoly (1 - (sOe1 m p i1).orientation)

/-- One step of the far-side fix-up loop (lines 189-198): look up the far-side
polygon of the split edge, find the edge's entry there, and insert the
reversed new half immediately before it.  `otherIdx >= 0` corresponds to
`findIdx < length`. -/
def spliceIntoNeighbor (es : List Edge) (polys : List IndexedPolygon)
    (oe rev : OrientedEdge) : List IndexedPolygon :=
  match (arenaGet es oe.edge).adjacentPoly (1 - oe.orientation) with
  | none => polys
  | some op =>
    let other := polys.getD op []
    let k := other.findIdx fun x => x.edge == oe.edge
    if k < other.length then polys.set op (other.insertIdx k rev) else polys

/-- The polygon sequence after both far-side insertions (lines 189-198),
edge 0 first.  Both steps read adjacency from the pre-call arena (the arena is
not written until lines 217-221). -/
def sPolysA (m : PolygonMesh) (p i0 i1 : Nat) : List IndexedPolygon :=
  spliceIntoNeighbor m.edgeStore
    (spliceIntoNeighbor m.edgeStore m.polygons (sOe0 m p i0) (sRev0 m p i0))
    (sOe1 m p i1) (sRev1 m p i1)

/-- The arena after allocating the three new edges and rewiring endpoints.
`newEdges[idx]` starts as a copy of the split edge's `indices`/`adjacentPolys`
(lines 166-171); `newMiddleEdge` spans the two midpoint indices with no
adjacency (lines 200-204).  Lines 217-221 then write, for each `idx`:
`oldEdge.edge.indices[1-orientation] = midpointIndices[idx]` and
`newEdges[idx].indices[orientation] = midpointIndices[idx]`. -/
def sEs5 (m : PolygonMesh) (p i0 i1 : Nat) : List Edge :=
  let oe0 := sOe0 m p i0
  let oe1 := sOe1 m p i1
  let es1 := m.edgeStore ++ [arenaGet m.edgeStore oe0.edge, arenaGet m.edgeStore oe1.edge,
    { indices := (m.vertices.length, m.vertices.length + 1), adjacentPolys := (none, none) }]
  let es2 := arenaSetIndex es1 oe0.edge (1 - oe0.orientation) m.vertices.length
  let es3 := arenaSetIndex es2 (sNewId0 m) oe0.orientation m.vertices.length
  let es4 := arenaSetIndex es3 oe1.edge (1 - oe1.orientation) (m.vertices.length + 1)
  arenaSetIndex es4 (sNewId1 m) oe1.orientation (m.vertices.length + 1)

/-- The polygon `poly` as seen after the far-side insertions (the TypeScript
local `poly` aliases `this.polygons[p]`, so insertions into it are visible;
under the mesh invariant the far-side polygons differ from `poly` and this is
just `poly` itself). -/
def sPolyCur (m : PolygonMesh) (p i0 i1 : Nat) : IndexedPolygon :=
  (sPolysA m p i0 i1).getD p []

/-- The new polygon (lines 225-229): `[newOrientedEdges[0]] ++
poly.slice(i0+1, i1+1) ++ [newMiddleOrientedEdges[1]]`. -/
def sNewPoly (m : PolygonMesh) (p i0 i1 : Nat) : IndexedPolygon :=
  ⟨sNewId0 m, (sOe0 m p i0).orientation⟩ ::
    (((sPolyCur m p i0 i1).drop (i0 + 1)).take (i1 - i0) ++ [⟨sMiddleId m, 1⟩])

/-- The rewritten original polygon (lines 233-234):
`poly.splice(i0+1, i1-i0, newMiddleOrientedEdges[0], newOrientedEdges[1])`
keeps positions `0..i0`, inserts the middle edge and the second new half, and
resumes at position `i1+1`. -/
def sPolyNew (m : PolygonMesh) (p i0 i1 : Nat) : IndexedPolygon :=
  (sPolyCur m p i0 i1).take (i0 + 1) ++
    ⟨sMiddleId m, 0⟩ :: ⟨sNewId1 m, (sOe1 m p i1).orientation⟩ ::
      (sPolyCur m p i0 i1).drop (i1 + 1)

/-- The arena after the adjacency writes: line 237 sets the middle edge's two
slots to `[poly, newPoly]`, and lines 240-242 walk the new polygon setting
`edge.adjacentPolys[orientation] = newPoly` for every entry. -/
def sEs7 (m : PolygonMesh) (p i0 i1 : Nat) : List Edge :=
  let es5 := sEs5 m p i0 i1
  let es6 := es5.set (sMiddleId m)
    { indices := (arenaGet es5 (sMiddleId m)).indices,
      adjacentPolys := (some p, some m.polygons.length) }
  (sNewPoly m p i0 i1).foldl
    (fun es oe => arenaSetAdj es oe.edge oe.orientation (some m.polygons.length)) es6

/-- The complete post-state of a (normalised) split.  Lines 244-248: the new
polygon is pushed; `this.edges.concat([...newEdges])` builds a fresh array
and discards it — `Array.prototype.concat` does not mutate — so of the three
new edges only `newMiddleEdge` is pushed onto `this.edges`. -/
def sResult (m : PolygonMesh) (p i0 i1 : Nat) (t0 t1 : ℚ) (d : Bool) : PolygonMesh :=
  { vertices := sVerts2 m p i0 i1 t0 t1 d
    edgeStore := sEs7 m p i0 i1
    edges := m.edges ++ [sMiddleId m]
    polygons := (sPolysA m p i0 i1).set p (sPolyNew m p i0 i1) ++ [sNewPoly m p i0 i1] }

/-- `splitPolygon` (polygonMesh.ts lines 104-248).  Lines 110-118 order the two
requested edge positions (with their `t` values) ascending.  Computing the
midpoints dereferences `poly[i]`; when a position is out of range JavaScript
throws there — before any mutation — which the model reports as `none`.
`poly` is passed as its position in `this.polygons` (see the modelling notes
at the top of the file). -/
def splitPolygon (m : PolygonMesh) (p : Nat) (firstEdgeIdx secondEdgeIdx : Nat)
    (firstEdgeT secondEdgeT : ℚ) (displaceVerts : Bool) : Option PolygonMesh :=
  let poly := m.polygons.getD p []
  let i0 := if firstEdgeIdx < secondEdgeIdx then firstEdgeIdx else secondEdgeIdx
  let i1 := if firstEdgeIdx < secondEdgeIdx then secondEdgeIdx else firstEdgeIdx
  let t0 := if firstEdgeIdx < secondEdgeIdx then firstEdgeT else secondEdgeT
  let t1 := if firstEdgeIdx < secondEdgeIdx then secondEdgeT else firstEdgeT
  if i0 < poly.length ∧ i1 < poly.length then
    some (sResult m p i0 i1 t0 t1 displaceVerts)
  else none

end PolygonMesh

/-- `Polygon.area` (polygon.ts lines 18-25): the shoelace sum
`Σ Cross(v_i − v_0, v_{(i+1) mod n} − v_0) / 2` over the vertex list.  (The
TypeScript `reduce` with no initial value throws on an empty vertex list; the
mesh only ever feeds it nonempty polygons, and the model returns 0 there.) -/
def Polygon.area (verts : List Vector2) : ℚ :=
  ∑ i ∈ Finset.range verts.length,
    Vector2.Cross
      (Vector2.Subtract (verts.getD i default) (verts.getD 0 default))
      (Vector2.Subtract (verts.getD ((i + 1) % verts.length) default) (verts.getD 0 default)) / 2

/-- `MeshSlicer.indexedPolyToCoordinates` (meshSlicer.ts lines 216-221): the
leading-vertex walk of a polygon,
`poly.map(oriEdge => vertices[oriEdge.edge.indices[oriEdge.orientation]])`. -/
def indexedPolyToCoordinates (m : PolygonMesh) (poly : IndexedPolygon) : List Vector2 :=
  poly.map fun oe => m.vertices.getD (leadVertex m.edgeStore oe) default

/-- The coordinate of one oriented edge's leading vertex: the function
`indexedPolyToCoordinates` maps over the polygon. -/
def leadCoord (m : PolygonMesh) (oe : OrientedEdge) : Vector2 :=
  m.vertices.getD (leadVertex m.edgeStore oe) default

/-- The open polyline cross-product sum `Σ Cross(v_i, v_{i+1})` (no wrap):
the structural-recursion form of the shoelace walk, used to reason about
`Polygon.area`. -/
def pathSum : List Vector2 → ℚ
  | [] => 0
  | [_] => 0
  | a :: b :: r => Vector2.Cross a b + pathSum (b :: r)

/-- The closed cyclic cross-product sum `Σ Cross(v_i, v_{(i+1) mod n})`: the
base-point-free form of twice the shoelace area. -/
def cyclicSum (l : List Vector2) : ℚ :=
  ∑ i ∈ Finset.range l.length,
    Vector2.Cross (l.getD i default) (l.getD ((i + 1) % l.length) default)

/-! ## The rank selector and the choice functions (meshSlicer.ts) -/

/-- `Array.prototype.findLastIndex`: the largest index whose element satisfies
the predicate, `-1` when none does. -/
def findLastIndexJS {α : Type} (p : α → Bool) (l : List α) : Int :=
  match l.reverse.findIdx? p with
  | none => -1
  | some k => (l.length : Int) - 1 - k

/-- The bounded best-of-N container `TopN` (meshSlicer.ts lines 69-106):
`topNArray` holds `(obj, val)` pairs, best first. -/
structure TopN (α : Type) where
  topNArray : List (α × ℚ)
  size : Nat
deriving DecidableEq, Repr

/-- `TopN.insert` (meshSlicer.ts lines 83-91): find the last position whose
score strictly exceeds the new score; if that position is before the last
slot, splice the new entry in just after it and truncate to `size`. -/
def TopN.insert {α : Type} (t : TopN α) (newObj : α) (newValue : ℚ) : TopN α :=
  let ranking := findLastIndexJS (fun elem => decide (elem.2 > newValue)) t.topNArray
  if ranking < (t.size : Int) - 1 then
    { t with topNArray := (t.topNArray.insertIdx (ranking + 1).toNat (newObj, newValue)).take t.size }
  else t

/-- Run a sequence of `insert` calls against an initially empty `TopN` of the
given size. -/
def TopN.runInserts {α : Type} (size : Nat) (inserts : List (α × ℚ)) : TopN α :=
  inserts.foldl (fun t x => t.insert x.1 x.2) ⟨[], size⟩

/-- The scan loop of `IndexChoiceFunctions.weightedRandomElement`
(meshSlicer.ts lines 26-29): `while (randomVal > arr[idx]) { randomVal -=
arr[idx]; idx++ }`.  Once `idx` runs past the end, `arr[idx]` is `undefined`
and the `>` comparison is false, so the loop exits with the current index —
hence the structural recursion on the remaining list is exact. -/
def weightedScanLoop : List ℚ → ℚ → Nat → Nat
  | [], _, idx => idx
  | a :: rest, randomVal, idx =>
    if randomVal > a then weightedScanLoop rest (randomVal - a) (idx + 1) else idx

/-- `IndexChoiceFunctions.weightedRandomElement` (meshSlicer.ts lines 22-31)
with the `Math.random()` draw passed in as `u`.  `arr.reduce((a,b) => a+b)`
throws on an empty array (no initial value), modelled as `none`. -/
def weightedRandomElement (arr : List ℚ) (u : ℚ) : Option Nat :=
  match arr with
  | [] => none
  | a :: rest =>
    let totalWeight := (rest.foldl (fun x y => x + y) a)
    some (weightedScanLoop (a :: rest) (totalWeight * u) 0)

namespace MultipleIndicesChoiceFunctions

/-- `MultipleIndicesChoiceFunctions.randomElements` (meshSlicer.ts lines
44-52), with the per-iteration `Math.random()` draws passed in as `draws`
(the condition evaluates one fresh draw for every position `idx`):
push `idx` whenever `numItems - outArr.length < (totalNumItems - idx) *
draws[idx]`. -/
def randomElements (arr : List ℚ) (numItems : Nat) (draws : List ℚ) : List Nat :=
  (List.range arr.length).foldl
    (fun outArr idx =>
      if ((numItems : ℚ) - outArr.length) < ((arr.length : ℚ) - idx) * draws.getD idx 0
      then outArr ++ [idx] else outArr)
    []

/-- The body of `weightedRandomElements`' outer `for` loop (meshSlicer.ts
lines 57-62).  The `do`/`while` guard is `outArr.indexOf(newItem) >= 0`, and
`outArr` is never pushed to anywhere in the function, so the guard is always
false and the `do` body runs exactly once per outer iteration, drawing once
and discarding the result.  An empty score array makes the inner
`weightedRandomElement` throw (`none`). -/
def weightedLoop (arr : List ℚ) : Nat → List Nat → List ℚ → Option (List Nat)
  | 0, outArr, _ => some outArr
  | n + 1, outArr, draws =>
    match weightedRandomElement arr (draws.headD 0) with
    | none => none
    | some _ => weightedLoop arr n outArr draws.tail

/-- `MultipleIndicesChoiceFunctions.weightedRandomElements` (meshSlicer.ts
lines 55-64), with the stream of `Math.random()` draws passed in. -/
def weightedRandomElements (arr : List ℚ) (numItems : Nat) (draws : List ℚ) :
    Option (List Nat) :=
  weightedLoop arr numItems [] draws

end MultipleIndicesChoiceFunctions

/-- Scores sorted best-first (non-increasing), as `TopN` maintains them. -/
abbrev SortedDesc {α : Type} (l : List (α × ℚ)) : Prop :=
  l.Pairwise fun a b => b.2 ≤ a.2

/-- The state invariant tying a `TopN` container to the inserts already
processed: bounded size, sorted best-first, once something has been discarded
the container is full, and every discarded score is at most every retained
score. -/
def TopNStateInv {α : Type} (processed : List (α × ℚ)) (t : TopN α) : Prop :=
  t.topNArray.length ≤ t.size ∧ SortedDesc t.topNArray ∧
  ((∃ x ∈ processed, x ∉ t.topNArray) → t.topNArray.length = t.size) ∧
  (∀ x ∈ processed, x ∉ t.topNArray → ∀ w ∈ t.topNArray, x.2 ≤ w.2)

/-! ## Mesh invariants and reachability -/

/-- Closure of one polygon (spec §3): the trailing vertex of oriented edge `i`
equals the leading vertex of oriented edge `(i+1) mod length`. -/
def PolyClosed (es : List Edge) (poly : IndexedPolygon) : Prop :=
  ∀ i, i < poly.length →
    trailVertex es (poly.getD i default) =
      leadVertex es (poly.getD ((i + 1) % poly.length) default)

/-- The mesh's structural invariants (spec §3 and §8):
well-formed entries, closure, no repeated edge inside one polygon, the two
directions of the polygon/edge adjacency agreement, and vertex-index bounds. -/
structure MeshInv (m : PolygonMesh) : Prop where
  wf : ∀ poly ∈ m.polygons, ∀ oe ∈ poly,
    oe.edge < m.edgeStore.length ∧ oe.orientation < 2
  closed : ∀ poly ∈ m.polygons, PolyClosed m.edgeStore poly
  nodupEdges : ∀ poly ∈ m.polygons, (poly.map OrientedEdge.edge).Nodup
  entryAdj : ∀ pi, pi < m.polygons.length → ∀ oe ∈ m.polygons.getD pi [],
    (arenaGet m.edgeStore oe.edge).adjacentPoly oe.orientation = some pi
  adjEntry : ∀ ei, ei < m.edgeStore.length → ∀ s, s < 2 → ∀ pi,
    (arenaGet m.edgeStore ei).adjacentPoly s = some pi →
      pi < m.polygons.length ∧ (⟨ei, s⟩ : OrientedEdge) ∈ m.polygons.getD pi []
  vtxBound : ∀ e ∈ m.edgeStore,
    e.indices.1 < m.vertices.length ∧ e.indices.2 < m.vertices.length

/-- The meshes reachable from an initial rectangle by precondition-satisfying
splits: distinct in-range edge positions and interpolation parameters in
`(0, 1)`. -/
inductive Reachable : PolygonMesh → Prop
  | init (vmin vmax : Vector2) : Reachable (PolygonMesh.init vmin vmax)
  | step (m m' : PolygonMesh) (p i j : Nat) (tA tB : ℚ) (d : Bool) :
      Reachable m →
      p < m.polygons.length →
      i ≠ j →
      i < (m.polygons.getD p []).length →
      j < (m.polygons.getD p []).length →
      0 < tA → tA < 1 → 0 < tB → tB < 1 →
      m.splitPolygon p i j tA tB d = some m' →
      Reachable m'

/-- The (leading, trailing) vertex pair of an oriented edge. -/
def pairOf (es : List Edge) (oe : OrientedEdge) : Nat × Nat :=
  (leadVertex es oe, trailVertex es oe)

/-- The closure link between consecutive (lead, trail) pairs: the trailing
vertex of the first equals the leading vertex of the second. -/
def linkR (a b : Nat × Nat) : Prop := a.2 = b.1

/-- The cyclic-chain property of a list of (lead, trail) pairs: each pair
links to the next, wrapping around. -/
def CyclicChain (l : List (Nat × Nat)) : Prop :=
  ∀ i, i < l.length → (l.getD i default).2 = (l.getD ((i + 1) % l.length) default).1

/-! ## Concrete demonstration meshes (used by witnesses) -/

/-- The `10×10` rectangle of spec §8's concrete scenario. -/
def demoMesh : PolygonMesh := PolygonMesh.init ⟨0, 0⟩ ⟨10, 10⟩

/-- `demoMesh` split along its polygon 0's edges 0 and 2 at `t = 1/2`. -/
def demoSplitMesh : PolygonMesh :=
  (demoMesh.splitPolygon 0 0 2 (1/2) (1/2) false).getD demoMesh

/-- `demoSplitMesh` split again, through polygon 0's edges 1 and 3. -/
def demoSplitMesh2 : PolygonMesh :=
  (demoSplitMesh.splitPolygon 0 1 3 (1/3) (2/3) false).getD demoSplitMesh

/-! # Proofs -/

/-! ## Cyclic-chain toolkit

Closure of a polygon is a cyclic-chain property of its list of
(lead, trail) vertex pairs.  The lemmas below let the split proofs reason
about insertion (subdivision of one pair into two) and about cutting one
cycle into two cycles along a chord. -/

theorem or_some_left {α : Type} (a : α) (o : Option α) : (some a).or o = some a := rfl

theorem cyclicChain_iff_chain (l : List (Nat × Nat)) :
    CyclicChain l ↔
      List.Chain' linkR l ∧ ∀ x ∈ l.getLast?, ∀ y ∈ l.head?, linkR x y := by
  rcases eq_or_ne l [] with rfl | hne
  · constructor
    · intro _
      exact ⟨List.chain'_nil, by simp⟩
    · intro _ i hi
      simp at hi
  · have hlen : 0 < l.length := List.length_pos.2 hne
    have hlast : l.getLast? = some l[l.length - 1] := by
      rw [List.getLast?_eq_getLast l hne, List.getLast_eq_getElem]
    have hhead : l.head? = some l[0] := by
      obtain ⟨a, L, rfl⟩ := List.exists_cons_of_ne_nil hne
      rfl
    constructor
    · intro h
      constructor
      · rw [List.chain'_iff_get]
        intro i hi
        have h1 := h i (by omega)
        rw [Nat.mod_eq_of_lt (by omega)] at h1
        rw [List.getD_eq_getElem _ _ (show i < l.length by omega)] at h1
        rw [List.getD_eq_getElem _ _ (show i + 1 < l.length by omega)] at h1
        simp only [List.get_eq_getElem]
        exact h1
      · intro x hx y hy
        rw [hlast] at hx
        rw [hhead] at hy
        simp only [Option.mem_def, Option.some.injEq] at hx hy
        subst hx
        subst hy
        have h1 := h (l.length - 1) (by omega)
        rw [List.getD_eq_getElem _ _ (show l.length - 1 < l.length by omega),
          Nat.sub_add_cancel (show 1 ≤ l.length by omega), Nat.mod_self,
          List.getD_eq_getElem _ _ (show 0 < l.length by omega)] at h1
        exact h1
    · rintro ⟨hc, hw⟩ i hi
      by_cases hi1 : i + 1 < l.length
      · rw [Nat.mod_eq_of_lt hi1]
        rw [List.getD_eq_getElem _ _ (show i < l.length by omega)]
        rw [List.getD_eq_getElem _ _ (show i + 1 < l.length by omega)]
        have := List.chain'_iff_get.1 hc i (by omega)
        simpa [linkR, List.get_eq_getElem] using this
      · have hieq : i = l.length - 1 := by omega
        subst hieq
        have hmod : (l.length - 1 + 1) % l.length = 0 := by
          rw [Nat.sub_add_cancel (show 1 ≤ l.length by omega), Nat.mod_self]
        rw [hmod]
        rw [List.getD_eq_getElem _ _ (show l.length - 1 < l.length by omega)]
        rw [List.getD_eq_getElem _ _ (show 0 < l.length by omega)]
        exact hw _ (by rw [hlast]; exact rfl) _ (by rw [hhead]; exact rfl)

theorem cyclicChain_append_swap (A B : List (Nat × Nat))
    (h : CyclicChain (A ++ B)) : CyclicChain (B ++ A) := by
  rw [cyclicChain_iff_chain] at h ⊢
  obtain ⟨hc, hw⟩ := h
  rcases eq_or_ne A [] with rfl | hA
  · rw [List.nil_append] at hc hw
    rw [List.append_nil]
    exact ⟨hc, hw⟩
  rcases eq_or_ne B [] with rfl | hB
  · rw [List.append_nil] at hc hw
    rw [List.nil_append]
    exact ⟨hc, hw⟩
  have hAlast : A.getLast? = some (A.getLast hA) := List.getLast?_eq_getLast A hA
  have hBlast : B.getLast? = some (B.getLast hB) := List.getLast?_eq_getLast B hB
  have hAhead : A.head? = some (A.head hA) := List.head?_eq_head hA
  have hBhead : B.head? = some (B.head hB) := List.head?_eq_head hB
  rw [List.chain'_append] at hc ⊢
  obtain ⟨hcA, hcB, hAB⟩ := hc
  refine ⟨⟨hcB, hcA, ?_⟩, ?_⟩
  · intro x hx y hy
    apply hw
    · rw [List.getLast?_append, hBlast, or_some_left]
      rwa [hBlast] at hx
    · rw [List.head?_append, hAhead, or_some_left]
      rwa [hAhead] at hy
  · intro x hx y hy
    rw [List.getLast?_append, hAlast, or_some_left] at hx
    rw [List.head?_append, hBhead, or_some_left] at hy
    simp only [Option.mem_def, Option.some.injEq] at hx hy
    subst hx
    subst hy
    exact hAB _ (by rw [hAlast]; exact rfl) _ (by rw [hBhead]; exact rfl)

/-- Subdividing one pair `(a, b)` of a cyclic chain into `(a, c), (c, b)`
preserves the cyclic chain: this is what inserting the reversed new half edge
in front of a split edge does to a far-side polygon. -/
theorem cyclicChain_subdiv (P Q : List (Nat × Nat)) (a b c : Nat)
    (h : CyclicChain (P ++ (a, b) :: Q)) :
    CyclicChain (P ++ (a, c) :: (c, b) :: Q) := by
  have h1 : CyclicChain ((a, b) :: (Q ++ P)) := by
    have := cyclicChain_append_swap P ((a, b) :: Q) h
    simpa using this
  have h2 : CyclicChain ((a, c) :: (c, b) :: (Q ++ P)) := by
    rw [cyclicChain_iff_chain] at h1 ⊢
    obtain ⟨hc, hw⟩ := h1
    rw [List.chain'_cons'] at hc
    obtain ⟨hlink, hcR⟩ := hc
    constructor
    · rw [List.chain'_cons]
      exact ⟨rfl, List.chain'_cons'.2 ⟨fun y hy => hlink y hy, hcR⟩⟩
    · rcases eq_or_ne (Q ++ P) [] with hqe | hqe
      · rw [hqe] at hw ⊢
        intro x hx y hy
        simp only [List.getLast?_cons_cons, List.getLast?_singleton,
          List.head?_cons, Option.mem_def, Option.some.injEq] at hx hy
        subst hx
        subst hy
        have := hw (a, b) (by simp) (a, b) (by simp)
        simpa [linkR] using this
      · obtain ⟨q, R, hQP⟩ := List.exists_cons_of_ne_nil hqe
        rw [hQP] at hw ⊢
        intro x hx y hy
        simp only [List.getLast?_cons_cons, List.head?_cons, Option.mem_def,
          Option.some.injEq] at hx hy
        subst hy
        have hres := hw x (by simp only [List.getLast?_cons_cons]; exact hx) (a, b)
          (by simp)
        exact hres
  have h3 := cyclicChain_append_swap ((a, c) :: (c, b) :: Q) P ?_
  · simpa using h3
  · simpa using h2

theorem getLast?_cons_ne_nil {α : Type} (a : α) (T : List α) (hT : T ≠ []) :
    (a :: T).getLast? = T.getLast? := by
  obtain ⟨t, T', rfl⟩ := List.exists_cons_of_ne_nil hT
  rw [List.getLast?_cons_cons]

theorem getLast?_append_cons {α : Type} (A : List α) (z : α) (T : List α) (hT : T ≠ []) :
    (A ++ z :: T).getLast? = T.getLast? := by
  obtain ⟨t, T', rfl⟩ := List.exists_cons_of_ne_nil hT
  rw [List.getLast?_append, List.getLast?_cons_cons,
    List.getLast?_eq_getLast (t :: T') (by simp), or_some_left]

/-- Cutting a cyclic polygon walk: the rewritten original polygon.  If the
pairs `(x, y)` (at the first split position) and `(u, w)` (at the second) sit
in a cyclic chain, replacing the whole span from the first through the second
by `(x, m0), (m0, m1), (m1, w)` is again a cyclic chain. -/
theorem cyclicChain_split_orig (P Q S : List (Nat × Nat)) (x y u w m0 m1 : Nat)
    (h : CyclicChain (P ++ ((x, y) :: (Q ++ ((u, w) :: S))))) :
    CyclicChain (P ++ ((x, m0) :: (m0, m1) :: (m1, w) :: S)) := by
  have h1 : CyclicChain ((x, y) :: (Q ++ ((u, w) :: (S ++ P)))) := by
    have := cyclicChain_append_swap P ((x, y) :: (Q ++ ((u, w) :: S))) h
    simpa [List.append_assoc] using this
  have h2 : CyclicChain ((x, m0) :: (m0, m1) :: (m1, w) :: (S ++ P)) := by
    rw [cyclicChain_iff_chain] at h1 ⊢
    obtain ⟨hc, hw⟩ := h1
    have hc' : List.Chain' linkR (((x, y) :: Q) ++ ((u, w) :: (S ++ P))) := by
      simpa using hc
    rw [List.chain'_append] at hc'
    obtain ⟨hc1, hc2, hj⟩ := hc'
    rw [List.chain'_cons'] at hc2
    obtain ⟨hwT, hcT⟩ := hc2
    constructor
    · rw [List.chain'_cons]
      refine ⟨rfl, ?_⟩
      rw [List.chain'_cons]
      refine ⟨rfl, ?_⟩
      rw [List.chain'_cons']
      exact ⟨fun z hz => hwT z hz, hcT⟩
    · rcases eq_or_ne (S ++ P) [] with hTe | hTne
      · rw [hTe] at hw ⊢
        intro a ha b hb
        simp only [List.getLast?_cons_cons, List.getLast?_singleton, List.head?_cons,
          Option.mem_def, Option.some.injEq] at ha hb
        subst ha
        subst hb
        have hlastold : ((x, y) :: (Q ++ ((u, w) :: ([] : List (Nat × Nat))))).getLast? =
            some (u, w) := by
          rw [getLast?_cons_ne_nil _ _ (by simp)]
          exact List.getLast?_concat Q
        have := hw (u, w) (by rw [hlastold]; exact rfl) (x, y) (by simp)
        simpa [linkR] using this
      · intro a ha b hb
        simp only [List.head?_cons, Option.mem_def, Option.some.injEq] at hb
        subst hb
        have hlnew : ((x, m0) :: (m0, m1) :: (m1, w) :: (S ++ P)).getLast? =
            (S ++ P).getLast? := by
          rw [List.getLast?_cons_cons, List.getLast?_cons_cons,
            getLast?_cons_ne_nil _ _ hTne]
        have hlold : ((x, y) :: (Q ++ ((u, w) :: (S ++ P)))).getLast? =
            (S ++ P).getLast? := by
          rw [getLast?_cons_ne_nil _ _ (by simp), getLast?_append_cons _ _ _ hTne]
        rw [hlnew] at ha
        exact hw a (by rw [hlold]; exact ha) (x, y) (by simp)
  have h3 := cyclicChain_append_swap ((x, m0) :: (m0, m1) :: (m1, w) :: S) P ?_
  · simpa using h3
  · simpa using h2

/-- Cutting a cyclic polygon walk: the new polygon.  Under the same
hypothesis, the walk made of `(m0, y)`, the span strictly between the two
split pairs, `(u, m1)` and the reversed chord `(m1, m0)` is a cyclic chain. -/
theorem cyclicChain_split_new (P Q S : List (Nat × Nat)) (x y u w m0 m1 : Nat)
    (h : CyclicChain (P ++ ((x, y) :: (Q ++ ((u, w) :: S))))) :
    CyclicChain ((m0, y) :: (Q ++ [(u, m1), (m1, m0)])) := by
  have h1 : CyclicChain ((x, y) :: (Q ++ ((u, w) :: (S ++ P)))) := by
    have := cyclicChain_append_swap P ((x, y) :: (Q ++ ((u, w) :: S))) h
    simpa [List.append_assoc] using this
  rw [cyclicChain_iff_chain] at h1 ⊢
  obtain ⟨hc, hw⟩ := h1
  have hc' : List.Chain' linkR (((x, y) :: Q) ++ ((u, w) :: (S ++ P))) := by
    simpa using hc
  rw [List.chain'_append] at hc'
  obtain ⟨hc1, hc2, hj⟩ := hc'
  rw [List.chain'_cons'] at hc1
  obtain ⟨hyQ, hcQ⟩ := hc1
  constructor
  · have heq : (m0, y) :: (Q ++ [(u, m1), (m1, m0)]) =
        ((m0, y) :: Q) ++ [(u, m1), (m1, m0)] := by
      simp
    rw [heq, List.chain'_append]
    refine ⟨?_, ?_, ?_⟩
    · rw [List.chain'_cons']
      exact ⟨fun z hz => hyQ z hz, hcQ⟩
    · rw [List.chain'_cons]
      exact ⟨rfl, List.chain'_singleton _⟩
    · intro a ha b hb
      simp only [List.head?_cons, Option.mem_def, Option.some.injEq] at hb
      subst hb
      rcases eq_or_ne Q [] with rfl | hQne
      · simp only [List.getLast?_singleton, Option.mem_def, Option.some.injEq] at ha
        subst ha
        exact hj (x, y) (by simp) (u, w) (by simp)
      · rw [getLast?_cons_ne_nil _ _ hQne] at ha
        exact hj a (by rw [getLast?_cons_ne_nil _ _ hQne]; exact ha) (u, w) (by simp)
  · intro a ha b hb
    have hlast : ((m0, y) :: (Q ++ [(u, m1), (m1, m0)])).getLast? = some (m1, m0) := by
      rw [getLast?_cons_ne_nil _ _ (by simp), getLast?_append_cons _ _ _ (by simp),
        List.getLast?_singleton]
    rw [hlast] at ha
    simp only [List.head?_cons, Option.mem_def, Option.some.injEq] at ha hb
    subst ha
    subst hb
    rfl

/-! ## Edge and arena toolkit -/

/-- `getD` is unaffected by a `set` at a different position. -/
theorem getD_set_ne {α : Type} (l : List α) (i k : Nat) (a d : α) (h : i ≠ k) :
    (l.set i a).getD k d = l.getD k d := by
  rw [List.getD_eq_getElem?_getD, List.getD_eq_getElem?_getD, List.getElem?_set_ne h]

theorem getD_set_self {α : Type} (l : List α) (i : Nat) (x d : α) (h : i < l.length) :
    (l.set i x).getD i d = x := by
  rw [List.getD_eq_getElem _ _ (by simpa using h)]
  exact List.getElem_set_self _

theorem Edge.index_setIndex_self (e : Edge) (o v : Nat) :
    (e.setIndex o v).index o = v := by
  unfold Edge.setIndex Edge.index
  by_cases h : o = 0 <;> simp [h]

theorem Edge.index_setIndex_other (e : Edge) (o v o' : Nat) (h : o < 2) (h' : o' < 2)
    (hne : o' ≠ o) : (e.setIndex o v).index o' = e.index o' := by
  unfold Edge.setIndex Edge.index
  interval_cases o <;> interval_cases o' <;> simp_all

theorem Edge.adjacentPolys_setIndex (e : Edge) (o v : Nat) :
    (e.setIndex o v).adjacentPolys = e.adjacentPolys := by
  unfold Edge.setIndex
  split <;> rfl

theorem Edge.adjacentPoly_setIndex (e : Edge) (o v s : Nat) :
    (e.setIndex o v).adjacentPoly s = e.adjacentPoly s := by
  unfold Edge.adjacentPoly
  rw [Edge.adjacentPolys_setIndex]

theorem Edge.indices_setAdjacentPoly (e : Edge) (o : Nat) (p : Option Nat) :
    (e.setAdjacentPoly o p).indices = e.indices := by
  unfold Edge.setAdjacentPoly
  split <;> rfl

theorem Edge.index_setAdjacentPoly (e : Edge) (o : Nat) (p : Option Nat) (o' : Nat) :
    (e.setAdjacentPoly o p).index o' = e.index o' := by
  unfold Edge.index
  rw [Edge.indices_setAdjacentPoly]

theorem Edge.adjacentPoly_setAdjacentPoly_self (e : Edge) (o : Nat) (p : Option Nat) :
    (e.setAdjacentPoly o p).adjacentPoly o = p := by
  unfold Edge.setAdjacentPoly Edge.adjacentPoly
  by_cases h : o = 0 <;> simp [h]

theorem Edge.adjacentPoly_setAdjacentPoly_other (e : Edge) (o : Nat) (p : Option Nat)
    (o' : Nat) (h : o < 2) (h' : o' < 2) (hne : o' ≠ o) :
    (e.setAdjacentPoly o p).adjacentPoly o' = e.adjacentPoly o' := by
  unfold Edge.setAdjacentPoly Edge.adjacentPoly
  interval_cases o <;> interval_cases o' <;> simp_all

theorem Edge.setIndex_indices_bound (e : Edge) (o v V : Nat)
    (h1 : e.indices.1 < V) (h2 : e.indices.2 < V) (hv : v < V) :
    (e.setIndex o v).indices.1 < V ∧ (e.setIndex o v).indices.2 < V := by
  unfold Edge.setIndex
  by_cases h : o = 0 <;> simp [h, h1, h2, hv]

theorem arenaGet_set_ne (es : List Edge) (i : Nat) (x : Edge) (e : Nat) (h : i ≠ e) :
    arenaGet (es.set i x) e = arenaGet es e :=
  getD_set_ne es i e x default h

theorem arenaGet_set_self (es : List Edge) (i : Nat) (x : Edge) (h : i < es.length) :
    arenaGet (es.set i x) i = x :=
  getD_set_self es i x default h

theorem arenaGet_append_left (es l : List Edge) (e : Nat) (h : e < es.length) :
    arenaGet (es ++ l) e = arenaGet es e :=
  List.getD_append es l default e h

theorem arenaGet_append_right (es l : List Edge) (k : Nat) :
    arenaGet (es ++ l) (es.length + k) = arenaGet l k := by
  unfold arenaGet
  rw [List.getD_eq_getElem?_getD, List.getD_eq_getElem?_getD,
    List.getElem?_append_right (by omega), Nat.add_sub_cancel_left]

theorem length_arenaSetIndex (es : List Edge) (i o v : Nat) :
    (arenaSetIndex es i o v).length = es.length := by
  unfold arenaSetIndex
  exact List.length_set es i _

theorem length_arenaSetAdj (es : List Edge) (i o : Nat) (p : Option Nat) :
    (arenaSetAdj es i o p).length = es.length := by
  unfold arenaSetAdj
  exact List.length_set es i _

theorem arenaGet_setIndex_ne (es : List Edge) (i o v e : Nat) (h : i ≠ e) :
    arenaGet (arenaSetIndex es i o v) e = arenaGet es e :=
  arenaGet_set_ne es i _ e h

theorem arenaGet_setIndex_self (es : List Edge) (i o v : Nat) (h : i < es.length) :
    arenaGet (arenaSetIndex es i o v) i = (arenaGet es i).setIndex o v :=
  arenaGet_set_self es i _ h

theorem arenaGet_setAdj_ne (es : List Edge) (i o : Nat) (p : Option Nat) (e : Nat)
    (h : i ≠ e) : arenaGet (arenaSetAdj es i o p) e = arenaGet es e :=
  arenaGet_set_ne es i _ e h

theorem arenaGet_setAdj_self (es : List Edge) (i o : Nat) (p : Option Nat)
    (h : i < es.length) :
    arenaGet (arenaSetAdj es i o p) i = (arenaGet es i).setAdjacentPoly o p :=
  arenaGet_set_self es i _ h

theorem length_foldl_setAdj (entries : List OrientedEdge) (es : List Edge)
    (v : Option Nat) :
    (entries.foldl (fun es oe => arenaSetAdj es oe.edge oe.orientation v) es).length =
      es.length := by
  induction entries generalizing es with
  | nil => rfl
  | cons a as ih => rw [List.foldl_cons, ih, length_arenaSetAdj]

theorem arenaGet_foldl_setAdj_of_not_mem (entries : List OrientedEdge) (es : List Edge)
    (v : Option Nat) (e : Nat) (h : ∀ oe ∈ entries, oe.edge ≠ e) :
    arenaGet (entries.foldl (fun es oe => arenaSetAdj es oe.edge oe.orientation v) es) e =
      arenaGet es e := by
  induction entries generalizing es with
  | nil => rfl
  | cons a as ih =>
    rw [List.foldl_cons, ih _ (fun oe hoe => h oe (List.mem_cons_of_mem _ hoe)),
      arenaGet_setAdj_ne _ _ _ _ _ (h a (List.mem_cons_self _ _))]

theorem indices_foldl_setAdj (entries : List OrientedEdge) (es : List Edge)
    (v : Option Nat) (e : Nat) :
    (arenaGet (entries.foldl (fun es oe => arenaSetAdj es oe.edge oe.orientation v) es)
        e).indices = (arenaGet es e).indices := by
  induction entries generalizing es with
  | nil => rfl
  | cons a as ih =>
    rw [List.foldl_cons, ih]
    by_cases he : a.edge = e
    · subst he
      by_cases hlt : a.edge < es.length
      · rw [arenaGet_setAdj_self _ _ _ _ hlt, Edge.indices_setAdjacentPoly]
      · unfold arenaSetAdj
        rw [List.set_eq_of_length_le (by omega)]
    · rw [arenaGet_setAdj_ne _ _ _ _ _ he]

theorem adjacentPoly_foldl_setAdj_of_not_written (entries : List OrientedEdge)
    (es : List Edge) (v : Option Nat) (e s : Nat) (hs : s < 2)
    (h : ∀ oe ∈ entries, oe.edge = e → oe.orientation < 2 ∧ oe.orientation ≠ s) :
    (arenaGet (entries.foldl (fun es oe => arenaSetAdj es oe.edge oe.orientation v) es)
        e).adjacentPoly s = (arenaGet es e).adjacentPoly s := by
  induction entries generalizing es with
  | nil => rfl
  | cons a as ih =>
    rw [List.foldl_cons, ih _ (fun oe hoe => h oe (List.mem_cons_of_mem _ hoe))]
    by_cases he : a.edge = e
    · subst he
      obtain ⟨ho2, hos⟩ := h a (List.mem_cons_self _ _) rfl
      by_cases hlt : a.edge < es.length
      · rw [arenaGet_setAdj_self _ _ _ _ hlt,
          Edge.adjacentPoly_setAdjacentPoly_other _ _ _ _ ho2 hs (Ne.symm hos)]
      · unfold arenaSetAdj
        rw [List.set_eq_of_length_le (by omega)]
    · rw [arenaGet_setAdj_ne _ _ _ _ _ he]

theorem adjacentPoly_foldl_setAdj_of_written (A B : List OrientedEdge)
    (z : OrientedEdge) (es : List Edge) (v : Option Nat)
    (hz : z.edge < es.length) (hzo : z.orientation < 2)
    (hA : ∀ y ∈ A, y.edge ≠ z.edge) (hB : ∀ y ∈ B, y.edge ≠ z.edge) :
    (arenaGet ((A ++ z :: B).foldl
        (fun es oe => arenaSetAdj es oe.edge oe.orientation v) es)
      z.edge).adjacentPoly z.orientation = v := by
  rw [List.foldl_append, List.foldl_cons]
  rw [arenaGet_foldl_setAdj_of_not_mem _ _ _ _ hB]
  have hlen : z.edge < (A.foldl (fun es oe => arenaSetAdj es oe.edge oe.orientation v)
      es).length := by
    rw [length_foldl_setAdj]
    exact hz
  rw [arenaGet_setAdj_self _ _ _ _ hlen, Edge.adjacentPoly_setAdjacentPoly_self]

/-! ## Decomposition and far-side splice toolkit -/

theorem nodup_map_eq_of_mem {α β : Type} (l : List α) (f : α → β)
    (hnd : (l.map f).Nodup) (a b : α) (ha : a ∈ l) (hb : b ∈ l) (hf : f a = f b) :
    a = b := by
  induction l with
  | nil => exact absurd ha (List.not_mem_nil a)
  | cons x t ih =>
    rw [List.map_cons, List.nodup_cons] at hnd
    rcases List.mem_cons.1 ha with rfl | haT
    · rcases List.mem_cons.1 hb with rfl | hbT
      · rfl
      · exact absurd (by rw [hf]; exact List.mem_map_of_mem f hbT) hnd.1
    · rcases List.mem_cons.1 hb with rfl | hbT
      · exact absurd (by rw [← hf]; exact List.mem_map_of_mem f haT) hnd.1
      · exact ih hnd.2 haT hbT

/-- A polygon with no repeated edge splits around any of its entries, with the
entry's edge absent from both sides. -/
theorem mem_decomp_nodup (N : IndexedPolygon) (z : OrientedEdge) (hz : z ∈ N)
    (hnd : (N.map OrientedEdge.edge).Nodup) :
    ∃ A B, N = A ++ z :: B ∧ (∀ y ∈ A, y.edge ≠ z.edge) ∧
      (∀ y ∈ B, y.edge ≠ z.edge) := by
  obtain ⟨A, B, rfl⟩ := List.append_of_mem hz
  refine ⟨A, B, rfl, ?_, ?_⟩
  · intro y hy hye
    rw [List.map_append, List.map_cons] at hnd
    have hdisj := (List.nodup_append.1 hnd).2.2
    exact hdisj (hye ▸ List.mem_map_of_mem OrientedEdge.edge hy)
      (List.mem_cons_self _ _)
  · intro y hy hye
    rw [List.map_append, List.map_cons] at hnd
    have := (List.nodup_append.1 hnd).2.1
    rw [List.nodup_cons] at this
    exact this.1 (hye ▸ List.mem_map_of_mem OrientedEdge.edge hy)

theorem insertIdx_append_length {α : Type} (A B : List α) (x : α) :
    (A ++ B).insertIdx A.length x = A ++ x :: B := by
  induction A with
  | nil => rfl
  | cons a as ih => simpa using ih

theorem findIdx_edge_decomp (A B : List OrientedEdge) (z : OrientedEdge) (e : Nat)
    (hze : z.edge = e) (hA : ∀ y ∈ A, y.edge ≠ e) :
    (A ++ z :: B).findIdx (fun x => x.edge == e) = A.length := by
  induction A with
  | nil =>
    rw [List.nil_append, List.findIdx_cons]
    simp [hze]
  | cons a as ih =>
    rw [List.cons_append, List.findIdx_cons]
    have ha : (a.edge == e) = false := by
      simp [hA a (List.mem_cons_self _ _)]
    rw [ha]
    simp only [cond_false, List.length_cons]
    rw [ih (fun y hy => hA y (List.mem_cons_of_mem _ hy))]

theorem spliceIntoNeighbor_length (es : List Edge) (polys : List IndexedPolygon)
    (oe rev : OrientedEdge) :
    (PolygonMesh.spliceIntoNeighbor es polys oe rev).length = polys.length := by
  unfold PolygonMesh.spliceIntoNeighbor
  rcases (arenaGet es oe.edge).adjacentPoly (1 - oe.orientation) with - | op
  · rfl
  · dsimp only
    split
    · exact List.length_set polys op _
    · rfl

theorem spliceIntoNeighbor_of_none (es : List Edge) (polys : List IndexedPolygon)
    (oe rev : OrientedEdge)
    (h : (arenaGet es oe.edge).adjacentPoly (1 - oe.orientation) = none) :
    PolygonMesh.spliceIntoNeighbor es polys oe rev = polys := by
  unfold PolygonMesh.spliceIntoNeighbor
  rw [h]

theorem spliceIntoNeighbor_getD_other (es : List Edge) (polys : List IndexedPolygon)
    (oe rev : OrientedEdge) (q : Nat)
    (h : (arenaGet es oe.edge).adjacentPoly (1 - oe.orientation) ≠ some q) :
    (PolygonMesh.spliceIntoNeighbor es polys oe rev).getD q [] = polys.getD q [] := by
  unfold PolygonMesh.spliceIntoNeighbor
  rcases hadj : (arenaGet es oe.edge).adjacentPoly (1 - oe.orientation) with - | op
  · rfl
  · dsimp only
    split
    · exact getD_set_ne _ _ _ _ _ (by rintro rfl; exact h hadj)
    · rfl

theorem spliceIntoNeighbor_getD_target (es : List Edge) (polys : List IndexedPolygon)
    (oe rev : OrientedEdge) (q : Nat)
    (h : (arenaGet es oe.edge).adjacentPoly (1 - oe.orientation) = some q)
    (hk : (polys.getD q []).findIdx (fun x => x.edge == oe.edge) <
      (polys.getD q []).length)
    (hq : q < polys.length) :
    (PolygonMesh.spliceIntoNeighbor es polys oe rev).getD q [] =
      (polys.getD q []).insertIdx
        ((polys.getD q []).findIdx fun x => x.edge == oe.edge) rev := by
  unfold PolygonMesh.spliceIntoNeighbor
  rw [h]
  dsimp only
  rw [if_pos hk]
  exact getD_set_self _ _ _ _ hq

/-! ## Polygon decomposition and closure bridge -/

theorem getD_mem {α : Type} (l : List α) (i : Nat) (d : α) (h : i < l.length) :
    l.getD i d ∈ l := by
  rw [List.getD_eq_getElem _ _ h]
  exact List.getElem_mem h

theorem one_sub_one_sub (o : Nat) (h : o < 2) : 1 - (1 - o) = o := by omega

theorem one_sub_lt_two (o : Nat) : 1 - o < 2 := by omega

theorem one_sub_ne (o : Nat) (h : o < 2) : 1 - o ≠ o := by omega

theorem getD_map_pairOf (es : List Edge) (l : IndexedPolygon) (i : Nat)
    (h : i < l.length) :
    (l.map (pairOf es)).getD i default = pairOf es (l.getD i default) := by
  rw [List.getD_eq_getElem _ _ (by simpa using h), List.getD_eq_getElem _ _ h]
  exact List.getElem_map (pairOf es)

/-- Closure of a polygon is the cyclic-chain property of its pair walk. -/
theorem polyClosed_iff_cyclicChain (es : List Edge) (l : IndexedPolygon) :
    PolyClosed es l ↔ CyclicChain (l.map (pairOf es)) := by
  unfold PolyClosed CyclicChain
  constructor
  · intro h i hi
    rw [List.length_map] at hi
    rw [getD_map_pairOf es l i hi, List.length_map,
      getD_map_pairOf es l _ (Nat.mod_lt _ (by omega))]
    exact h i hi
  · intro h i hi
    have h1 := h i (by simpa using hi)
    rw [getD_map_pairOf es l i hi, List.length_map,
      getD_map_pairOf es l _ (Nat.mod_lt _ (by omega))] at h1
    exact h1

/-- If every entry's (lead, trail) pair is unchanged between two arenas, the
polygon stays closed. -/
theorem polyClosed_of_pairs_eq (es es' : List Edge) (l : IndexedPolygon)
    (h : ∀ oe ∈ l, pairOf es' oe = pairOf es oe) (hcl : PolyClosed es l) :
    PolyClosed es' l := by
  intro i hi
  have h1 := hcl i hi
  have e1 := h (l.getD i default) (getD_mem l i default hi)
  have e2 := h (l.getD ((i + 1) % l.length) default)
    (getD_mem l _ default (Nat.mod_lt _ (by omega)))
  unfold pairOf at e1 e2
  unfold leadVertex trailVertex at e1 e2 ⊢
  have t1 := congrArg Prod.snd e1
  have t2 := congrArg Prod.fst e2
  simp only at t1 t2
  rw [t1, t2]
  exact h1

theorem nodup_not_mem_both {α β : Type} (A B : List α) (f : α → β) (e : β)
    (hnd : ((A ++ B).map f).Nodup) (hA : e ∈ A.map f) (hB : e ∈ B.map f) : False := by
  rw [List.map_append, List.nodup_append] at hnd
  exact hnd.2.2 hA hB

/-- Splitting a polygon list at two ordered positions. -/
theorem poly_decomp (l : List OrientedEdge) (i0 i1 : Nat) (h01 : i0 < i1)
    (h1 : i1 < l.length) :
    l = l.take i0 ++ (l.getD i0 default ::
      (((l.drop (i0 + 1)).take (i1 - i0 - 1)) ++ (l.getD i1 default :: l.drop (i1 + 1)))) := by
  have hi0 : i0 < l.length := by omega
  have hd0 : l.drop i0 = l.getD i0 default :: l.drop (i0 + 1) := by
    rw [List.getD_eq_getElem _ _ hi0]
    exact List.drop_eq_getElem_cons hi0
  have hd1 : l.drop i1 = l.getD i1 default :: l.drop (i1 + 1) := by
    rw [List.getD_eq_getElem _ _ h1]
    exact List.drop_eq_getElem_cons h1
  have hsplit2 : l.drop (i0 + 1) =
      ((l.drop (i0 + 1)).take (i1 - i0 - 1)) ++ (l.getD i1 default :: l.drop (i1 + 1)) := by
    conv_lhs => rw [← List.take_append_drop (i1 - i0 - 1) (l.drop (i0 + 1))]
    rw [List.drop_drop]
    have harith : i0 + 1 + (i1 - i0 - 1) = i1 := by omega
    rw [harith, hd1]
  conv_lhs => rw [← List.take_append_drop i0 l, hd0, hsplit2]

/-- The slice `poly.slice(i0+1, i1+1)` is the strictly-between span plus the
second split entry. -/
theorem slice_decomp (l : List OrientedEdge) (i0 i1 : Nat) (h01 : i0 < i1)
    (h1 : i1 < l.length) :
    (l.drop (i0 + 1)).take (i1 - i0) =
      ((l.drop (i0 + 1)).take (i1 - i0 - 1)) ++ [l.getD i1 default] := by
  have hk : i1 - i0 = (i1 - i0 - 1) + 1 := by omega
  rw [hk, List.take_succ]
  congr 1
  have hlt : i1 - i0 - 1 < (l.drop (i0 + 1)).length := by
    rw [List.length_drop]
    omega
  rw [List.getElem?_eq_getElem hlt]
  have : (l.drop (i0 + 1))[i1 - i0 - 1] = l[i0 + 1 + (i1 - i0 - 1)] := List.getElem_drop l
  rw [this]
  have harith : i0 + 1 + (i1 - i0 - 1) = i1 := by omega
  simp only [harith]
  rw [List.getD_eq_getElem _ _ h1]
  rfl

/-- The strictly-between span avoids both split edges and is itself
edge-nodup; similarly for the outer spans.  Stated for any decomposition of a
polygon with nodup edge ids. -/
theorem parts_edge_free (Pp Qq Ss : List OrientedEdge) (z0 z1 : OrientedEdge)
    (hnd : ((Pp ++ (z0 :: (Qq ++ (z1 :: Ss)))).map OrientedEdge.edge).Nodup) :
    (∀ y ∈ Pp, y.edge ≠ z0.edge ∧ y.edge ≠ z1.edge) ∧
    (∀ y ∈ Qq, y.edge ≠ z0.edge ∧ y.edge ≠ z1.edge) ∧
    (∀ y ∈ Ss, y.edge ≠ z0.edge ∧ y.edge ≠ z1.edge) ∧
    z0.edge ≠ z1.edge := by
  have hmap : (Pp ++ (z0 :: (Qq ++ (z1 :: Ss)))).map OrientedEdge.edge =
      Pp.map OrientedEdge.edge ++ (z0.edge ::
        (Qq.map OrientedEdge.edge ++ (z1.edge :: Ss.map OrientedEdge.edge))) := by
    simp
  rw [hmap, List.nodup_append] at hnd
  obtain ⟨hndP, hndR, hdisj⟩ := hnd
  rw [List.nodup_cons] at hndR
  obtain ⟨hz0notin, hndR2⟩ := hndR
  rw [List.nodup_append] at hndR2
  obtain ⟨hndQ, hndz1S, hdisj2⟩ := hndR2
  rw [List.nodup_cons] at hndz1S
  obtain ⟨hz1notin, hndS⟩ := hndz1S
  refine ⟨?_, ?_, ?_, ?_⟩
  · intro y hy
    have hyin : y.edge ∈ Pp.map OrientedEdge.edge := List.mem_map_of_mem _ hy
    constructor
    · intro he
      exact hdisj hyin (by rw [← he]; exact List.mem_cons_self _ _)
    · intro he
      refine hdisj hyin ?_
      exact List.mem_cons_of_mem _
        (List.mem_append_right _ (by rw [← he]; exact List.mem_cons_self _ _))
  · intro y hy
    have hyin : y.edge ∈ Qq.map OrientedEdge.edge := List.mem_map_of_mem _ hy
    constructor
    · intro he
      exact hz0notin (List.mem_append_left _ (he ▸ hyin))
    · intro he
      exact hdisj2 hyin (by rw [← he]; exact List.mem_cons_self _ _)
  · intro y hy
    have hyin : y.edge ∈ Ss.map OrientedEdge.edge := List.mem_map_of_mem _ hy
    constructor
    · intro he
      exact hz0notin (List.mem_append_right _ (List.mem_cons_of_mem _ (he ▸ hyin)))
    · intro he
      exact hz1notin (he ▸ hyin)
  · intro he
    exact hz0notin (List.mem_append_right _ (by rw [he]; exact List.mem_cons_self _ _))

/-! ## Stage characterisations of the split under the mesh invariant -/

/-- An edge used by polygon `p` on side `o` meets its far-side polygon `q`
(when present) with the opposite orientation; `q` is a valid polygon distinct
from `p`. -/
theorem neighbor_facts (m : PolygonMesh) (inv : MeshInv m) (p : Nat)
    (hp : p < m.polygons.length) (oe : OrientedEdge)
    (hmem : oe ∈ m.polygons.getD p []) (q : Nat)
    (hq : (arenaGet m.edgeStore oe.edge).adjacentPoly (1 - oe.orientation) = some q) :
    q < m.polygons.length ∧ q ≠ p ∧
      (⟨oe.edge, 1 - oe.orientation⟩ : OrientedEdge) ∈ m.polygons.getD q [] := by
  have hpolymem : m.polygons.getD p [] ∈ m.polygons := getD_mem _ _ _ hp
  have hwf := inv.wf _ hpolymem oe hmem
  have hae := inv.adjEntry oe.edge hwf.1 (1 - oe.orientation) (one_sub_lt_two _) q hq
  refine ⟨hae.1, ?_, hae.2⟩
  rintro rfl
  have heq := nodup_map_eq_of_mem _ OrientedEdge.edge (inv.nodupEdges _ hpolymem)
    oe ⟨oe.edge, 1 - oe.orientation⟩ hmem hae.2 rfl
  have hor : oe.orientation = 1 - oe.orientation := congrArg OrientedEdge.orientation heq
  omega

/-- A far-side fix-up never touches the polygon being split (its far sides are
other polygons). -/
theorem spliceIntoNeighbor_getD_split (m : PolygonMesh) (inv : MeshInv m) (p : Nat)
    (hp : p < m.polygons.length) (polys2 : List IndexedPolygon) (oe rev : OrientedEdge)
    (hmem : oe ∈ m.polygons.getD p []) :
    (PolygonMesh.spliceIntoNeighbor m.edgeStore polys2 oe rev).getD p [] =
      polys2.getD p [] := by
  rcases hadj : (arenaGet m.edgeStore oe.edge).adjacentPoly (1 - oe.orientation)
    with - | q
  · rw [spliceIntoNeighbor_of_none _ _ _ _ hadj]
  · have hq := neighbor_facts m inv p hp oe hmem q hadj
    apply spliceIntoNeighbor_getD_other
    rw [hadj]
    intro hcontra
    injection hcontra with hcontra
    exact hq.2.1 hcontra

/-- Under the invariant, the TypeScript alias `poly` still denotes the split
polygon after the far-side fix-ups. -/
theorem sPolyCur_eq (m : PolygonMesh) (p i0 i1 : Nat) (inv : MeshInv m)
    (hp : p < m.polygons.length)
    (hi0 : i0 < (m.polygons.getD p []).length)
    (hi1 : i1 < (m.polygons.getD p []).length) :
    PolygonMesh.sPolyCur m p i0 i1 = m.polygons.getD p [] := by
  unfold PolygonMesh.sPolyCur PolygonMesh.sPolysA
  rw [spliceIntoNeighbor_getD_split m inv p hp _ (PolygonMesh.sOe1 m p i1) _
    (getD_mem _ _ _ hi1)]
  rw [spliceIntoNeighbor_getD_split m inv p hp _ (PolygonMesh.sOe0 m p i0) _
    (getD_mem _ _ _ hi0)]

theorem sPolysA_length (m : PolygonMesh) (p i0 i1 : Nat) :
    (PolygonMesh.sPolysA m p i0 i1).length = m.polygons.length := by
  unfold PolygonMesh.sPolysA
  rw [spliceIntoNeighbor_length, spliceIntoNeighbor_length]

theorem sEs5_length (m : PolygonMesh) (p i0 i1 : Nat) :
    (PolygonMesh.sEs5 m p i0 i1).length = m.edgeStore.length + 3 := by
  unfold PolygonMesh.sEs5
  rw [length_arenaSetIndex, length_arenaSetIndex, length_arenaSetIndex,
    length_arenaSetIndex]
  simp

theorem sEs7_length (m : PolygonMesh) (p i0 i1 : Nat) :
    (PolygonMesh.sEs7 m p i0 i1).length = m.edgeStore.length + 3 := by
  unfold PolygonMesh.sEs7
  rw [length_foldl_setAdj, List.length_set]
  exact sEs5_length m p i0 i1

theorem length_sEs1 (m : PolygonMesh) (p i0 i1 : Nat) :
    (m.edgeStore ++ [arenaGet m.edgeStore (PolygonMesh.sOe0 m p i0).edge,
      arenaGet m.edgeStore (PolygonMesh.sOe1 m p i1).edge,
      { indices := (m.vertices.length, m.vertices.length + 1),
        adjacentPolys := (none, none) }]).length = m.edgeStore.length + 3 := by
  simp

theorem arenaGet_sEs5_old (m : PolygonMesh) (p i0 i1 : Nat) (x : Nat)
    (hx : x < m.edgeStore.length)
    (hx0 : x ≠ (PolygonMesh.sOe0 m p i0).edge)
    (hx1 : x ≠ (PolygonMesh.sOe1 m p i1).edge) :
    arenaGet (PolygonMesh.sEs5 m p i0 i1) x = arenaGet m.edgeStore x := by
  unfold PolygonMesh.sEs5
  rw [arenaGet_setIndex_ne _ _ _ _ _ (show PolygonMesh.sNewId1 m ≠ x by
      unfold PolygonMesh.sNewId1; omega),
    arenaGet_setIndex_ne _ _ _ _ _ (Ne.symm hx1),
    arenaGet_setIndex_ne _ _ _ _ _ (show PolygonMesh.sNewId0 m ≠ x by
      unfold PolygonMesh.sNewId0; omega),
    arenaGet_setIndex_ne _ _ _ _ _ (Ne.symm hx0),
    arenaGet_append_left _ _ _ hx]

theorem arenaGet_sEs5_e0 (m : PolygonMesh) (p i0 i1 : Nat)
    (he0 : (PolygonMesh.sOe0 m p i0).edge < m.edgeStore.length)
    (hne : (PolygonMesh.sOe0 m p i0).edge ≠ (PolygonMesh.sOe1 m p i1).edge) :
    arenaGet (PolygonMesh.sEs5 m p i0 i1) (PolygonMesh.sOe0 m p i0).edge =
      (arenaGet m.edgeStore (PolygonMesh.sOe0 m p i0).edge).setIndex
        (1 - (PolygonMesh.sOe0 m p i0).orientation) m.vertices.length := by
  unfold PolygonMesh.sEs5
  rw [arenaGet_setIndex_ne _ _ _ _ _ (show PolygonMesh.sNewId1 m ≠ _ by
      unfold PolygonMesh.sNewId1; omega),
    arenaGet_setIndex_ne _ _ _ _ _ (fun h => hne h.symm),
    arenaGet_setIndex_ne _ _ _ _ _ (show PolygonMesh.sNewId0 m ≠ _ by
      unfold PolygonMesh.sNewId0; omega),
    arenaGet_setIndex_self _ _ _ _ (by rw [length_sEs1 m p i0 i1]; omega),
    arenaGet_append_left _ _ _ he0]

theorem arenaGet_sEs5_e1 (m : PolygonMesh) (p i0 i1 : Nat)
    (he1 : (PolygonMesh.sOe1 m p i1).edge < m.edgeStore.length)
    (hne : (PolygonMesh.sOe0 m p i0).edge ≠ (PolygonMesh.sOe1 m p i1).edge) :
    arenaGet (PolygonMesh.sEs5 m p i0 i1) (PolygonMesh.sOe1 m p i1).edge =
      (arenaGet m.edgeStore (PolygonMesh.sOe1 m p i1).edge).setIndex
        (1 - (PolygonMesh.sOe1 m p i1).orientation) (m.vertices.length + 1) := by
  unfold PolygonMesh.sEs5
  rw [arenaGet_setIndex_ne _ _ _ _ _ (show PolygonMesh.sNewId1 m ≠ _ by
      unfold PolygonMesh.sNewId1; omega),
    arenaGet_setIndex_self _ _ _ _ (by
      rw [length_arenaSetIndex, length_arenaSetIndex, length_sEs1 m p i0 i1]; omega),
    arenaGet_setIndex_ne _ _ _ _ _ (show PolygonMesh.sNewId0 m ≠ _ by
      unfold PolygonMesh.sNewId0; omega),
    arenaGet_setIndex_ne _ _ _ _ _ hne,
    arenaGet_append_left _ _ _ he1]

theorem arenaGet_sEs5_nid0 (m : PolygonMesh) (p i0 i1 : Nat)
    (he0 : (PolygonMesh.sOe0 m p i0).edge < m.edgeStore.length)
    (he1 : (PolygonMesh.sOe1 m p i1).edge < m.edgeStore.length) :
    arenaGet (PolygonMesh.sEs5 m p i0 i1) (PolygonMesh.sNewId0 m) =
      (arenaGet m.edgeStore (PolygonMesh.sOe0 m p i0).edge).setIndex
        (PolygonMesh.sOe0 m p i0).orientation m.vertices.length := by
  unfold PolygonMesh.sEs5
  rw [arenaGet_setIndex_ne _ _ _ _ _ (show PolygonMesh.sNewId1 m ≠ PolygonMesh.sNewId0 m by
      unfold PolygonMesh.sNewId1 PolygonMesh.sNewId0; omega),
    arenaGet_setIndex_ne _ _ _ _ _ (show (PolygonMesh.sOe1 m p i1).edge ≠
      PolygonMesh.sNewId0 m by unfold PolygonMesh.sNewId0; omega),
    arenaGet_setIndex_self _ _ _ _ (by
      rw [length_arenaSetIndex, length_sEs1 m p i0 i1]
      unfold PolygonMesh.sNewId0; omega),
    arenaGet_setIndex_ne _ _ _ _ _ (show (PolygonMesh.sOe0 m p i0).edge ≠
      PolygonMesh.sNewId0 m by unfold PolygonMesh.sNewId0; omega)]
  congr 1
  show arenaGet _ (m.edgeStore.length + 0) = _
  rw [arenaGet_append_right]
  rfl

theorem arenaGet_sEs5_nid1 (m : PolygonMesh) (p i0 i1 : Nat)
    (he0 : (PolygonMesh.sOe0 m p i0).edge < m.edgeStore.length)
    (he1 : (PolygonMesh.sOe1 m p i1).edge < m.edgeStore.length) :
    arenaGet (PolygonMesh.sEs5 m p i0 i1) (PolygonMesh.sNewId1 m) =
      (arenaGet m.edgeStore (PolygonMesh.sOe1 m p i1).edge).setIndex
        (PolygonMesh.sOe1 m p i1).orientation (m.vertices.length + 1) := by
  unfold PolygonMesh.sEs5
  rw [arenaGet_setIndex_self _ _ _ _ (by
      rw [length_arenaSetIndex, length_arenaSetIndex, length_arenaSetIndex,
        length_sEs1 m p i0 i1]
      unfold PolygonMesh.sNewId1; omega),
    arenaGet_setIndex_ne _ _ _ _ _ (show (PolygonMesh.sOe1 m p i1).edge ≠
      PolygonMesh.sNewId1 m by unfold PolygonMesh.sNewId1; omega),
    arenaGet_setIndex_ne _ _ _ _ _ (show PolygonMesh.sNewId0 m ≠
      PolygonMesh.sNewId1 m by unfold PolygonMesh.sNewId0 PolygonMesh.sNewId1; omega),
    arenaGet_setIndex_ne _ _ _ _ _ (show (PolygonMesh.sOe0 m p i0).edge ≠
      PolygonMesh.sNewId1 m by unfold PolygonMesh.sNewId1; omega)]
  congr 1
  show arenaGet _ (m.edgeStore.length + 1) = _
  rw [arenaGet_append_right]
  rfl

theorem arenaGet_sEs5_mid (m : PolygonMesh) (p i0 i1 : Nat)
    (he0 : (PolygonMesh.sOe0 m p i0).edge < m.edgeStore.length)
    (he1 : (PolygonMesh.sOe1 m p i1).edge < m.edgeStore.length) :
    arenaGet (PolygonMesh.sEs5 m p i0 i1) (PolygonMesh.sMiddleId m) =
      { indices := (m.vertices.length, m.vertices.length + 1),
        adjacentPolys := (none, none) } := by
  unfold PolygonMesh.sEs5
  rw [arenaGet_setIndex_ne _ _ _ _ _ (show PolygonMesh.sNewId1 m ≠
      PolygonMesh.sMiddleId m by unfold PolygonMesh.sNewId1 PolygonMesh.sMiddleId; omega),
    arenaGet_setIndex_ne _ _ _ _ _ (show (PolygonMesh.sOe1 m p i1).edge ≠
      PolygonMesh.sMiddleId m by unfold PolygonMesh.sMiddleId; omega),
    arenaGet_setIndex_ne _ _ _ _ _ (show PolygonMesh.sNewId0 m ≠
      PolygonMesh.sMiddleId m by unfold PolygonMesh.sNewId0 PolygonMesh.sMiddleId; omega),
    arenaGet_setIndex_ne _ _ _ _ _ (show (PolygonMesh.sOe0 m p i0).edge ≠
      PolygonMesh.sMiddleId m by unfold PolygonMesh.sMiddleId; omega)]
  show arenaGet _ (m.edgeStore.length + 2) = _
  rw [arenaGet_append_right]
  rfl

/-- The endpoint-rewiring writes do not touch any adjacency slot. -/
theorem adj_sEs5_old (m : PolygonMesh) (p i0 i1 : Nat) (x : Nat)
    (hx : x < m.edgeStore.length)
    (he0 : (PolygonMesh.sOe0 m p i0).edge < m.edgeStore.length)
    (he1 : (PolygonMesh.sOe1 m p i1).edge < m.edgeStore.length)
    (hne : (PolygonMesh.sOe0 m p i0).edge ≠ (PolygonMesh.sOe1 m p i1).edge) (s : Nat) :
    (arenaGet (PolygonMesh.sEs5 m p i0 i1) x).adjacentPoly s =
      (arenaGet m.edgeStore x).adjacentPoly s := by
  by_cases h0 : x = (PolygonMesh.sOe0 m p i0).edge
  · subst h0
    rw [arenaGet_sEs5_e0 m p i0 i1 he0 hne, Edge.adjacentPoly_setIndex]
  by_cases h1 : x = (PolygonMesh.sOe1 m p i1).edge
  · subst h1
    rw [arenaGet_sEs5_e1 m p i0 i1 he1 hne, Edge.adjacentPoly_setIndex]
  rw [arenaGet_sEs5_old m p i0 i1 x hx h0 h1]

theorem adj_sEs5_nid0 (m : PolygonMesh) (p i0 i1 : Nat)
    (he0 : (PolygonMesh.sOe0 m p i0).edge < m.edgeStore.length)
    (he1 : (PolygonMesh.sOe1 m p i1).edge < m.edgeStore.length) (s : Nat) :
    (arenaGet (PolygonMesh.sEs5 m p i0 i1) (PolygonMesh.sNewId0 m)).adjacentPoly s =
      (arenaGet m.edgeStore (PolygonMesh.sOe0 m p i0).edge).adjacentPoly s := by
  rw [arenaGet_sEs5_nid0 m p i0 i1 he0 he1, Edge.adjacentPoly_setIndex]

theorem adj_sEs5_nid1 (m : PolygonMesh) (p i0 i1 : Nat)
    (he0 : (PolygonMesh.sOe0 m p i0).edge < m.edgeStore.length)
    (he1 : (PolygonMesh.sOe1 m p i1).edge < m.edgeStore.length) (s : Nat) :
    (arenaGet (PolygonMesh.sEs5 m p i0 i1) (PolygonMesh.sNewId1 m)).adjacentPoly s =
      (arenaGet m.edgeStore (PolygonMesh.sOe1 m p i1).edge).adjacentPoly s := by
  rw [arenaGet_sEs5_nid1 m p i0 i1 he0 he1, Edge.adjacentPoly_setIndex]

theorem take_succ_getD {α : Type} (l : List α) (i : Nat) (d : α) (h : i < l.length) :
    l.take (i + 1) = l.take i ++ [l.getD i d] := by
  rw [List.take_succ, List.getElem?_eq_getElem h, List.getD_eq_getElem _ _ h]
  rfl

theorem nodup_getD_edge_ne (l : IndexedPolygon)
    (hnd : (l.map OrientedEdge.edge).Nodup) (i j : Nat) (hi : i < l.length)
    (hj : j < l.length) (hij : i ≠ j) :
    (l.getD i default).edge ≠ (l.getD j default).edge := by
  induction l generalizing i j with
  | nil => exact absurd hi (by simp)
  | cons x t ih =>
    rw [List.map_cons, List.nodup_cons] at hnd
    cases i with
    | zero =>
      cases j with
      | zero => exact absurd rfl hij
      | succ j' =>
        rw [List.getD_cons_zero, List.getD_cons_succ]
        intro h
        have hjt : j' < t.length := by
          simp only [List.length_cons] at hj
          omega
        have hmem : (t.getD j' default).edge ∈ t.map OrientedEdge.edge :=
          List.mem_map_of_mem _ (getD_mem _ _ _ hjt)
        rw [← h] at hmem
        exact hnd.1 hmem
    | succ i' =>
      cases j with
      | zero =>
        rw [List.getD_cons_succ, List.getD_cons_zero]
        intro h
        have hit : i' < t.length := by
          simp only [List.length_cons] at hi
          omega
        have hmem : (t.getD i' default).edge ∈ t.map OrientedEdge.edge :=
          List.mem_map_of_mem _ (getD_mem _ _ _ hit)
        rw [h] at hmem
        exact hnd.1 hmem
      | succ j' =>
        rw [List.getD_cons_succ, List.getD_cons_succ]
        exact ih hnd.2 i' j'
          (by simp only [List.length_cons] at hi; omega)
          (by simp only [List.length_cons] at hj; omega) (by omega)

/-- The new polygon, with the slice spelled out: the first new half edge, the
strictly-between span of the old polygon, the second split edge, and the
reversed middle edge. -/
theorem sNewPoly_eq (m : PolygonMesh) (p i0 i1 : Nat) (inv : MeshInv m)
    (hp : p < m.polygons.length) (h01 : i0 < i1)
    (hi1 : i1 < (m.polygons.getD p []).length) :
    PolygonMesh.sNewPoly m p i0 i1 =
      ⟨m.edgeStore.length, ((m.polygons.getD p []).getD i0 default).orientation⟩ ::
        ((((m.polygons.getD p []).drop (i0 + 1)).take (i1 - i0 - 1) ++
          [(m.polygons.getD p []).getD i1 default]) ++
          [⟨m.edgeStore.length + 2, 1⟩]) := by
  unfold PolygonMesh.sNewPoly
  rw [sPolyCur_eq m p i0 i1 inv hp (by omega) hi1]
  rw [slice_decomp _ i0 i1 h01 hi1]
  rfl

/-- The rewritten original polygon, with the splice spelled out: the head of
the old polygon through the first split edge, the middle edge, the second new
half edge, and the tail of the old polygon. -/
theorem sPolyNew_eq (m : PolygonMesh) (p i0 i1 : Nat) (inv : MeshInv m)
    (hp : p < m.polygons.length) (h01 : i0 < i1)
    (hi1 : i1 < (m.polygons.getD p []).length) :
    PolygonMesh.sPolyNew m p i0 i1 =
      ((m.polygons.getD p []).take i0 ++ [(m.polygons.getD p []).getD i0 default]) ++
        ⟨m.edgeStore.length + 2, 0⟩ ::
          ⟨m.edgeStore.length + 1,
            ((m.polygons.getD p []).getD i1 default).orientation⟩ ::
          (m.polygons.getD p []).drop (i1 + 1) := by
  unfold PolygonMesh.sPolyNew
  rw [sPolyCur_eq m p i0 i1 inv hp (by omega) hi1]
  rw [take_succ_getD _ i0 default (by omega)]
  rfl

/-- Every entry of the new polygon is a well-formed reference into the
post-split arena, and its edge is either a fresh id or one of the split
polygon's own edges. -/
theorem sNewPoly_entry_facts (m : PolygonMesh) (p i0 i1 : Nat) (inv : MeshInv m)
    (hp : p < m.polygons.length) (h01 : i0 < i1)
    (hi1 : i1 < (m.polygons.getD p []).length) :
    ∀ z ∈ PolygonMesh.sNewPoly m p i0 i1,
      z.edge < m.edgeStore.length + 3 ∧ z.orientation < 2 ∧
      (z = ⟨m.edgeStore.length,
          ((m.polygons.getD p []).getD i0 default).orientation⟩ ∨
        z ∈ ((m.polygons.getD p []).drop (i0 + 1)).take (i1 - i0 - 1) ∨
        z = (m.polygons.getD p []).getD i1 default ∨
        z = ⟨m.edgeStore.length + 2, 1⟩) := by
  have hpoly_mem : m.polygons.getD p [] ∈ m.polygons := getD_mem _ _ _ hp
  have hwf0 := inv.wf _ hpoly_mem ((m.polygons.getD p []).getD i0 default)
    (getD_mem (m.polygons.getD p []) i0 default (by omega))
  have hwf1 := inv.wf _ hpoly_mem ((m.polygons.getD p []).getD i1 default)
    (getD_mem (m.polygons.getD p []) i1 default hi1)
  intro z hz
  rw [sNewPoly_eq m p i0 i1 inv hp h01 hi1] at hz
  simp only [List.mem_cons, List.mem_append, List.mem_singleton,
    List.mem_nil_iff, or_false] at hz
  rcases hz with rfl | (hq | rfl) | rfl
  · refine ⟨?_, hwf0.2, Or.inl rfl⟩
    show m.edgeStore.length < m.edgeStore.length + 3
    omega
  · have hzp : z ∈ m.polygons.getD p [] :=
      List.mem_of_mem_drop (List.mem_of_mem_take hq)
    have hwfz := inv.wf _ hpoly_mem _ hzp
    exact ⟨by have := hwfz.1; omega, hwfz.2, Or.inr (Or.inl hq)⟩
  · exact ⟨by have := hwf1.1; omega, hwf1.2, Or.inr (Or.inr (Or.inl rfl))⟩
  · refine ⟨?_, ?_, Or.inr (Or.inr (Or.inr rfl))⟩
    · show m.edgeStore.length + 2 < m.edgeStore.length + 3
      omega
    · show (1 : Nat) < 2
      omega

/-- The new polygon has no repeated edge id. -/
theorem sNewPoly_nodup (m : PolygonMesh) (p i0 i1 : Nat) (inv : MeshInv m)
    (hp : p < m.polygons.length) (h01 : i0 < i1)
    (hi1 : i1 < (m.polygons.getD p []).length) :
    ((PolygonMesh.sNewPoly m p i0 i1).map OrientedEdge.edge).Nodup := by
  have hpoly_mem : m.polygons.getD p [] ∈ m.polygons := getD_mem _ _ _ hp
  have hnd := inv.nodupEdges _ hpoly_mem
  have hsub : List.Sublist (((m.polygons.getD p []).drop (i0 + 1)).take (i1 - i0))
      (m.polygons.getD p []) :=
    (List.take_sublist _ _).trans (List.drop_sublist _ _)
  have hndQ : ((((m.polygons.getD p []).drop (i0 + 1)).take (i1 - i0)).map
      OrientedEdge.edge).Nodup := (hsub.map OrientedEdge.edge).nodup hnd
  rw [slice_decomp _ i0 i1 h01 hi1] at hndQ
  have hQbound : ∀ z ∈ ((m.polygons.getD p []).drop (i0 + 1)).take (i1 - i0 - 1) ++
      [(m.polygons.getD p []).getD i1 default], z.edge < m.edgeStore.length := by
    intro z hz
    rw [← slice_decomp _ i0 i1 h01 hi1] at hz
    have hzp : z ∈ m.polygons.getD p [] :=
      List.mem_of_mem_drop (List.mem_of_mem_take hz)
    exact (inv.wf _ hpoly_mem _ hzp).1
  rw [sNewPoly_eq m p i0 i1 inv hp h01 hi1]
  rw [List.map_cons, List.map_append]
  rw [show OrientedEdge.edge ⟨m.edgeStore.length,
    ((m.polygons.getD p []).getD i0 default).orientation⟩ = m.edgeStore.length from rfl]
  rw [show List.map OrientedEdge.edge [(⟨m.edgeStore.length + 2, 1⟩ : OrientedEdge)] =
    [m.edgeStore.length + 2] from rfl]
  refine List.nodup_cons.2 ⟨?_, ?_⟩
  · intro hcon
    rcases List.mem_append.1 hcon with hq | hmid
    · obtain ⟨z, hz, hze⟩ := List.mem_map.1 hq
      have := hQbound z hz
      omega
    · rw [List.mem_singleton] at hmid
      omega
  · refine List.Nodup.append hndQ (List.nodup_singleton _) ?_
    intro a ha hb
    obtain ⟨z, hz, rfl⟩ := List.mem_map.1 ha
    have := hQbound z hz
    rw [List.mem_singleton] at hb
    omega

/-- Every entry of the rewritten original polygon is a well-formed reference
into the post-split arena, with the listed shape. -/
theorem sPolyNew_entry_facts (m : PolygonMesh) (p i0 i1 : Nat) (inv : MeshInv m)
    (hp : p < m.polygons.length) (h01 : i0 < i1)
    (hi1 : i1 < (m.polygons.getD p []).length) :
    ∀ z ∈ PolygonMesh.sPolyNew m p i0 i1,
      z.edge < m.edgeStore.length + 3 ∧ z.orientation < 2 ∧
      (z ∈ (m.polygons.getD p []).take i0 ∨
        z = (m.polygons.getD p []).getD i0 default ∨
        z = ⟨m.edgeStore.length + 2, 0⟩ ∨
        z = ⟨m.edgeStore.length + 1,
          ((m.polygons.getD p []).getD i1 default).orientation⟩ ∨
        z ∈ (m.polygons.getD p []).drop (i1 + 1)) := by
  have hpoly_mem : m.polygons.getD p [] ∈ m.polygons := getD_mem _ _ _ hp
  have hwf0 := inv.wf _ hpoly_mem ((m.polygons.getD p []).getD i0 default)
    (getD_mem (m.polygons.getD p []) i0 default (by omega))
  have hwf1 := inv.wf _ hpoly_mem ((m.polygons.getD p []).getD i1 default)
    (getD_mem (m.polygons.getD p []) i1 default hi1)
  intro z hz
  rw [sPolyNew_eq m p i0 i1 inv hp h01 hi1] at hz
  simp only [List.mem_append, List.mem_cons, List.mem_singleton,
    List.mem_nil_iff, or_false] at hz
  rcases hz with (hP | rfl) | rfl | rfl | hS
  · have hzp : z ∈ m.polygons.getD p [] := List.mem_of_mem_take hP
    have hwfz := inv.wf _ hpoly_mem _ hzp
    exact ⟨by have := hwfz.1; omega, hwfz.2, Or.inl hP⟩
  · exact ⟨by have := hwf0.1; omega, hwf0.2, Or.inr (Or.inl rfl)⟩
  · refine ⟨?_, ?_, Or.inr (Or.inr (Or.inl rfl))⟩
    · show m.edgeStore.length + 2 < m.edgeStore.length + 3
      omega
    · show (0 : Nat) < 2
      omega
  · refine ⟨?_, hwf1.2, Or.inr (Or.inr (Or.inr (Or.inl rfl)))⟩
    show m.edgeStore.length + 1 < m.edgeStore.length + 3
    omega
  · have hzp : z ∈ m.polygons.getD p [] := List.mem_of_mem_drop hS
    have hwfz := inv.wf _ hpoly_mem _ hzp
    exact ⟨by have := hwfz.1; omega, hwfz.2, Or.inr (Or.inr (Or.inr (Or.inr hS)))⟩

/-- The rewritten original polygon has no repeated edge id. -/
theorem sPolyNew_nodup (m : PolygonMesh) (p i0 i1 : Nat) (inv : MeshInv m)
    (hp : p < m.polygons.length) (h01 : i0 < i1)
    (hi1 : i1 < (m.polygons.getD p []).length) :
    ((PolygonMesh.sPolyNew m p i0 i1).map OrientedEdge.edge).Nodup := by
  have hpoly_mem : m.polygons.getD p [] ∈ m.polygons := getD_mem _ _ _ hp
  have hnd := inv.nodupEdges _ hpoly_mem
  have hsub : List.Sublist
      ((m.polygons.getD p []).take i0 ++
        (m.polygons.getD p []).getD i0 default :: (m.polygons.getD p []).drop (i1 + 1))
      (m.polygons.getD p []) := by
    conv_rhs => rw [poly_decomp (m.polygons.getD p []) i0 i1 h01 hi1]
    refine (List.Sublist.append_left ?_ _)
    refine List.Sublist.cons₂ _ ?_
    exact List.Sublist.trans
      (List.sublist_append_right [(m.polygons.getD p []).getD i1 default]
        ((m.polygons.getD p []).drop (i1 + 1)))
      (List.sublist_append_right _ _)
  have hndPS := (hsub.map OrientedEdge.edge).nodup hnd
  rw [List.map_append, List.map_cons] at hndPS
  rw [List.nodup_append] at hndPS
  obtain ⟨hndP, hndCS, hdisj⟩ := hndPS
  rw [List.nodup_cons] at hndCS
  obtain ⟨he0S, hndS⟩ := hndCS
  have hPbound : ∀ x ∈ ((m.polygons.getD p []).take i0).map OrientedEdge.edge,
      x < m.edgeStore.length := by
    intro x hx
    obtain ⟨z, hz, rfl⟩ := List.mem_map.1 hx
    exact (inv.wf _ hpoly_mem _ (List.mem_of_mem_take hz)).1
  have hSbound : ∀ x ∈ ((m.polygons.getD p []).drop (i1 + 1)).map OrientedEdge.edge,
      x < m.edgeStore.length := by
    intro x hx
    obtain ⟨z, hz, rfl⟩ := List.mem_map.1 hx
    exact (inv.wf _ hpoly_mem _ (List.mem_of_mem_drop hz)).1
  have he0b : ((m.polygons.getD p []).getD i0 default).edge < m.edgeStore.length :=
    (inv.wf _ hpoly_mem _ (getD_mem _ _ _ (show i0 < _ by omega))).1
  rw [sPolyNew_eq m p i0 i1 inv hp h01 hi1]
  rw [List.map_append, List.map_append, List.map_cons, List.map_cons, List.map_nil]
  have hproj2 : (⟨m.edgeStore.length + 2, (0 : Nat)⟩ : OrientedEdge).edge =
      m.edgeStore.length + 2 := rfl
  have hproj1 : (⟨m.edgeStore.length + 1,
      ((m.polygons.getD p []).getD i1 default).orientation⟩ : OrientedEdge).edge =
      m.edgeStore.length + 1 := rfl
  refine List.Nodup.append ?_ ?_ ?_
  · refine List.Nodup.append hndP (List.nodup_singleton _) ?_
    intro a ha hb
    rw [List.mem_singleton] at hb
    subst hb
    exact hdisj ha (List.mem_cons_self _ _)
  · refine List.nodup_cons.2 ⟨?_, List.nodup_cons.2 ⟨?_, hndS⟩⟩
    · intro hcon
      rcases List.mem_cons.1 hcon with h | h
      · omega
      · have := hSbound _ h
        omega
    · intro hcon
      have := hSbound _ hcon
      omega
  · intro a ha hb
    rcases List.mem_append.1 ha with hP | he0
    · rcases List.mem_cons.1 hb with rfl | hb2
      · have := hPbound _ hP
        omega
      rcases List.mem_cons.1 hb2 with rfl | hb3
      · have := hPbound _ hP
        omega
      · exact hdisj hP (List.mem_cons_of_mem _ hb3)
    · rw [List.mem_singleton] at he0
      subst he0
      rcases List.mem_cons.1 hb with h | hb2
      · omega
      rcases List.mem_cons.1 hb2 with h | hb3
      · omega
      · exact he0S hb3

theorem arenaGet_sEs7_of_not_entry (m : PolygonMesh) (p i0 i1 : Nat) (x : Nat)
    (h : ∀ z ∈ PolygonMesh.sNewPoly m p i0 i1, z.edge ≠ x)
    (hxmid : x ≠ PolygonMesh.sMiddleId m) :
    arenaGet (PolygonMesh.sEs7 m p i0 i1) x =
      arenaGet (PolygonMesh.sEs5 m p i0 i1) x := by
  unfold PolygonMesh.sEs7
  rw [arenaGet_foldl_setAdj_of_not_mem _ _ _ _ h,
    arenaGet_set_ne _ _ _ _ (fun hc => hxmid hc.symm)]

theorem indices_sEs7_of_ne_mid (m : PolygonMesh) (p i0 i1 : Nat) (x : Nat)
    (hxmid : x ≠ PolygonMesh.sMiddleId m) :
    (arenaGet (PolygonMesh.sEs7 m p i0 i1) x).indices =
      (arenaGet (PolygonMesh.sEs5 m p i0 i1) x).indices := by
  unfold PolygonMesh.sEs7
  rw [indices_foldl_setAdj, arenaGet_set_ne _ _ _ _ (fun hc => hxmid hc.symm)]

theorem indices_sEs7_mid (m : PolygonMesh) (p i0 i1 : Nat)
    (he0 : (PolygonMesh.sOe0 m p i0).edge < m.edgeStore.length)
    (he1 : (PolygonMesh.sOe1 m p i1).edge < m.edgeStore.length) :
    (arenaGet (PolygonMesh.sEs7 m p i0 i1) (PolygonMesh.sMiddleId m)).indices =
      (m.vertices.length, m.vertices.length + 1) := by
  unfold PolygonMesh.sEs7
  rw [indices_foldl_setAdj, arenaGet_set_self _ _ _ (by
    rw [sEs5_length m p i0 i1]
    unfold PolygonMesh.sMiddleId
    omega)]
  show (arenaGet (PolygonMesh.sEs5 m p i0 i1) (PolygonMesh.sMiddleId m)).indices = _
  rw [arenaGet_sEs5_mid m p i0 i1 he0 he1]

/-- Generic unwritten-slot fact for the adjacency rewiring pass. -/
theorem adj_sEs7_unwritten (m : PolygonMesh) (p i0 i1 : Nat) (x s : Nat) (hs : s < 2)
    (h : ∀ oe ∈ PolygonMesh.sNewPoly m p i0 i1, oe.edge = x →
      oe.orientation < 2 ∧ oe.orientation ≠ s)
    (hxmid : x ≠ PolygonMesh.sMiddleId m) :
    (arenaGet (PolygonMesh.sEs7 m p i0 i1) x).adjacentPoly s =
      (arenaGet (PolygonMesh.sEs5 m p i0 i1) x).adjacentPoly s := by
  unfold PolygonMesh.sEs7
  rw [adjacentPoly_foldl_setAdj_of_not_written _ _ _ _ _ hs h,
    arenaGet_set_ne _ _ _ _ (fun hc => hxmid hc.symm)]

/-- Every entry of the new polygon gets its near-side adjacency slot set to the
new polygon's position. -/
theorem adj_sEs7_entry (m : PolygonMesh) (p i0 i1 : Nat) (inv : MeshInv m)
    (hp : p < m.polygons.length) (h01 : i0 < i1)
    (hi1 : i1 < (m.polygons.getD p []).length) (z : OrientedEdge)
    (hz : z ∈ PolygonMesh.sNewPoly m p i0 i1) :
    (arenaGet (PolygonMesh.sEs7 m p i0 i1) z.edge).adjacentPoly z.orientation =
      some m.polygons.length := by
  obtain ⟨A, B, hdec, hA, hB⟩ := mem_decomp_nodup _ z hz
    (sNewPoly_nodup m p i0 i1 inv hp h01 hi1)
  have hfacts := sNewPoly_entry_facts m p i0 i1 inv hp h01 hi1 z hz
  unfold PolygonMesh.sEs7
  rw [hdec]
  exact adjacentPoly_foldl_setAdj_of_written A B z _ _
    (by rw [List.length_set, sEs5_length m p i0 i1]; exact hfacts.1) hfacts.2.1
    (fun y hy => hA y hy) (fun y hy => hB y hy)

/-- The middle edge's final adjacency: the split polygon on side 0, the new
polygon on side 1. -/
theorem adj_sEs7_mid (m : PolygonMesh) (p i0 i1 : Nat) (inv : MeshInv m)
    (hp : p < m.polygons.length) (h01 : i0 < i1)
    (hi1 : i1 < (m.polygons.getD p []).length) :
    (arenaGet (PolygonMesh.sEs7 m p i0 i1)
        (PolygonMesh.sMiddleId m)).adjacentPoly 0 = some p ∧
      (arenaGet (PolygonMesh.sEs7 m p i0 i1)
        (PolygonMesh.sMiddleId m)).adjacentPoly 1 = some m.polygons.length := by
  have hfacts := sNewPoly_entry_facts m p i0 i1 inv hp h01 hi1
  have hmemmid : (⟨m.edgeStore.length + 2, 1⟩ : OrientedEdge) ∈
      PolygonMesh.sNewPoly m p i0 i1 := by
    rw [sNewPoly_eq m p i0 i1 inv hp h01 hi1]
    exact List.mem_cons_of_mem _ (List.mem_append_right _ (List.mem_singleton.2 rfl))
  constructor
  · unfold PolygonMesh.sEs7
    rw [adjacentPoly_foldl_setAdj_of_not_written _ _ _ _ _ (by omega) ?hno]
    case hno =>
      intro oe hoe hoeedge
      obtain ⟨hb, ho2, hshape⟩ := hfacts oe hoe
      rcases hshape with rfl | hq | rfl | rfl
      · exfalso
        have : m.edgeStore.length = PolygonMesh.sMiddleId m := hoeedge
        unfold PolygonMesh.sMiddleId at this
        omega
      · exfalso
        have hpoly_mem : m.polygons.getD p [] ∈ m.polygons := getD_mem _ _ _ hp
        have := (inv.wf _ hpoly_mem _
          (List.mem_of_mem_drop (List.mem_of_mem_take hq))).1
        rw [hoeedge] at this
        unfold PolygonMesh.sMiddleId at this
        omega
      · exfalso
        have hpoly_mem : m.polygons.getD p [] ∈ m.polygons := getD_mem _ _ _ hp
        have := (inv.wf _ hpoly_mem ((m.polygons.getD p []).getD i1 default)
          (getD_mem (m.polygons.getD p []) i1 default hi1)).1
        rw [hoeedge] at this
        unfold PolygonMesh.sMiddleId at this
        omega
      · exact ⟨by show (1 : Nat) < 2; omega, by show (1 : Nat) ≠ 0; omega⟩
    rw [arenaGet_set_self _ _ _ (by
      rw [sEs5_length m p i0 i1]
      unfold PolygonMesh.sMiddleId
      omega)]
    rfl
  · have := adj_sEs7_entry m p i0 i1 inv hp h01 hi1 ⟨m.edgeStore.length + 2, 1⟩ hmemmid
    exact this

theorem Edge.index_congr (e e' : Edge) (h : e.indices = e'.indices) (o : Nat) :
    e.index o = e'.index o := by
  unfold Edge.index
  rw [h]

/-- Entries whose edge is neither split edge keep their (lead, trail) pair. -/
theorem pair_sEs7_stable (m : PolygonMesh) (p i0 i1 : Nat) (y : OrientedEdge)
    (hyN : y.edge < m.edgeStore.length)
    (hy0 : y.edge ≠ (PolygonMesh.sOe0 m p i0).edge)
    (hy1 : y.edge ≠ (PolygonMesh.sOe1 m p i1).edge) :
    pairOf (PolygonMesh.sEs7 m p i0 i1) y = pairOf m.edgeStore y := by
  have hind : (arenaGet (PolygonMesh.sEs7 m p i0 i1) y.edge).indices =
      (arenaGet m.edgeStore y.edge).indices := by
    rw [indices_sEs7_of_ne_mid m p i0 i1 _ (by unfold PolygonMesh.sMiddleId; omega),
      arenaGet_sEs5_old m p i0 i1 _ hyN hy0 hy1]
  unfold pairOf leadVertex trailVertex
  rw [Edge.index_congr _ _ hind, Edge.index_congr _ _ hind]

theorem pair_sEs7_oe0 (m : PolygonMesh) (p i0 i1 : Nat) (w : OrientedEdge)
    (hwe : w.edge = (PolygonMesh.sOe0 m p i0).edge)
    (hwo : w.orientation = (PolygonMesh.sOe0 m p i0).orientation)
    (he0 : (PolygonMesh.sOe0 m p i0).edge < m.edgeStore.length)
    (hne : (PolygonMesh.sOe0 m p i0).edge ≠ (PolygonMesh.sOe1 m p i1).edge)
    (ho0 : (PolygonMesh.sOe0 m p i0).orientation < 2) :
    pairOf (PolygonMesh.sEs7 m p i0 i1) w =
      ((pairOf m.edgeStore w).1, m.vertices.length) := by
  have hind : (arenaGet (PolygonMesh.sEs7 m p i0 i1)
      (PolygonMesh.sOe0 m p i0).edge).indices =
      ((arenaGet m.edgeStore (PolygonMesh.sOe0 m p i0).edge).setIndex
        (1 - (PolygonMesh.sOe0 m p i0).orientation) m.vertices.length).indices := by
    rw [indices_sEs7_of_ne_mid m p i0 i1 _ (by
        unfold PolygonMesh.sMiddleId; omega),
      arenaGet_sEs5_e0 m p i0 i1 he0 hne]
  unfold pairOf leadVertex trailVertex
  rw [hwe, hwo, Edge.index_congr _ _ hind, Edge.index_congr _ _ hind,
    Edge.index_setIndex_self,
    Edge.index_setIndex_other _ _ _ _ (one_sub_lt_two _) ho0
      (Ne.symm (one_sub_ne _ ho0))]

theorem pair_sEs7_w0 (m : PolygonMesh) (p i0 i1 : Nat) (w : OrientedEdge)
    (hwe : w.edge = (PolygonMesh.sOe0 m p i0).edge)
    (hwo : w.orientation = 1 - (PolygonMesh.sOe0 m p i0).orientation)
    (he0 : (PolygonMesh.sOe0 m p i0).edge < m.edgeStore.length)
    (hne : (PolygonMesh.sOe0 m p i0).edge ≠ (PolygonMesh.sOe1 m p i1).edge)
    (ho0 : (PolygonMesh.sOe0 m p i0).orientation < 2) :
    pairOf (PolygonMesh.sEs7 m p i0 i1) w =
      (m.vertices.length, (pairOf m.edgeStore w).2) := by
  have hind : (arenaGet (PolygonMesh.sEs7 m p i0 i1)
      (PolygonMesh.sOe0 m p i0).edge).indices =
      ((arenaGet m.edgeStore (PolygonMesh.sOe0 m p i0).edge).setIndex
        (1 - (PolygonMesh.sOe0 m p i0).orientation) m.vertices.length).indices := by
    rw [indices_sEs7_of_ne_mid m p i0 i1 _ (by
        unfold PolygonMesh.sMiddleId; omega),
      arenaGet_sEs5_e0 m p i0 i1 he0 hne]
  unfold pairOf leadVertex trailVertex
  rw [hwe, hwo, Edge.index_congr _ _ hind, Edge.index_congr _ _ hind,
    one_sub_one_sub _ ho0, Edge.index_setIndex_self,
    Edge.index_setIndex_other _ _ _ _ (one_sub_lt_two _) ho0
      (Ne.symm (one_sub_ne _ ho0))]

theorem pair_sEs7_new0 (m : PolygonMesh) (p i0 i1 : Nat) (w : OrientedEdge)
    (hwe : w.edge = PolygonMesh.sNewId0 m)
    (hwo : w.orientation = (PolygonMesh.sOe0 m p i0).orientation)
    (he0 : (PolygonMesh.sOe0 m p i0).edge < m.edgeStore.length)
    (he1 : (PolygonMesh.sOe1 m p i1).edge < m.edgeStore.length)
    (ho0 : (PolygonMesh.sOe0 m p i0).orientation < 2) :
    pairOf (PolygonMesh.sEs7 m p i0 i1) w =
      (m.vertices.length,
        (pairOf m.edgeStore (PolygonMesh.sOe0 m p i0)).2) := by
  have hind : (arenaGet (PolygonMesh.sEs7 m p i0 i1) (PolygonMesh.sNewId0 m)).indices =
      ((arenaGet m.edgeStore (PolygonMesh.sOe0 m p i0).edge).setIndex
        (PolygonMesh.sOe0 m p i0).orientation m.vertices.length).indices := by
    rw [indices_sEs7_of_ne_mid m p i0 i1 _ (by
        unfold PolygonMesh.sMiddleId PolygonMesh.sNewId0; omega),
      arenaGet_sEs5_nid0 m p i0 i1 he0 he1]
  unfold pairOf leadVertex trailVertex
  rw [hwe, hwo, Edge.index_congr _ _ hind, Edge.index_congr _ _ hind,
    Edge.index_setIndex_self,
    Edge.index_setIndex_other _ _ _ _ ho0 (one_sub_lt_two _) (one_sub_ne _ ho0)]

theorem pair_sEs7_rev0 (m : PolygonMesh) (p i0 i1 : Nat) (w : OrientedEdge)
    (hwe : w.edge = PolygonMesh.sNewId0 m)
    (hwo : w.orientation = 1 - (PolygonMesh.sOe0 m p i0).orientation)
    (he0 : (PolygonMesh.sOe0 m p i0).edge < m.edgeStore.length)
    (he1 : (PolygonMesh.sOe1 m p i1).edge < m.edgeStore.length)
    (ho0 : (PolygonMesh.sOe0 m p i0).orientation < 2) :
    pairOf (PolygonMesh.sEs7 m p i0 i1) w =
      ((pairOf m.edgeStore (PolygonMesh.sOe0 m p i0)).2, m.vertices.length) := by
  have hind : (arenaGet (PolygonMesh.sEs7 m p i0 i1) (PolygonMesh.sNewId0 m)).indices =
      ((arenaGet m.edgeStore (PolygonMesh.sOe0 m p i0).edge).setIndex
        (PolygonMesh.sOe0 m p i0).orientation m.vertices.length).indices := by
    rw [indices_sEs7_of_ne_mid m p i0 i1 _ (by
        unfold PolygonMesh.sMiddleId PolygonMesh.sNewId0; omega),
      arenaGet_sEs5_nid0 m p i0 i1 he0 he1]
  unfold pairOf leadVertex trailVertex
  rw [hwe, hwo, Edge.index_congr _ _ hind, Edge.index_congr _ _ hind,
    one_sub_one_sub _ ho0, Edge.index_setIndex_self,
    Edge.index_setIndex_other _ _ _ _ ho0 (one_sub_lt_two _) (one_sub_ne _ ho0)]

theorem pair_sEs7_oe1 (m : PolygonMesh) (p i0 i1 : Nat) (w : OrientedEdge)
    (hwe : w.edge = (PolygonMesh.sOe1 m p i1).edge)
    (hwo : w.orientation = (PolygonMesh.sOe1 m p i1).orientation)
    (he1 : (PolygonMesh.sOe1 m p i1).edge < m.edgeStore.length)
    (hne : (PolygonMesh.sOe0 m p i0).edge ≠ (PolygonMesh.sOe1 m p i1).edge)
    (ho1 : (PolygonMesh.sOe1 m p i1).orientation < 2) :
    pairOf (PolygonMesh.sEs7 m p i0 i1) w =
      ((pairOf m.edgeStore w).1, m.vertices.length + 1) := by
  have hind : (arenaGet (PolygonMesh.sEs7 m p i0 i1)
      (PolygonMesh.sOe1 m p i1).edge).indices =
      ((arenaGet m.edgeStore (PolygonMesh.sOe1 m p i1).edge).setIndex
        (1 - (PolygonMesh.sOe1 m p i1).orientation) (m.vertices.length + 1)).indices := by
    rw [indices_sEs7_of_ne_mid m p i0 i1 _ (by
        unfold PolygonMesh.sMiddleId; omega),
      arenaGet_sEs5_e1 m p i0 i1 he1 hne]
  unfold pairOf leadVertex trailVertex
  rw [hwe, hwo, Edge.index_congr _ _ hind, Edge.index_congr _ _ hind,
    Edge.index_setIndex_self,
    Edge.index_setIndex_other _ _ _ _ (one_sub_lt_two _) ho1
      (Ne.symm (one_sub_ne _ ho1))]

theorem pair_sEs7_w1 (m : PolygonMesh) (p i0 i1 : Nat) (w : OrientedEdge)
    (hwe : w.edge = (PolygonMesh.sOe1 m p i1).edge)
    (hwo : w.orientation = 1 - (PolygonMesh.sOe1 m p i1).orientation)
    (he1 : (PolygonMesh.sOe1 m p i1).edge < m.edgeStore.length)
    (hne : (PolygonMesh.sOe0 m p i0).edge ≠ (PolygonMesh.sOe1 m p i1).edge)
    (ho1 : (PolygonMesh.sOe1 m p i1).orientation < 2) :
    pairOf (PolygonMesh.sEs7 m p i0 i1) w =
      (m.vertices.length + 1, (pairOf m.edgeStore w).2) := by
  have hind : (arenaGet (PolygonMesh.sEs7 m p i0 i1)
      (PolygonMesh.sOe1 m p i1).edge).indices =
      ((arenaGet m.edgeStore (PolygonMesh.sOe1 m p i1).edge).setIndex
        (1 - (PolygonMesh.sOe1 m p i1).orientation) (m.vertices.length + 1)).indices := by
    rw [indices_sEs7_of_ne_mid m p i0 i1 _ (by
        unfold PolygonMesh.sMiddleId; omega),
      arenaGet_sEs5_e1 m p i0 i1 he1 hne]
  unfold pairOf leadVertex trailVertex
  rw [hwe, hwo, Edge.index_congr _ _ hind, Edge.index_congr _ _ hind,
    one_sub_one_sub _ ho1, Edge.index_setIndex_self,
    Edge.index_setIndex_other _ _ _ _ (one_sub_lt_two _) ho1
      (Ne.symm (one_sub_ne _ ho1))]

theorem pair_sEs7_new1 (m : PolygonMesh) (p i0 i1 : Nat) (w : OrientedEdge)
    (hwe : w.edge = PolygonMesh.sNewId1 m)
    (hwo : w.orientation = (PolygonMesh.sOe1 m p i1).orientation)
    (he0 : (PolygonMesh.sOe0 m p i0).edge < m.edgeStore.length)
    (he1 : (PolygonMesh.sOe1 m p i1).edge < m.edgeStore.length)
    (ho1 : (PolygonMesh.sOe1 m p i1).orientation < 2) :
    pairOf (PolygonMesh.sEs7 m p i0 i1) w =
      (m.vertices.length + 1,
        (pairOf m.edgeStore (PolygonMesh.sOe1 m p i1)).2) := by
  have hind : (arenaGet (PolygonMesh.sEs7 m p i0 i1) (PolygonMesh.sNewId1 m)).indices =
      ((arenaGet m.edgeStore (PolygonMesh.sOe1 m p i1).edge).setIndex
        (PolygonMesh.sOe1 m p i1).orientation (m.vertices.length + 1)).indices := by
    rw [indices_sEs7_of_ne_mid m p i0 i1 _ (by
        unfold PolygonMesh.sMiddleId PolygonMesh.sNewId1; omega),
      arenaGet_sEs5_nid1 m p i0 i1 he0 he1]
  unfold pairOf leadVertex trailVertex
  rw [hwe, hwo, Edge.index_congr _ _ hind, Edge.index_congr _ _ hind,
    Edge.index_setIndex_self,
    Edge.index_setIndex_other _ _ _ _ ho1 (one_sub_lt_two _) (one_sub_ne _ ho1)]

theorem pair_sEs7_rev1 (m : PolygonMesh) (p i0 i1 : Nat) (w : OrientedEdge)
    (hwe : w.edge = PolygonMesh.sNewId1 m)
    (hwo : w.orientation = 1 - (PolygonMesh.sOe1 m p i1).orientation)
    (he0 : (PolygonMesh.sOe0 m p i0).edge < m.edgeStore.length)
    (he1 : (PolygonMesh.sOe1 m p i1).edge < m.edgeStore.length)
    (ho1 : (PolygonMesh.sOe1 m p i1).orientation < 2) :
    pairOf (PolygonMesh.sEs7 m p i0 i1) w =
      ((pairOf m.edgeStore (PolygonMesh.sOe1 m p i1)).2, m.vertices.length + 1) := by
  have hind : (arenaGet (PolygonMesh.sEs7 m p i0 i1) (PolygonMesh.sNewId1 m)).indices =
      ((arenaGet m.edgeStore (PolygonMesh.sOe1 m p i1).edge).setIndex
        (PolygonMesh.sOe1 m p i1).orientation (m.vertices.length + 1)).indices := by
    rw [indices_sEs7_of_ne_mid m p i0 i1 _ (by
        unfold PolygonMesh.sMiddleId PolygonMesh.sNewId1; omega),
      arenaGet_sEs5_nid1 m p i0 i1 he0 he1]
  unfold pairOf leadVertex trailVertex
  rw [hwe, hwo, Edge.index_congr _ _ hind, Edge.index_congr _ _ hind,
    one_sub_one_sub _ ho1, Edge.index_setIndex_self,
    Edge.index_setIndex_other _ _ _ _ ho1 (one_sub_lt_two _) (one_sub_ne _ ho1)]

theorem pair_sEs7_mid (m : PolygonMesh) (p i0 i1 : Nat) (w : OrientedEdge)
    (hwe : w.edge = PolygonMesh.sMiddleId m)
    (he0 : (PolygonMesh.sOe0 m p i0).edge < m.edgeStore.length)
    (he1 : (PolygonMesh.sOe1 m p i1).edge < m.edgeStore.length) :
    pairOf (PolygonMesh.sEs7 m p i0 i1) w =
      (if w.orientation = 0 then (m.vertices.length, m.vertices.length + 1)
        else (m.vertices.length + 1, m.vertices.length)) := by
  have hind := indices_sEs7_mid m p i0 i1 he0 he1
  unfold pairOf leadVertex trailVertex
  rw [hwe]
  unfold Edge.index
  rw [hind]
  by_cases h : w.orientation = 0
  · rw [if_pos h, h]
    rfl
  · rw [if_neg h, if_neg h, if_pos (by omega)]

/-- One far-side insertion preserves the cyclic pair walk: the inserted
reversed half edge and the (rewired) split edge subdivide the old pair. -/
theorem subdiv_map (esOld esNew : List Edge) (A B : List OrientedEdge)
    (w rev : OrientedEdge) (c : Nat)
    (hcyc : CyclicChain ((A ++ w :: B).map (pairOf esOld)))
    (hstA : ∀ y ∈ A, pairOf esNew y = pairOf esOld y)
    (hstB : ∀ y ∈ B, pairOf esNew y = pairOf esOld y)
    (hw : pairOf esNew w = (c, (pairOf esOld w).2))
    (hrev : pairOf esNew rev = ((pairOf esOld w).1, c)) :
    CyclicChain ((A ++ rev :: w :: B).map (pairOf esNew)) := by
  have h := cyclicChain_subdiv (A.map (pairOf esOld)) (B.map (pairOf esOld))
    (pairOf esOld w).1 (pairOf esOld w).2 c (by
      rw [List.map_append, List.map_cons] at hcyc
      exact hcyc)
  rw [List.map_append, List.map_cons, List.map_cons,
    List.map_congr_left hstA, List.map_congr_left hstB, hw, hrev]
  exact h

/-- Two far-side insertions into the same polygon preserve the cyclic pair
walk: both split-edge pairs are subdivided. -/
theorem subdiv_map2 (esOld esNew : List Edge) (A C D : List OrientedEdge)
    (w0 rev0 w1 rev1 : OrientedEdge) (c0 c1 : Nat)
    (hcyc : CyclicChain ((A ++ (w0 :: (C ++ (w1 :: D)))).map (pairOf esOld)))
    (hstA : ∀ y ∈ A, pairOf esNew y = pairOf esOld y)
    (hstC : ∀ y ∈ C, pairOf esNew y = pairOf esOld y)
    (hstD : ∀ y ∈ D, pairOf esNew y = pairOf esOld y)
    (hw0 : pairOf esNew w0 = (c0, (pairOf esOld w0).2))
    (hrev0 : pairOf esNew rev0 = ((pairOf esOld w0).1, c0))
    (hw1 : pairOf esNew w1 = (c1, (pairOf esOld w1).2))
    (hrev1 : pairOf esNew rev1 = ((pairOf esOld w1).1, c1)) :
    CyclicChain ((A ++ (rev0 :: (w0 :: (C ++ (rev1 :: (w1 :: D)))))).map
      (pairOf esNew)) := by
  rw [List.map_append, List.map_cons, List.map_append, List.map_cons] at hcyc
  have h1 : CyclicChain ((A.map (pairOf esOld) ++ pairOf esOld w0 ::
      C.map (pairOf esOld)) ++ (pairOf esOld w1 :: D.map (pairOf esOld))) := by
    rw [List.append_assoc, List.cons_append]
    exact hcyc
  have h2 := cyclicChain_subdiv _ (D.map (pairOf esOld)) (pairOf esOld w1).1
    (pairOf esOld w1).2 c1 h1
  have h3 : CyclicChain (A.map (pairOf esOld) ++ pairOf esOld w0 ::
      (C.map (pairOf esOld) ++ ((pairOf esOld w1).1, c1) ::
        (c1, (pairOf esOld w1).2) :: D.map (pairOf esOld))) := by
    rw [← List.cons_append, ← List.append_assoc]
    exact h2
  have h4 := cyclicChain_subdiv (A.map (pairOf esOld)) _ (pairOf esOld w0).1
    (pairOf esOld w0).2 c0 h3
  rw [List.map_append, List.map_cons, List.map_cons, List.map_append,
    List.map_cons, List.map_cons]
  rw [List.map_congr_left hstA, List.map_congr_left hstC, List.map_congr_left hstD,
    hw0, hrev0, hw1, hrev1]
  exact h4

/-- A polygon with no repeated edge id splits around two of its entries, in
one of the two orders, with both edges absent from the three spans. -/
theorem mem_decomp_nodup_pair (X : IndexedPolygon) (z0 z1 : OrientedEdge)
    (h0 : z0 ∈ X) (h1 : z1 ∈ X) (hne : z0.edge ≠ z1.edge)
    (hnd : (X.map OrientedEdge.edge).Nodup) :
    ∃ A C D,
      (X = A ++ (z0 :: (C ++ (z1 :: D))) ∨ X = A ++ (z1 :: (C ++ (z0 :: D)))) ∧
      (∀ y, (y ∈ A ∨ y ∈ C ∨ y ∈ D) → y.edge ≠ z0.edge ∧ y.edge ≠ z1.edge) := by
  obtain ⟨A0, B0, hdec, hA0, hB0⟩ := mem_decomp_nodup X z0 h0 hnd
  have h1' : z1 ∈ A0 ∨ z1 ∈ B0 := by
    rw [hdec] at h1
    rcases List.mem_append.1 h1 with hL | hR
    · exact Or.inl hL
    · rcases List.mem_cons.1 hR with rfl | hB
      · exact absurd rfl hne
      · exact Or.inr hB
  rcases h1' with hA | hB
  · have hsubA : List.Sublist A0 X := by
      rw [hdec]
      exact List.sublist_append_left A0 _
    obtain ⟨A, C, hdecA, hA1, hC1⟩ := mem_decomp_nodup A0 z1 hA
      ((hsubA.map OrientedEdge.edge).nodup hnd)
    have hdecX : X = A ++ (z1 :: (C ++ (z0 :: B0))) := by
      rw [hdec, hdecA]
      simp [List.append_assoc]
    have hndX : ((A ++ (z1 :: (C ++ (z0 :: B0)))).map OrientedEdge.edge).Nodup := by
      rw [← hdecX]
      exact hnd
    obtain ⟨hfA, hfC, hfS, hzz⟩ := parts_edge_free A C B0 z1 z0 hndX
    refine ⟨A, C, B0, Or.inr hdecX, ?_⟩
    intro y hy
    rcases hy with hy | hy | hy
    · exact ⟨(hfA y hy).2, (hfA y hy).1⟩
    · exact ⟨(hfC y hy).2, (hfC y hy).1⟩
    · exact ⟨(hfS y hy).2, (hfS y hy).1⟩
  · have hsubB : List.Sublist B0 X := by
      rw [hdec]
      exact List.Sublist.trans (List.sublist_append_right [z0] B0)
        (List.sublist_append_right A0 (z0 :: B0))
    obtain ⟨C, D, hdecB, hC1, hD1⟩ := mem_decomp_nodup B0 z1 hB
      ((hsubB.map OrientedEdge.edge).nodup hnd)
    have hdecX : X = A0 ++ (z0 :: (C ++ (z1 :: D))) := by
      rw [hdec, hdecB]
    have hndX : ((A0 ++ (z0 :: (C ++ (z1 :: D)))).map OrientedEdge.edge).Nodup := by
      rw [← hdecX]
      exact hnd
    obtain ⟨hfA, hfC, hfS, hzz⟩ := parts_edge_free A0 C D z0 z1 hndX
    refine ⟨A0, C, D, Or.inl hdecX, ?_⟩
    intro y hy
    rcases hy with hy | hy | hy
    · exact hfA y hy
    · exact hfC y hy
    · exact hfS y hy

/-- If a split edge's far side is not polygon `q` (and `q` is not the split
polygon), then polygon `q` does not use that edge at all. -/
theorem far_no_other_edge (m : PolygonMesh) (inv : MeshInv m) (p : Nat)
    (hp : p < m.polygons.length) (oe : OrientedEdge)
    (hmem : oe ∈ m.polygons.getD p []) (q : Nat) (hq : q < m.polygons.length)
    (hqp : q ≠ p)
    (hnadj : (arenaGet m.edgeStore oe.edge).adjacentPoly (1 - oe.orientation) ≠
      some q) :
    ∀ y ∈ m.polygons.getD q [], y.edge ≠ oe.edge := by
  intro y hy hyedge
  have hwfy := inv.wf _ (getD_mem _ _ _ hq) y hy
  have hwf := inv.wf _ (getD_mem _ _ _ hp) oe hmem
  have hadj := inv.entryAdj q hq y hy
  rw [hyedge] at hadj
  by_cases hor : y.orientation = oe.orientation
  · rw [hor] at hadj
    have hadj' := inv.entryAdj p hp oe hmem
    rw [hadj'] at hadj
    injection hadj with h
    exact hqp h.symm
  · have h1 : y.orientation = 1 - oe.orientation := by
      have := hwfy.2
      have := hwf.2
      omega
    rw [h1] at hadj
    exact hnadj hadj

/-- Complete description of what the two far-side fix-ups do to a polygon
other than the split one: depending on which split edges border it, nothing
is inserted, one reversed new half is inserted directly before the edge's
entry, or both are. -/
theorem sPolysA_getD_cases (m : PolygonMesh) (p i0 i1 : Nat) (inv : MeshInv m)
    (hp : p < m.polygons.length) (h01 : i0 < i1)
    (hi1 : i1 < (m.polygons.getD p []).length) (q : Nat)
    (hq : q < m.polygons.length) (hqp : q ≠ p) :
    (PolygonMesh.sAdj0 m p i0 ≠ some q ∧ PolygonMesh.sAdj1 m p i1 ≠ some q ∧
      (PolygonMesh.sPolysA m p i0 i1).getD q [] = m.polygons.getD q []) ∨
    (PolygonMesh.sAdj0 m p i0 = some q ∧ PolygonMesh.sAdj1 m p i1 ≠ some q ∧
      ∃ A B', m.polygons.getD q [] = A ++ (PolygonMesh.sW0 m p i0 :: B') ∧
        (PolygonMesh.sPolysA m p i0 i1).getD q [] =
          A ++ (PolygonMesh.sRev0 m p i0 :: (PolygonMesh.sW0 m p i0 :: B')) ∧
        (∀ y, y ∈ A ∨ y ∈ B' → y.edge ≠ (PolygonMesh.sOe0 m p i0).edge ∧
          y.edge ≠ (PolygonMesh.sOe1 m p i1).edge)) ∨
    (PolygonMesh.sAdj1 m p i1 = some q ∧ PolygonMesh.sAdj0 m p i0 ≠ some q ∧
      ∃ A B', m.polygons.getD q [] = A ++ (PolygonMesh.sW1 m p i1 :: B') ∧
        (PolygonMesh.sPolysA m p i0 i1).getD q [] =
          A ++ (PolygonMesh.sRev1 m p i1 :: (PolygonMesh.sW1 m p i1 :: B')) ∧
        (∀ y, y ∈ A ∨ y ∈ B' → y.edge ≠ (PolygonMesh.sOe0 m p i0).edge ∧
          y.edge ≠ (PolygonMesh.sOe1 m p i1).edge)) ∨
    (PolygonMesh.sAdj0 m p i0 = some q ∧ PolygonMesh.sAdj1 m p i1 = some q ∧
      ∃ A C D,
        ((m.polygons.getD q [] = A ++ (PolygonMesh.sW0 m p i0 ::
            (C ++ (PolygonMesh.sW1 m p i1 :: D))) ∧
          (PolygonMesh.sPolysA m p i0 i1).getD q [] =
            A ++ (PolygonMesh.sRev0 m p i0 :: (PolygonMesh.sW0 m p i0 ::
              (C ++ (PolygonMesh.sRev1 m p i1 ::
                (PolygonMesh.sW1 m p i1 :: D)))))) ∨
         (m.polygons.getD q [] = A ++ (PolygonMesh.sW1 m p i1 ::
            (C ++ (PolygonMesh.sW0 m p i0 :: D))) ∧
          (PolygonMesh.sPolysA m p i0 i1).getD q [] =
            A ++ (PolygonMesh.sRev1 m p i1 :: (PolygonMesh.sW1 m p i1 ::
              (C ++ (PolygonMesh.sRev0 m p i0 ::
                (PolygonMesh.sW0 m p i0 :: D))))))) ∧
        (∀ y, y ∈ A ∨ y ∈ C ∨ y ∈ D → y.edge ≠ (PolygonMesh.sOe0 m p i0).edge ∧
          y.edge ≠ (PolygonMesh.sOe1 m p i1).edge)) := by
  have hi0 : i0 < (m.polygons.getD p []).length := by omega
  have hmem0 : PolygonMesh.sOe0 m p i0 ∈ m.polygons.getD p [] := getD_mem _ _ _ hi0
  have hmem1 : PolygonMesh.sOe1 m p i1 ∈ m.polygons.getD p [] := getD_mem _ _ _ hi1
  have hndq := inv.nodupEdges _ (getD_mem m.polygons q [] hq)
  by_cases h0 : PolygonMesh.sAdj0 m p i0 = some q
  · have hnf0 := neighbor_facts m inv p hp _ hmem0 q h0
    have hmemw0 : PolygonMesh.sW0 m p i0 ∈ m.polygons.getD q [] := hnf0.2.2
    by_cases h1 : PolygonMesh.sAdj1 m p i1 = some q
    · -- both split edges border q
      have hnf1 := neighbor_facts m inv p hp _ hmem1 q h1
      have hmemw1 : PolygonMesh.sW1 m p i1 ∈ m.polygons.getD q [] := hnf1.2.2
      have hne : (PolygonMesh.sW0 m p i0).edge ≠ (PolygonMesh.sW1 m p i1).edge :=
        nodup_getD_edge_ne _ (inv.nodupEdges _ (getD_mem m.polygons p [] hp))
          i0 i1 hi0 hi1 (by omega)
      have he1lt : (PolygonMesh.sOe1 m p i1).edge < m.edgeStore.length :=
        (inv.wf _ (getD_mem m.polygons p [] hp) _ hmem1).1
      obtain ⟨A, C, D, hord, hfree⟩ :=
        mem_decomp_nodup_pair _ _ _ hmemw0 hmemw1 hne hndq
      refine Or.inr (Or.inr (Or.inr ⟨h0, h1, A, C, D, ?_, ?_⟩))
      · rcases hord with hB | hB
        · refine Or.inl ⟨hB, ?_⟩
          have hfind1 : (m.polygons.getD q []).findIdx
              (fun x => x.edge == (PolygonMesh.sOe0 m p i0).edge) = A.length := by
            rw [hB]
            exact findIdx_edge_decomp A _ (PolygonMesh.sW0 m p i0) _ rfl
              (fun y hy => (hfree y (Or.inl hy)).1)
          have hk1 : (m.polygons.getD q []).findIdx
              (fun x => x.edge == (PolygonMesh.sOe0 m p i0).edge) <
              (m.polygons.getD q []).length := by
            rw [hfind1, hB]
            simp only [List.length_append, List.length_cons]
            omega
          have hstep1 : (PolygonMesh.spliceIntoNeighbor m.edgeStore m.polygons
              (PolygonMesh.sOe0 m p i0) (PolygonMesh.sRev0 m p i0)).getD q [] =
              A ++ (PolygonMesh.sRev0 m p i0 :: (PolygonMesh.sW0 m p i0 ::
                (C ++ (PolygonMesh.sW1 m p i1 :: D)))) := by
            rw [spliceIntoNeighbor_getD_target m.edgeStore m.polygons _ _ q h0 hk1 hq]
            rw [hfind1, hB]
            exact insertIdx_append_length A _ (PolygonMesh.sRev0 m p i0)
          have hshape : A ++ (PolygonMesh.sRev0 m p i0 :: (PolygonMesh.sW0 m p i0 ::
              (C ++ (PolygonMesh.sW1 m p i1 :: D)))) =
              (A ++ (PolygonMesh.sRev0 m p i0 ::
                (PolygonMesh.sW0 m p i0 :: C))) ++ (PolygonMesh.sW1 m p i1 :: D) := by
            simp [List.append_assoc]
          have hpre2 : ∀ y ∈ A ++ (PolygonMesh.sRev0 m p i0 ::
              (PolygonMesh.sW0 m p i0 :: C)),
              y.edge ≠ (PolygonMesh.sOe1 m p i1).edge := by
            intro y hy
            rcases List.mem_append.1 hy with hyA | hyR
            · exact (hfree y (Or.inl hyA)).2
            rcases List.mem_cons.1 hyR with rfl | hyR2
            · show PolygonMesh.sNewId0 m ≠ (PolygonMesh.sOe1 m p i1).edge
              unfold PolygonMesh.sNewId0
              omega
            rcases List.mem_cons.1 hyR2 with rfl | hyC
            · exact hne
            · exact (hfree y (Or.inr (Or.inl hyC))).2
          have hfind2 : (A ++ (PolygonMesh.sRev0 m p i0 :: (PolygonMesh.sW0 m p i0 ::
              (C ++ (PolygonMesh.sW1 m p i1 :: D))))).findIdx
              (fun x => x.edge == (PolygonMesh.sOe1 m p i1).edge) =
              (A ++ (PolygonMesh.sRev0 m p i0 ::
                (PolygonMesh.sW0 m p i0 :: C))).length := by
            rw [hshape]
            exact findIdx_edge_decomp _ D (PolygonMesh.sW1 m p i1) _ rfl hpre2
          have hk2 : ((PolygonMesh.spliceIntoNeighbor m.edgeStore m.polygons
              (PolygonMesh.sOe0 m p i0) (PolygonMesh.sRev0 m p i0)).getD q []).findIdx
              (fun x => x.edge == (PolygonMesh.sOe1 m p i1).edge) <
              ((PolygonMesh.spliceIntoNeighbor m.edgeStore m.polygons
                (PolygonMesh.sOe0 m p i0) (PolygonMesh.sRev0 m p i0)).getD
                  q []).length := by
            rw [hstep1, hfind2, hshape]
            simp only [List.length_append, List.length_cons]
            omega
          unfold PolygonMesh.sPolysA
          rw [spliceIntoNeighbor_getD_target m.edgeStore _ _ _ q h1 hk2
            (by rw [spliceIntoNeighbor_length]; exact hq)]
          rw [hstep1, hfind2, hshape,
            insertIdx_append_length _ _ (PolygonMesh.sRev1 m p i1)]
          simp [List.append_assoc]
        · refine Or.inr ⟨hB, ?_⟩
          have hshapeB : A ++ (PolygonMesh.sW1 m p i1 ::
              (C ++ (PolygonMesh.sW0 m p i0 :: D))) =
              (A ++ (PolygonMesh.sW1 m p i1 :: C)) ++
                (PolygonMesh.sW0 m p i0 :: D) := by
            simp [List.append_assoc]
          have hpre1 : ∀ y ∈ A ++ (PolygonMesh.sW1 m p i1 :: C),
              y.edge ≠ (PolygonMesh.sOe0 m p i0).edge := by
            intro y hy
            rcases List.mem_append.1 hy with hyA | hyR
            · exact (hfree y (Or.inl hyA)).1
            rcases List.mem_cons.1 hyR with rfl | hyC
            · exact Ne.symm hne
            · exact (hfree y (Or.inr (Or.inl hyC))).1
          have hfind1 : (m.polygons.getD q []).findIdx
              (fun x => x.edge == (PolygonMesh.sOe0 m p i0).edge) =
              (A ++ (PolygonMesh.sW1 m p i1 :: C)).length := by
            rw [hB, hshapeB]
            exact findIdx_edge_decomp _ D (PolygonMesh.sW0 m p i0) _ rfl hpre1
          have hk1 : (m.polygons.getD q []).findIdx
              (fun x => x.edge == (PolygonMesh.sOe0 m p i0).edge) <
              (m.polygons.getD q []).length := by
            rw [hfind1, hB, hshapeB]
            simp only [List.length_append, List.length_cons]
            omega
          have hstep1 : (PolygonMesh.spliceIntoNeighbor m.edgeStore m.polygons
              (PolygonMesh.sOe0 m p i0) (PolygonMesh.sRev0 m p i0)).getD q [] =
              A ++ (PolygonMesh.sW1 m p i1 :: (C ++ (PolygonMesh.sRev0 m p i0 ::
                (PolygonMesh.sW0 m p i0 :: D)))) := by
            rw [spliceIntoNeighbor_getD_target m.edgeStore m.polygons _ _ q h0 hk1 hq]
            rw [hfind1, hB, hshapeB,
              insertIdx_append_length _ _ (PolygonMesh.sRev0 m p i0)]
            simp [List.append_assoc]
          have hpre2 : ∀ y ∈ A, y.edge ≠ (PolygonMesh.sOe1 m p i1).edge :=
            fun y hy => (hfree y (Or.inl hy)).2
          have hfind2 : (A ++ (PolygonMesh.sW1 m p i1 ::
              (C ++ (PolygonMesh.sRev0 m p i0 ::
                (PolygonMesh.sW0 m p i0 :: D))))).findIdx
              (fun x => x.edge == (PolygonMesh.sOe1 m p i1).edge) = A.length :=
            findIdx_edge_decomp A _ (PolygonMesh.sW1 m p i1) _ rfl hpre2
          have hk2 : ((PolygonMesh.spliceIntoNeighbor m.edgeStore m.polygons
              (PolygonMesh.sOe0 m p i0) (PolygonMesh.sRev0 m p i0)).getD q []).findIdx
              (fun x => x.edge == (PolygonMesh.sOe1 m p i1).edge) <
              ((PolygonMesh.spliceIntoNeighbor m.edgeStore m.polygons
                (PolygonMesh.sOe0 m p i0) (PolygonMesh.sRev0 m p i0)).getD
                  q []).length := by
            rw [hstep1, hfind2]
            simp only [List.length_append, List.length_cons]
            omega
          unfold PolygonMesh.sPolysA
          rw [spliceIntoNeighbor_getD_target m.edgeStore _ _ _ q h1 hk2
            (by rw [spliceIntoNeighbor_length]; exact hq)]
          rw [hstep1, hfind2,
            insertIdx_append_length A _ (PolygonMesh.sRev1 m p i1)]
      · intro y hy
        rcases hy with hy | hy | hy
        · exact hfree y (Or.inl hy)
        · exact hfree y (Or.inr (Or.inl hy))
        · exact hfree y (Or.inr (Or.inr hy))
    · -- only the first split edge borders q
      obtain ⟨A, B', hdecB, hA, hB'⟩ := mem_decomp_nodup _ _ hmemw0 hndq
      have hno1 := far_no_other_edge m inv p hp (PolygonMesh.sOe1 m p i1) hmem1
        q hq hqp h1
      have hfind : (m.polygons.getD q []).findIdx
          (fun x => x.edge == (PolygonMesh.sOe0 m p i0).edge) = A.length := by
        rw [hdecB]
        exact findIdx_edge_decomp A B' (PolygonMesh.sW0 m p i0) _ rfl hA
      have hklt : (m.polygons.getD q []).findIdx
          (fun x => x.edge == (PolygonMesh.sOe0 m p i0).edge) <
          (m.polygons.getD q []).length := by
        rw [hfind, hdecB]
        simp only [List.length_append, List.length_cons]
        omega
      have hstep1 : (PolygonMesh.spliceIntoNeighbor m.edgeStore m.polygons
          (PolygonMesh.sOe0 m p i0) (PolygonMesh.sRev0 m p i0)).getD q [] =
          A ++ (PolygonMesh.sRev0 m p i0 :: (PolygonMesh.sW0 m p i0 :: B')) := by
        rw [spliceIntoNeighbor_getD_target m.edgeStore m.polygons _ _ q h0 hklt hq]
        rw [hfind, hdecB]
        exact insertIdx_append_length A _ (PolygonMesh.sRev0 m p i0)
      refine Or.inr (Or.inl ⟨h0, h1, A, B', hdecB, ?_, ?_⟩)
      · unfold PolygonMesh.sPolysA
        rw [spliceIntoNeighbor_getD_other _ _ _ _ _ h1]
        exact hstep1
      · intro y hy
        rcases hy with hy | hy
        · exact ⟨hA y hy, hno1 y (by rw [hdecB]; exact List.mem_append_left _ hy)⟩
        · exact ⟨hB' y hy, hno1 y (by
            rw [hdecB]
            exact List.mem_append_right _ (List.mem_cons_of_mem _ hy))⟩
  · by_cases h1 : PolygonMesh.sAdj1 m p i1 = some q
    · -- only the second split edge borders q
      have hnf1 := neighbor_facts m inv p hp _ hmem1 q h1
      have hmemw1 : PolygonMesh.sW1 m p i1 ∈ m.polygons.getD q [] := hnf1.2.2
      obtain ⟨A, B', hdecB, hA, hB'⟩ := mem_decomp_nodup _ _ hmemw1 hndq
      have hno0 := far_no_other_edge m inv p hp (PolygonMesh.sOe0 m p i0) hmem0
        q hq hqp h0
      have hstep1 : (PolygonMesh.spliceIntoNeighbor m.edgeStore m.polygons
          (PolygonMesh.sOe0 m p i0) (PolygonMesh.sRev0 m p i0)).getD q [] =
          m.polygons.getD q [] :=
        spliceIntoNeighbor_getD_other _ _ _ _ _ h0
      have hfind : ((PolygonMesh.spliceIntoNeighbor m.edgeStore m.polygons
          (PolygonMesh.sOe0 m p i0) (PolygonMesh.sRev0 m p i0)).getD q []).findIdx
          (fun x => x.edge == (PolygonMesh.sOe1 m p i1).edge) = A.length := by
        rw [hstep1, hdecB]
        exact findIdx_edge_decomp A B' (PolygonMesh.sW1 m p i1) _ rfl hA
      have hklt : ((PolygonMesh.spliceIntoNeighbor m.edgeStore m.polygons
          (PolygonMesh.sOe0 m p i0) (PolygonMesh.sRev0 m p i0)).getD q []).findIdx
          (fun x => x.edge == (PolygonMesh.sOe1 m p i1).edge) <
          ((PolygonMesh.spliceIntoNeighbor m.edgeStore m.polygons
            (PolygonMesh.sOe0 m p i0) (PolygonMesh.sRev0 m p i0)).getD q []).length := by
        rw [hfind, hstep1, hdecB]
        simp only [List.length_append, List.length_cons]
        omega
      refine Or.inr (Or.inr (Or.inl ⟨h1, h0, A, B', hdecB, ?_, ?_⟩))
      · unfold PolygonMesh.sPolysA
        rw [spliceIntoNeighbor_getD_target m.edgeStore _ _ _ q h1 hklt
          (by rw [spliceIntoNeighbor_length]; exact hq)]
        rw [hfind, hstep1, hdecB]
        exact insertIdx_append_length A _ (PolygonMesh.sRev1 m p i1)
      · intro y hy
        rcases hy with hy | hy
        · exact ⟨hno0 y (by rw [hdecB]; exact List.mem_append_left _ hy), hA y hy⟩
        · exact ⟨hno0 y (by
            rw [hdecB]
            exact List.mem_append_right _ (List.mem_cons_of_mem _ hy)), hB' y hy⟩
    · -- neither split edge borders q
      refine Or.inl ⟨h0, h1, ?_⟩
      unfold PolygonMesh.sPolysA
      rw [spliceIntoNeighbor_getD_other _ _ _ _ _ h1,
        spliceIntoNeighbor_getD_other _ _ _ _ _ h0]

theorem getD_append_self {α : Type} (l : List α) (x d : α) :
    (l ++ [x]).getD l.length d = x := by
  rw [List.getD_eq_getElem?_getD, List.getElem?_append_right (Nat.le_refl _),
    Nat.sub_self]
  rfl

theorem sResult_polygons_length (m : PolygonMesh) (p i0 i1 : Nat) (t0 t1 : ℚ)
    (d : Bool) :
    (PolygonMesh.sResult m p i0 i1 t0 t1 d).polygons.length =
      m.polygons.length + 1 := by
  show ((PolygonMesh.sPolysA m p i0 i1).set p (PolygonMesh.sPolyNew m p i0 i1) ++
    [PolygonMesh.sNewPoly m p i0 i1]).length = m.polygons.length + 1
  rw [List.length_append, List.length_set, sPolysA_length]
  rfl

theorem sResult_polygons_getD_last (m : PolygonMesh) (p i0 i1 : Nat) (t0 t1 : ℚ)
    (d : Bool) :
    (PolygonMesh.sResult m p i0 i1 t0 t1 d).polygons.getD m.polygons.length [] =
      PolygonMesh.sNewPoly m p i0 i1 := by
  show ((PolygonMesh.sPolysA m p i0 i1).set p (PolygonMesh.sPolyNew m p i0 i1) ++
    [PolygonMesh.sNewPoly m p i0 i1]).getD m.polygons.length [] = _
  have hlen : ((PolygonMesh.sPolysA m p i0 i1).set p
      (PolygonMesh.sPolyNew m p i0 i1)).length = m.polygons.length := by
    rw [List.length_set, sPolysA_length]
  rw [show m.polygons.length = ((PolygonMesh.sPolysA m p i0 i1).set p
      (PolygonMesh.sPolyNew m p i0 i1)).length from hlen.symm]
  exact getD_append_self _ _ _

theorem sResult_polygons_getD_p (m : PolygonMesh) (p i0 i1 : Nat) (t0 t1 : ℚ)
    (d : Bool) (hp : p < m.polygons.length) :
    (PolygonMesh.sResult m p i0 i1 t0 t1 d).polygons.getD p [] =
      PolygonMesh.sPolyNew m p i0 i1 := by
  show ((PolygonMesh.sPolysA m p i0 i1).set p (PolygonMesh.sPolyNew m p i0 i1) ++
    [PolygonMesh.sNewPoly m p i0 i1]).getD p [] = _
  rw [List.getD_append _ _ _ _ (by rw [List.length_set, sPolysA_length]; exact hp)]
  exact getD_set_self _ _ _ _ (by rw [sPolysA_length]; exact hp)

theorem sResult_polygons_getD_far (m : PolygonMesh) (p i0 i1 : Nat) (t0 t1 : ℚ)
    (d : Bool) (q : Nat) (hq : q < m.polygons.length) (hqp : q ≠ p) :
    (PolygonMesh.sResult m p i0 i1 t0 t1 d).polygons.getD q [] =
      (PolygonMesh.sPolysA m p i0 i1).getD q [] := by
  show ((PolygonMesh.sPolysA m p i0 i1).set p (PolygonMesh.sPolyNew m p i0 i1) ++
    [PolygonMesh.sNewPoly m p i0 i1]).getD q [] = _
  rw [List.getD_append _ _ _ _ (by rw [List.length_set, sPolysA_length]; exact hq)]
  exact getD_set_ne _ _ _ _ _ (fun h => hqp h.symm)

/-- Every polygon of the post-split mesh is the new polygon, the rewritten
original, or a far polygon after the fix-ups. -/
theorem sResult_polygons_mem (m : PolygonMesh) (p i0 i1 : Nat) (t0 t1 : ℚ)
    (d : Bool) (hp : p < m.polygons.length) (poly' : IndexedPolygon)
    (hmem : poly' ∈ (PolygonMesh.sResult m p i0 i1 t0 t1 d).polygons) :
    poly' = PolygonMesh.sNewPoly m p i0 i1 ∨
    poly' = PolygonMesh.sPolyNew m p i0 i1 ∨
    ∃ q, q < m.polygons.length ∧ q ≠ p ∧
      poly' = (PolygonMesh.sPolysA m p i0 i1).getD q [] := by
  have hmem' : poly' ∈ (PolygonMesh.sPolysA m p i0 i1).set p
      (PolygonMesh.sPolyNew m p i0 i1) ++ [PolygonMesh.sNewPoly m p i0 i1] := hmem
  rcases List.mem_append.1 hmem' with hL | hR
  · obtain ⟨j, hj, hjeq⟩ := List.getElem_of_mem hL
    have hjlen : j < (PolygonMesh.sPolysA m p i0 i1).length := by
      have hj' := hj
      rw [List.length_set] at hj'
      exact hj'
    by_cases hjp : j = p
    · subst hjp
      rw [List.getElem_set_self] at hjeq
      exact Or.inr (Or.inl hjeq.symm)
    · rw [List.getElem_set_ne (fun h => hjp h.symm)] at hjeq
      refine Or.inr (Or.inr ⟨j, ?_, hjp, ?_⟩)
      · rw [← sPolysA_length m p i0 i1]
        exact hjlen
      · rw [← hjeq, List.getD_eq_getElem _ _ hjlen]
  · rw [List.mem_singleton] at hR
    exact Or.inl hR

/-- Well-formedness of every entry of a fixed-up far polygon. -/
theorem far_entry_facts (m : PolygonMesh) (p i0 i1 : Nat) (inv : MeshInv m)
    (hp : p < m.polygons.length) (h01 : i0 < i1)
    (hi1 : i1 < (m.polygons.getD p []).length) (q : Nat)
    (hq : q < m.polygons.length) (hqp : q ≠ p) :
    ∀ y ∈ (PolygonMesh.sPolysA m p i0 i1).getD q [],
      (y ∈ m.polygons.getD q [] ∨
        (y = PolygonMesh.sRev0 m p i0 ∧ PolygonMesh.sAdj0 m p i0 = some q) ∨
        (y = PolygonMesh.sRev1 m p i1 ∧ PolygonMesh.sAdj1 m p i1 = some q)) := by
  rcases sPolysA_getD_cases m p i0 i1 inv hp h01 hi1 q hq hqp with
    ⟨h0, h1, hval⟩ | ⟨h0, h1, A, B', hB, hval, hfree⟩ |
    ⟨h1, h0, A, B', hB, hval, hfree⟩ | ⟨h0, h1, A, C, D, hord, hfree⟩
  · intro y hy
    rw [hval] at hy
    exact Or.inl hy
  · intro y hy
    rw [hval] at hy
    rcases List.mem_append.1 hy with hyA | hyR
    · exact Or.inl (by rw [hB]; exact List.mem_append_left _ hyA)
    rcases List.mem_cons.1 hyR with rfl | hyR2
    · exact Or.inr (Or.inl ⟨rfl, h0⟩)
    · exact Or.inl (by rw [hB]; exact List.mem_append_right _ hyR2)
  · intro y hy
    rw [hval] at hy
    rcases List.mem_append.1 hy with hyA | hyR
    · exact Or.inl (by rw [hB]; exact List.mem_append_left _ hyA)
    rcases List.mem_cons.1 hyR with rfl | hyR2
    · exact Or.inr (Or.inr ⟨rfl, h1⟩)
    · exact Or.inl (by rw [hB]; exact List.mem_append_right _ hyR2)
  · rcases hord with ⟨hB, hval⟩ | ⟨hB, hval⟩
    · intro y hy
      rw [hval] at hy
      rcases List.mem_append.1 hy with hyA | hyR
      · exact Or.inl (by rw [hB]; exact List.mem_append_left _ hyA)
      rcases List.mem_cons.1 hyR with rfl | hyR2
      · exact Or.inr (Or.inl ⟨rfl, h0⟩)
      rcases List.mem_cons.1 hyR2 with rfl | hyR3
      · exact Or.inl (by rw [hB]; exact List.mem_append_right _ (List.mem_cons_self _ _))
      rcases List.mem_append.1 hyR3 with hyC | hyR4
      · exact Or.inl (by
          rw [hB]
          exact List.mem_append_right _ (List.mem_cons_of_mem _
            (List.mem_append_left _ hyC)))
      rcases List.mem_cons.1 hyR4 with rfl | hyR5
      · exact Or.inr (Or.inr ⟨rfl, h1⟩)
      · exact Or.inl (by
          rw [hB]
          exact List.mem_append_right _ (List.mem_cons_of_mem _
            (List.mem_append_right _ hyR5)))
    · intro y hy
      rw [hval] at hy
      rcases List.mem_append.1 hy with hyA | hyR
      · exact Or.inl (by rw [hB]; exact List.mem_append_left _ hyA)
      rcases List.mem_cons.1 hyR with rfl | hyR2
      · exact Or.inr (Or.inr ⟨rfl, h1⟩)
      rcases List.mem_cons.1 hyR2 with rfl | hyR3
      · exact Or.inl (by rw [hB]; exact List.mem_append_right _ (List.mem_cons_self _ _))
      rcases List.mem_append.1 hyR3 with hyC | hyR4
      · exact Or.inl (by
          rw [hB]
          exact List.mem_append_right _ (List.mem_cons_of_mem _
            (List.mem_append_left _ hyC)))
      rcases List.mem_cons.1 hyR4 with rfl | hyR5
      · exact Or.inr (Or.inl ⟨rfl, h0⟩)
      · exact Or.inl (by
          rw [hB]
          exact List.mem_append_right _ (List.mem_cons_of_mem _
            (List.mem_append_right _ hyR5)))

theorem pair_sEs7_mid0 (m : PolygonMesh) (p i0 i1 : Nat) (w : OrientedEdge)
    (hwe : w.edge = PolygonMesh.sMiddleId m) (hwo : w.orientation = 0)
    (he0 : (PolygonMesh.sOe0 m p i0).edge < m.edgeStore.length)
    (he1 : (PolygonMesh.sOe1 m p i1).edge < m.edgeStore.length) :
    pairOf (PolygonMesh.sEs7 m p i0 i1) w =
      (m.vertices.length, m.vertices.length + 1) := by
  rw [pair_sEs7_mid m p i0 i1 w hwe he0 he1]
  simp [hwo]

theorem pair_sEs7_mid1 (m : PolygonMesh) (p i0 i1 : Nat) (w : OrientedEdge)
    (hwe : w.edge = PolygonMesh.sMiddleId m) (hwo : w.orientation = 1)
    (he0 : (PolygonMesh.sOe0 m p i0).edge < m.edgeStore.length)
    (he1 : (PolygonMesh.sOe1 m p i1).edge < m.edgeStore.length) :
    pairOf (PolygonMesh.sEs7 m p i0 i1) w =
      (m.vertices.length + 1, m.vertices.length) := by
  rw [pair_sEs7_mid m p i0 i1 w hwe he0 he1]
  simp [hwo]

/-- The rewritten original polygon remains closed under the post-split
arena. -/
theorem closed_sPolyNew (m : PolygonMesh) (p i0 i1 : Nat) (inv : MeshInv m)
    (hp : p < m.polygons.length) (h01 : i0 < i1)
    (hi1 : i1 < (m.polygons.getD p []).length) :
    PolyClosed (PolygonMesh.sEs7 m p i0 i1) (PolygonMesh.sPolyNew m p i0 i1) := by
  have hi0 : i0 < (m.polygons.getD p []).length := by omega
  have hpolymem : m.polygons.getD p [] ∈ m.polygons := getD_mem _ _ _ hp
  have hmem0 : PolygonMesh.sOe0 m p i0 ∈ m.polygons.getD p [] := getD_mem _ _ _ hi0
  have hmem1 : PolygonMesh.sOe1 m p i1 ∈ m.polygons.getD p [] := getD_mem _ _ _ hi1
  have he0 := (inv.wf _ hpolymem _ hmem0).1
  have he1 := (inv.wf _ hpolymem _ hmem1).1
  have ho0 := (inv.wf _ hpolymem _ hmem0).2
  have ho1 := (inv.wf _ hpolymem _ hmem1).2
  have hne : (PolygonMesh.sOe0 m p i0).edge ≠ (PolygonMesh.sOe1 m p i1).edge :=
    nodup_getD_edge_ne _ (inv.nodupEdges _ hpolymem) i0 i1 hi0 hi1 (by omega)
  have hndD := inv.nodupEdges _ hpolymem
  rw [poly_decomp (m.polygons.getD p []) i0 i1 h01 hi1] at hndD
  obtain ⟨hfP, hfQ, hfS, hfe⟩ := parts_edge_free _ _ _ _ _ hndD
  have hcyc := (polyClosed_iff_cyclicChain m.edgeStore _).1 (inv.closed _ hpolymem)
  rw [poly_decomp (m.polygons.getD p []) i0 i1 h01 hi1] at hcyc
  rw [List.map_append, List.map_cons, List.map_append, List.map_cons] at hcyc
  have happly := cyclicChain_split_orig
    (((m.polygons.getD p []).take i0).map (pairOf m.edgeStore))
    ((((m.polygons.getD p []).drop (i0 + 1)).take (i1 - i0 - 1)).map
      (pairOf m.edgeStore))
    (((m.polygons.getD p []).drop (i1 + 1)).map (pairOf m.edgeStore))
    (pairOf m.edgeStore ((m.polygons.getD p []).getD i0 default)).1
    (pairOf m.edgeStore ((m.polygons.getD p []).getD i0 default)).2
    (pairOf m.edgeStore ((m.polygons.getD p []).getD i1 default)).1
    (pairOf m.edgeStore ((m.polygons.getD p []).getD i1 default)).2
    m.vertices.length (m.vertices.length + 1) hcyc
  have hstP : ∀ y ∈ (m.polygons.getD p []).take i0,
      pairOf (PolygonMesh.sEs7 m p i0 i1) y = pairOf m.edgeStore y := by
    intro y hy
    exact pair_sEs7_stable m p i0 i1 y
      (inv.wf _ hpolymem _ (List.mem_of_mem_take hy)).1 (hfP y hy).1 (hfP y hy).2
  have hstS : ∀ y ∈ (m.polygons.getD p []).drop (i1 + 1),
      pairOf (PolygonMesh.sEs7 m p i0 i1) y = pairOf m.edgeStore y := by
    intro y hy
    exact pair_sEs7_stable m p i0 i1 y
      (inv.wf _ hpolymem _ (List.mem_of_mem_drop hy)).1 (hfS y hy).1 (hfS y hy).2
  rw [polyClosed_iff_cyclicChain, sPolyNew_eq m p i0 i1 inv hp h01 hi1]
  rw [List.map_append, List.map_append, List.map_cons, List.map_nil,
    List.map_cons, List.map_cons]
  rw [List.map_congr_left hstP, List.map_congr_left hstS]
  rw [pair_sEs7_oe0 m p i0 i1 ((m.polygons.getD p []).getD i0 default) rfl rfl
    he0 hne ho0]
  rw [pair_sEs7_mid0 m p i0 i1 ⟨m.edgeStore.length + 2, 0⟩ rfl rfl he0 he1]
  rw [pair_sEs7_new1 m p i0 i1
    ⟨m.edgeStore.length + 1, ((m.polygons.getD p []).getD i1 default).orientation⟩
    rfl rfl he0 he1 ho1]
  unfold PolygonMesh.sOe1
  simpa using happly

/-- The new polygon is closed under the post-split arena. -/
theorem closed_sNewPoly (m : PolygonMesh) (p i0 i1 : Nat) (inv : MeshInv m)
    (hp : p < m.polygons.length) (h01 : i0 < i1)
    (hi1 : i1 < (m.polygons.getD p []).length) :
    PolyClosed (PolygonMesh.sEs7 m p i0 i1) (PolygonMesh.sNewPoly m p i0 i1) := by
  have hi0 : i0 < (m.polygons.getD p []).length := by omega
  have hpolymem : m.polygons.getD p [] ∈ m.polygons := getD_mem _ _ _ hp
  have hmem0 : PolygonMesh.sOe0 m p i0 ∈ m.polygons.getD p [] := getD_mem _ _ _ hi0
  have hmem1 : PolygonMesh.sOe1 m p i1 ∈ m.polygons.getD p [] := getD_mem _ _ _ hi1
  have he0 := (inv.wf _ hpolymem _ hmem0).1
  have he1 := (inv.wf _ hpolymem _ hmem1).1
  have ho0 := (inv.wf _ hpolymem _ hmem0).2
  have ho1 := (inv.wf _ hpolymem _ hmem1).2
  have hne : (PolygonMesh.sOe0 m p i0).edge ≠ (PolygonMesh.sOe1 m p i1).edge :=
    nodup_getD_edge_ne _ (inv.nodupEdges _ hpolymem) i0 i1 hi0 hi1 (by omega)
  have hndD := inv.nodupEdges _ hpolymem
  rw [poly_decomp (m.polygons.getD p []) i0 i1 h01 hi1] at hndD
  obtain ⟨hfP, hfQ, hfS, hfe⟩ := parts_edge_free _ _ _ _ _ hndD
  have hcyc := (polyClosed_iff_cyclicChain m.edgeStore _).1 (inv.closed _ hpolymem)
  rw [poly_decomp (m.polygons.getD p []) i0 i1 h01 hi1] at hcyc
  rw [List.map_append, List.map_cons, List.map_append, List.map_cons] at hcyc
  have happly := cyclicChain_split_new
    (((m.polygons.getD p []).take i0).map (pairOf m.edgeStore))
    ((((m.polygons.getD p []).drop (i0 + 1)).take (i1 - i0 - 1)).map
      (pairOf m.edgeStore))
    (((m.polygons.getD p []).drop (i1 + 1)).map (pairOf m.edgeStore))
    (pairOf m.edgeStore ((m.polygons.getD p []).getD i0 default)).1
    (pairOf m.edgeStore ((m.polygons.getD p []).getD i0 default)).2
    (pairOf m.edgeStore ((m.polygons.getD p []).getD i1 default)).1
    (pairOf m.edgeStore ((m.polygons.getD p []).getD i1 default)).2
    m.vertices.length (m.vertices.length + 1) hcyc
  have hstQ : ∀ y ∈ ((m.polygons.getD p []).drop (i0 + 1)).take (i1 - i0 - 1),
      pairOf (PolygonMesh.sEs7 m p i0 i1) y = pairOf m.edgeStore y := by
    intro y hy
    exact pair_sEs7_stable m p i0 i1 y
      (inv.wf _ hpolymem _ (List.mem_of_mem_drop (List.mem_of_mem_take hy))).1
      (hfQ y hy).1 (hfQ y hy).2
  rw [polyClosed_iff_cyclicChain, sNewPoly_eq m p i0 i1 inv hp h01 hi1]
  rw [List.map_cons, List.map_append, List.map_append, List.map_cons,
    List.map_nil, List.map_cons, List.map_nil]
  rw [List.map_congr_left hstQ]
  rw [pair_sEs7_new0 m p i0 i1
    ⟨m.edgeStore.length, ((m.polygons.getD p []).getD i0 default).orientation⟩
    rfl rfl he0 he1 ho0]
  rw [pair_sEs7_oe1 m p i0 i1 ((m.polygons.getD p []).getD i1 default) rfl rfl
    he1 hne ho1]
  rw [pair_sEs7_mid1 m p i0 i1 ⟨m.edgeStore.length + 2, 1⟩ rfl rfl he0 he1]
  unfold PolygonMesh.sOe0
  simpa using happly

/-- Every far polygon stays closed across the split: each inserted reversed
half subdivides one pair of its cyclic walk. -/
theorem closed_far (m : PolygonMesh) (p i0 i1 : Nat) (inv : MeshInv m)
    (hp : p < m.polygons.length) (h01 : i0 < i1)
    (hi1 : i1 < (m.polygons.getD p []).length) (q : Nat)
    (hq : q < m.polygons.length) (hqp : q ≠ p) :
    PolyClosed (PolygonMesh.sEs7 m p i0 i1)
      ((PolygonMesh.sPolysA m p i0 i1).getD q []) := by
  have hi0 : i0 < (m.polygons.getD p []).length := by omega
  have hpolymem : m.polygons.getD p [] ∈ m.polygons := getD_mem _ _ _ hp
  have hmem0 : PolygonMesh.sOe0 m p i0 ∈ m.polygons.getD p [] := getD_mem _ _ _ hi0
  have hmem1 : PolygonMesh.sOe1 m p i1 ∈ m.polygons.getD p [] := getD_mem _ _ _ hi1
  have he0 := (inv.wf _ hpolymem _ hmem0).1
  have he1 := (inv.wf _ hpolymem _ hmem1).1
  have ho0 := (inv.wf _ hpolymem _ hmem0).2
  have ho1 := (inv.wf _ hpolymem _ hmem1).2
  have hne : (PolygonMesh.sOe0 m p i0).edge ≠ (PolygonMesh.sOe1 m p i1).edge :=
    nodup_getD_edge_ne _ (inv.nodupEdges _ hpolymem) i0 i1 hi0 hi1 (by omega)
  have hwfq : ∀ y ∈ m.polygons.getD q [], y.edge < m.edgeStore.length :=
    fun y hy => (inv.wf _ (getD_mem m.polygons q [] hq) y hy).1
  have hclq := inv.closed _ (getD_mem m.polygons q [] hq)
  rcases sPolysA_getD_cases m p i0 i1 inv hp h01 hi1 q hq hqp with
    ⟨h0, h1, hval⟩ | ⟨h0, h1, A, B', hB, hval, hfree⟩ |
    ⟨h1, h0, A, B', hB, hval, hfree⟩ | ⟨h0, h1, A, C, D, hord, hfree⟩
  · rw [hval]
    refine polyClosed_of_pairs_eq m.edgeStore _ _ ?_ hclq
    intro y hy
    exact pair_sEs7_stable m p i0 i1 y (hwfq y hy)
      (far_no_other_edge m inv p hp _ hmem0 q hq hqp h0 y hy)
      (far_no_other_edge m inv p hp _ hmem1 q hq hqp h1 y hy)
  · rw [hval, polyClosed_iff_cyclicChain]
    have hcycB := (polyClosed_iff_cyclicChain m.edgeStore _).1 hclq
    rw [hB] at hcycB
    refine subdiv_map m.edgeStore _ A B' (PolygonMesh.sW0 m p i0)
      (PolygonMesh.sRev0 m p i0) m.vertices.length hcycB ?_ ?_ ?_ ?_
    · intro y hy
      exact pair_sEs7_stable m p i0 i1 y
        (hwfq y (by rw [hB]; exact List.mem_append_left _ hy))
        (hfree y (Or.inl hy)).1 (hfree y (Or.inl hy)).2
    · intro y hy
      exact pair_sEs7_stable m p i0 i1 y
        (hwfq y (by
          rw [hB]
          exact List.mem_append_right _ (List.mem_cons_of_mem _ hy)))
        (hfree y (Or.inr hy)).1 (hfree y (Or.inr hy)).2
    · exact pair_sEs7_w0 m p i0 i1 _ rfl rfl he0 hne ho0
    · exact pair_sEs7_rev0 m p i0 i1 _ rfl rfl he0 he1 ho0
  · rw [hval, polyClosed_iff_cyclicChain]
    have hcycB := (polyClosed_iff_cyclicChain m.edgeStore _).1 hclq
    rw [hB] at hcycB
    refine subdiv_map m.edgeStore _ A B' (PolygonMesh.sW1 m p i1)
      (PolygonMesh.sRev1 m p i1) (m.vertices.length + 1) hcycB ?_ ?_ ?_ ?_
    · intro y hy
      exact pair_sEs7_stable m p i0 i1 y
        (hwfq y (by rw [hB]; exact List.mem_append_left _ hy))
        (hfree y (Or.inl hy)).1 (hfree y (Or.inl hy)).2
    · intro y hy
      exact pair_sEs7_stable m p i0 i1 y
        (hwfq y (by
          rw [hB]
          exact List.mem_append_right _ (List.mem_cons_of_mem _ hy)))
        (hfree y (Or.inr hy)).1 (hfree y (Or.inr hy)).2
    · exact pair_sEs7_w1 m p i0 i1 _ rfl rfl he1 hne ho1
    · exact pair_sEs7_rev1 m p i0 i1 _ rfl rfl he0 he1 ho1
  · have hstA : ∀ y, (y ∈ A ∨ y ∈ C ∨ y ∈ D) → y ∈ m.polygons.getD q [] → True :=
      fun _ _ _ => trivial
    rcases hord with ⟨hB, hval⟩ | ⟨hB, hval⟩
    · rw [hval, polyClosed_iff_cyclicChain]
      have hcycB := (polyClosed_iff_cyclicChain m.edgeStore _).1 hclq
      rw [hB] at hcycB
      refine subdiv_map2 m.edgeStore _ A C D (PolygonMesh.sW0 m p i0)
        (PolygonMesh.sRev0 m p i0) (PolygonMesh.sW1 m p i1)
        (PolygonMesh.sRev1 m p i1) m.vertices.length (m.vertices.length + 1)
        hcycB ?_ ?_ ?_ ?_ ?_ ?_ ?_
      · intro y hy
        exact pair_sEs7_stable m p i0 i1 y
          (hwfq y (by rw [hB]; exact List.mem_append_left _ hy))
          (hfree y (Or.inl hy)).1 (hfree y (Or.inl hy)).2
      · intro y hy
        exact pair_sEs7_stable m p i0 i1 y
          (hwfq y (by
            rw [hB]
            exact List.mem_append_right _ (List.mem_cons_of_mem _
              (List.mem_append_left _ hy))))
          (hfree y (Or.inr (Or.inl hy))).1 (hfree y (Or.inr (Or.inl hy))).2
      · intro y hy
        exact pair_sEs7_stable m p i0 i1 y
          (hwfq y (by
            rw [hB]
            exact List.mem_append_right _ (List.mem_cons_of_mem _
              (List.mem_append_right _ (List.mem_cons_of_mem _ hy)))))
          (hfree y (Or.inr (Or.inr hy))).1 (hfree y (Or.inr (Or.inr hy))).2
      · exact pair_sEs7_w0 m p i0 i1 _ rfl rfl he0 hne ho0
      · exact pair_sEs7_rev0 m p i0 i1 _ rfl rfl he0 he1 ho0
      · exact pair_sEs7_w1 m p i0 i1 _ rfl rfl he1 hne ho1
      · exact pair_sEs7_rev1 m p i0 i1 _ rfl rfl he0 he1 ho1
    · rw [hval, polyClosed_iff_cyclicChain]
      have hcycB := (polyClosed_iff_cyclicChain m.edgeStore _).1 hclq
      rw [hB] at hcycB
      refine subdiv_map2 m.edgeStore _ A C D (PolygonMesh.sW1 m p i1)
        (PolygonMesh.sRev1 m p i1) (PolygonMesh.sW0 m p i0)
        (PolygonMesh.sRev0 m p i0) (m.vertices.length + 1) m.vertices.length
        hcycB ?_ ?_ ?_ ?_ ?_ ?_ ?_
      · intro y hy
        exact pair_sEs7_stable m p i0 i1 y
          (hwfq y (by rw [hB]; exact List.mem_append_left _ hy))
          (hfree y (Or.inl hy)).1 (hfree y (Or.inl hy)).2
      · intro y hy
        exact pair_sEs7_stable m p i0 i1 y
          (hwfq y (by
            rw [hB]
            exact List.mem_append_right _ (List.mem_cons_of_mem _
              (List.mem_append_left _ hy))))
          (hfree y (Or.inr (Or.inl hy))).1 (hfree y (Or.inr (Or.inl hy))).2
      · intro y hy
        exact pair_sEs7_stable m p i0 i1 y
          (hwfq y (by
            rw [hB]
            exact List.mem_append_right _ (List.mem_cons_of_mem _
              (List.mem_append_right _ (List.mem_cons_of_mem _ hy)))))
          (hfree y (Or.inr (Or.inr hy))).1 (hfree y (Or.inr (Or.inr hy))).2
      · exact pair_sEs7_w1 m p i0 i1 _ rfl rfl he1 hne ho1
      · exact pair_sEs7_rev1 m p i0 i1 _ rfl rfl he0 he1 ho1
      · exact pair_sEs7_w0 m p i0 i1 _ rfl rfl he0 hne ho0
      · exact pair_sEs7_rev0 m p i0 i1 _ rfl rfl he0 he1 ho0

theorem oe_eta (oe : OrientedEdge) : (⟨oe.edge, oe.orientation⟩ : OrientedEdge) = oe :=
  rfl

theorem nodup_middle_insert {α : Type} (l₁ l₂ : List α) (a : α)
    (hnd : (l₁ ++ l₂).Nodup) (ha : a ∉ l₁ ++ l₂) : (l₁ ++ a :: l₂).Nodup := by
  induction l₁ with
  | nil => exact List.nodup_cons.2 ⟨by simpa using ha, hnd⟩
  | cons x xs ih =>
    rw [List.cons_append] at hnd ha ⊢
    rw [List.nodup_cons] at hnd
    obtain ⟨hx, hnd'⟩ := hnd
    refine List.nodup_cons.2
      ⟨?_, ih hnd' (fun hc => ha (List.mem_cons_of_mem _ hc))⟩
    intro hc
    rcases List.mem_append.1 hc with h | h
    · exact hx (List.mem_append_left _ h)
    rcases List.mem_cons.1 h with h | h2
    · exact ha (h ▸ List.mem_cons_self _ _)
    · exact hx (List.mem_append_right _ h2)

/-- Pairwise edge disjointness of the three spans of a nodup decomposition. -/
theorem parts_mutual_disjoint (Pp Qq Ss : List OrientedEdge) (z0 z1 : OrientedEdge)
    (hnd : ((Pp ++ (z0 :: (Qq ++ (z1 :: Ss)))).map OrientedEdge.edge).Nodup) :
    (∀ y ∈ Pp, ∀ z ∈ Qq, y.edge ≠ z.edge) ∧
    (∀ y ∈ Pp, ∀ z ∈ Ss, y.edge ≠ z.edge) ∧
    (∀ y ∈ Qq, ∀ z ∈ Ss, y.edge ≠ z.edge) := by
  have hmap : (Pp ++ (z0 :: (Qq ++ (z1 :: Ss)))).map OrientedEdge.edge =
      Pp.map OrientedEdge.edge ++ (z0.edge ::
        (Qq.map OrientedEdge.edge ++ (z1.edge :: Ss.map OrientedEdge.edge))) := by
    simp
  rw [hmap, List.nodup_append] at hnd
  obtain ⟨hndP, hndR, hdisj⟩ := hnd
  rw [List.nodup_cons] at hndR
  obtain ⟨hz0notin, hndR2⟩ := hndR
  rw [List.nodup_append] at hndR2
  obtain ⟨hndQ, hndz1S, hdisj2⟩ := hndR2
  rw [List.nodup_cons] at hndz1S
  obtain ⟨hz1notin, hndS⟩ := hndz1S
  refine ⟨?_, ?_, ?_⟩
  · intro y hy z hz he
    exact hdisj (List.mem_map_of_mem _ hy)
      (List.mem_cons_of_mem _ (List.mem_append_left _ (he ▸ List.mem_map_of_mem _ hz)))
  · intro y hy z hz he
    exact hdisj (List.mem_map_of_mem _ hy)
      (List.mem_cons_of_mem _ (List.mem_append_right _
        (List.mem_cons_of_mem _ (he ▸ List.mem_map_of_mem _ hz))))
  · intro y hy z hz he
    exact hdisj2 (List.mem_map_of_mem _ hy)
      (List.mem_cons_of_mem _ (he ▸ List.mem_map_of_mem _ hz))

/-- Old entries of a far polygon survive the fix-ups. -/
theorem old_mem_far (m : PolygonMesh) (p i0 i1 : Nat) (inv : MeshInv m)
    (hp : p < m.polygons.length) (h01 : i0 < i1)
    (hi1 : i1 < (m.polygons.getD p []).length) (q : Nat)
    (hq : q < m.polygons.length) (hqp : q ≠ p) :
    ∀ y ∈ m.polygons.getD q [], y ∈ (PolygonMesh.sPolysA m p i0 i1).getD q [] := by
  rcases sPolysA_getD_cases m p i0 i1 inv hp h01 hi1 q hq hqp with
    ⟨h0, h1, hval⟩ | ⟨h0, h1, A, B', hB, hval, hfree⟩ |
    ⟨h1, h0, A, B', hB, hval, hfree⟩ | ⟨h0, h1, A, C, D, hord, hfree⟩
  · intro y hy
    rw [hval]
    exact hy
  · intro y hy
    rw [hB] at hy
    rw [hval]
    rcases List.mem_append.1 hy with h | h
    · exact List.mem_append_left _ h
    · exact List.mem_append_right _ (List.mem_cons_of_mem _ h)
  · intro y hy
    rw [hB] at hy
    rw [hval]
    rcases List.mem_append.1 hy with h | h
    · exact List.mem_append_left _ h
    · exact List.mem_append_right _ (List.mem_cons_of_mem _ h)
  · rcases hord with ⟨hB, hval⟩ | ⟨hB, hval⟩ <;>
    · intro y hy
      rw [hB] at hy
      rw [hval]
      rcases List.mem_append.1 hy with h | h
      · exact List.mem_append_left _ h
      rcases List.mem_cons.1 h with rfl | h2
      · exact List.mem_append_right _ (List.mem_cons_of_mem _ (List.mem_cons_self _ _))
      rcases List.mem_append.1 h2 with h3 | h3
      · exact List.mem_append_right _ (List.mem_cons_of_mem _
          (List.mem_cons_of_mem _ (List.mem_append_left _ h3)))
      rcases List.mem_cons.1 h3 with rfl | h4
      · exact List.mem_append_right _ (List.mem_cons_of_mem _
          (List.mem_cons_of_mem _ (List.mem_append_right _
            (List.mem_cons_of_mem _ (List.mem_cons_self _ _)))))
      · exact List.mem_append_right _ (List.mem_cons_of_mem _
          (List.mem_cons_of_mem _ (List.mem_append_right _
            (List.mem_cons_of_mem _ (List.mem_cons_of_mem _ h4)))))

/-- The reversed first half is present in its far polygon after the fix-ups. -/
theorem rev0_mem_far (m : PolygonMesh) (p i0 i1 : Nat) (inv : MeshInv m)
    (hp : p < m.polygons.length) (h01 : i0 < i1)
    (hi1 : i1 < (m.polygons.getD p []).length) (q : Nat)
    (hq : q < m.polygons.length) (hqp : q ≠ p)
    (h0 : PolygonMesh.sAdj0 m p i0 = some q) :
    PolygonMesh.sRev0 m p i0 ∈ (PolygonMesh.sPolysA m p i0 i1).getD q [] := by
  rcases sPolysA_getD_cases m p i0 i1 inv hp h01 hi1 q hq hqp with
    ⟨h0', h1, hval⟩ | ⟨h0', h1, A, B', hB, hval, hfree⟩ |
    ⟨h1, h0', A, B', hB, hval, hfree⟩ | ⟨h0', h1, A, C, D, hord, hfree⟩
  · exact absurd h0 h0'
  · rw [hval]
    exact List.mem_append_right _ (List.mem_cons_self _ _)
  · exact absurd h0 h0'
  · rcases hord with ⟨hB, hval⟩ | ⟨hB, hval⟩
    · rw [hval]
      exact List.mem_append_right _ (List.mem_cons_self _ _)
    · rw [hval]
      exact List.mem_append_right _ (List.mem_cons_of_mem _
        (List.mem_cons_of_mem _ (List.mem_append_right _ (List.mem_cons_self _ _))))

/-- The reversed second half is present in its far polygon after the
fix-ups. -/
theorem rev1_mem_far (m : PolygonMesh) (p i0 i1 : Nat) (inv : MeshInv m)
    (hp : p < m.polygons.length) (h01 : i0 < i1)
    (hi1 : i1 < (m.polygons.getD p []).length) (q : Nat)
    (hq : q < m.polygons.length) (hqp : q ≠ p)
    (h1 : PolygonMesh.sAdj1 m p i1 = some q) :
    PolygonMesh.sRev1 m p i1 ∈ (PolygonMesh.sPolysA m p i0 i1).getD q [] := by
  rcases sPolysA_getD_cases m p i0 i1 inv hp h01 hi1 q hq hqp with
    ⟨h0, h1', hval⟩ | ⟨h0, h1', A, B', hB, hval, hfree⟩ |
    ⟨h1', h0, A, B', hB, hval, hfree⟩ | ⟨h0, h1', A, C, D, hord, hfree⟩
  · exact absurd h1 h1'
  · exact absurd h1 h1'
  · rw [hval]
    exact List.mem_append_right _ (List.mem_cons_self _ _)
  · rcases hord with ⟨hB, hval⟩ | ⟨hB, hval⟩
    · rw [hval]
      exact List.mem_append_right _ (List.mem_cons_of_mem _
        (List.mem_cons_of_mem _ (List.mem_append_right _ (List.mem_cons_self _ _))))
    · rw [hval]
      exact List.mem_append_right _ (List.mem_cons_self _ _)

/-- Far polygons keep distinct edge ids: the inserted halves are fresh. -/
theorem nodup_far (m : PolygonMesh) (p i0 i1 : Nat) (inv : MeshInv m)
    (hp : p < m.polygons.length) (h01 : i0 < i1)
    (hi1 : i1 < (m.polygons.getD p []).length) (q : Nat)
    (hq : q < m.polygons.length) (hqp : q ≠ p) :
    (((PolygonMesh.sPolysA m p i0 i1).getD q []).map OrientedEdge.edge).Nodup := by
  have hi0 : i0 < (m.polygons.getD p []).length := by omega
  have hpolymem : m.polygons.getD p [] ∈ m.polygons := getD_mem _ _ _ hp
  have he0 := (inv.wf _ hpolymem _ (getD_mem (m.polygons.getD p []) i0 default hi0)).1
  have he1 := (inv.wf _ hpolymem _ (getD_mem (m.polygons.getD p []) i1 default hi1)).1
  have hndq := inv.nodupEdges _ (getD_mem m.polygons q [] hq)
  have hwfq : ∀ y ∈ m.polygons.getD q [], y.edge < m.edgeStore.length :=
    fun y hy => (inv.wf _ (getD_mem m.polygons q [] hq) y hy).1
  have hr0e : (PolygonMesh.sRev0 m p i0).edge = m.edgeStore.length := rfl
  have hr1e : (PolygonMesh.sRev1 m p i1).edge = m.edgeStore.length + 1 := rfl
  have hw0e : (PolygonMesh.sW0 m p i0).edge =
      ((m.polygons.getD p []).getD i0 default).edge := rfl
  have hw1e : (PolygonMesh.sW1 m p i1).edge =
      ((m.polygons.getD p []).getD i1 default).edge := rfl
  rcases sPolysA_getD_cases m p i0 i1 inv hp h01 hi1 q hq hqp with
    ⟨h0, h1, hval⟩ | ⟨h0, h1, A, B', hB, hval, hfree⟩ |
    ⟨h1, h0, A, B', hB, hval, hfree⟩ | ⟨h0, h1, A, C, D, hord, hfree⟩
  · rw [hval]
    exact hndq
  · have hbound : ∀ x ∈ (A ++ (PolygonMesh.sW0 m p i0 :: B')).map OrientedEdge.edge,
        x < m.edgeStore.length := by
      intro x hx
      obtain ⟨y, hy, rfl⟩ := List.mem_map.1 hx
      exact hwfq y (by rw [hB]; exact hy)
    have base : ((A ++ (PolygonMesh.sW0 m p i0 :: B')).map OrientedEdge.edge).Nodup := by
      rw [← hB]
      exact hndq
    rw [hval, List.map_append, List.map_cons, List.map_cons]
    rw [List.map_append, List.map_cons] at base hbound
    refine nodup_middle_insert _ _ _ base ?_
    intro hc
    have := hbound _ hc
    omega
  · have hbound : ∀ x ∈ (A ++ (PolygonMesh.sW1 m p i1 :: B')).map OrientedEdge.edge,
        x < m.edgeStore.length := by
      intro x hx
      obtain ⟨y, hy, rfl⟩ := List.mem_map.1 hx
      exact hwfq y (by rw [hB]; exact hy)
    have base : ((A ++ (PolygonMesh.sW1 m p i1 :: B')).map OrientedEdge.edge).Nodup := by
      rw [← hB]
      exact hndq
    rw [hval, List.map_append, List.map_cons, List.map_cons]
    rw [List.map_append, List.map_cons] at base hbound
    refine nodup_middle_insert _ _ _ base ?_
    intro hc
    have := hbound _ hc
    omega
  · rcases hord with ⟨hB, hval⟩ | ⟨hB, hval⟩
    · have hbound : ∀ x ∈ (A ++ (PolygonMesh.sW0 m p i0 ::
          (C ++ (PolygonMesh.sW1 m p i1 :: D)))).map OrientedEdge.edge,
          x < m.edgeStore.length := by
        intro x hx
        obtain ⟨y, hy, rfl⟩ := List.mem_map.1 hx
        exact hwfq y (by rw [hB]; exact hy)
      have base : ((A ++ (PolygonMesh.sW0 m p i0 ::
          (C ++ (PolygonMesh.sW1 m p i1 :: D)))).map OrientedEdge.edge).Nodup := by
        rw [← hB]
        exact hndq
      rw [List.map_append, List.map_cons, List.map_append, List.map_cons]
        at base hbound
      have hsh : A.map OrientedEdge.edge ++ ((PolygonMesh.sW0 m p i0).edge ::
          (C.map OrientedEdge.edge ++ ((PolygonMesh.sW1 m p i1).edge ::
            D.map OrientedEdge.edge))) =
          (A.map OrientedEdge.edge ++ ((PolygonMesh.sW0 m p i0).edge ::
            C.map OrientedEdge.edge)) ++ ((PolygonMesh.sW1 m p i1).edge ::
            D.map OrientedEdge.edge) := by
        simp
      rw [hsh] at base
      have base2 := nodup_middle_insert _ _ (PolygonMesh.sRev1 m p i1).edge base (by
        intro hc
        rw [← hsh] at hc
        have := hbound _ hc
        omega)
      have hsh2 : (A.map OrientedEdge.edge ++ ((PolygonMesh.sW0 m p i0).edge ::
          C.map OrientedEdge.edge)) ++ ((PolygonMesh.sRev1 m p i1).edge ::
            ((PolygonMesh.sW1 m p i1).edge :: D.map OrientedEdge.edge)) =
          A.map OrientedEdge.edge ++ ((PolygonMesh.sW0 m p i0).edge ::
            (C.map OrientedEdge.edge ++ ((PolygonMesh.sRev1 m p i1).edge ::
              ((PolygonMesh.sW1 m p i1).edge :: D.map OrientedEdge.edge)))) := by
        simp
      rw [hsh2] at base2
      have base3 := nodup_middle_insert (A.map OrientedEdge.edge) _
        (PolygonMesh.sRev0 m p i0).edge base2 (by
        intro hc
        rcases List.mem_append.1 hc with h | h
        · have := hbound _ (List.mem_append_left _ h)
          omega
        rcases List.mem_cons.1 h with h | h2
        · rw [hr0e, hw0e] at h
          omega
        rcases List.mem_append.1 h2 with h3 | h3
        · have := hbound _ (List.mem_append_right _ (List.mem_cons_of_mem _
            (List.mem_append_left _ h3)))
          omega
        rcases List.mem_cons.1 h3 with h4 | h4
        · rw [hr0e, hr1e] at h4
          omega
        rcases List.mem_cons.1 h4 with h5 | h5
        · rw [hr0e, hw1e] at h5
          omega
        · have := hbound _ (List.mem_append_right _ (List.mem_cons_of_mem _
            (List.mem_append_right _ (List.mem_cons_of_mem _ h5))))
          omega)
      rw [hval, List.map_append, List.map_cons, List.map_cons, List.map_append,
        List.map_cons, List.map_cons]
      exact base3
    · have hbound : ∀ x ∈ (A ++ (PolygonMesh.sW1 m p i1 ::
          (C ++ (PolygonMesh.sW0 m p i0 :: D)))).map OrientedEdge.edge,
          x < m.edgeStore.length := by
        intro x hx
        obtain ⟨y, hy, rfl⟩ := List.mem_map.1 hx
        exact hwfq y (by rw [hB]; exact hy)
      have base : ((A ++ (PolygonMesh.sW1 m p i1 ::
          (C ++ (PolygonMesh.sW0 m p i0 :: D)))).map OrientedEdge.edge).Nodup := by
        rw [← hB]
        exact hndq
      rw [List.map_append, List.map_cons, List.map_append, List.map_cons]
        at base hbound
      have hsh : A.map OrientedEdge.edge ++ ((PolygonMesh.sW1 m p i1).edge ::
          (C.map OrientedEdge.edge ++ ((PolygonMesh.sW0 m p i0).edge ::
            D.map OrientedEdge.edge))) =
          (A.map OrientedEdge.edge ++ ((PolygonMesh.sW1 m p i1).edge ::
            C.map OrientedEdge.edge)) ++ ((PolygonMesh.sW0 m p i0).edge ::
            D.map OrientedEdge.edge) := by
        simp
      rw [hsh] at base
      have base2 := nodup_middle_insert _ _ (PolygonMesh.sRev0 m p i0).edge base (by
        intro hc
        rw [← hsh] at hc
        have := hbound _ hc
        omega)
      have hsh2 : (A.map OrientedEdge.edge ++ ((PolygonMesh.sW1 m p i1).edge ::
          C.map OrientedEdge.edge)) ++ ((PolygonMesh.sRev0 m p i0).edge ::
            ((PolygonMesh.sW0 m p i0).edge :: D.map OrientedEdge.edge)) =
          A.map OrientedEdge.edge ++ ((PolygonMesh.sW1 m p i1).edge ::
            (C.map OrientedEdge.edge ++ ((PolygonMesh.sRev0 m p i0).edge ::
              ((PolygonMesh.sW0 m p i0).edge :: D.map OrientedEdge.edge)))) := by
        simp
      rw [hsh2] at base2
      have base3 := nodup_middle_insert (A.map OrientedEdge.edge) _
        (PolygonMesh.sRev1 m p i1).edge base2 (by
        intro hc
        rcases List.mem_append.1 hc with h | h
        · have := hbound _ (List.mem_append_left _ h)
          omega
        rcases List.mem_cons.1 h with h | h2
        · rw [hr1e, hw1e] at h
          omega
        rcases List.mem_append.1 h2 with h3 | h3
        · have := hbound _ (List.mem_append_right _ (List.mem_cons_of_mem _
            (List.mem_append_left _ h3)))
          omega
        rcases List.mem_cons.1 h3 with h4 | h4
        · rw [hr1e, hr0e] at h4
          omega
        rcases List.mem_cons.1 h4 with h5 | h5
        · rw [hr1e, hw0e] at h5
          omega
        · have := hbound _ (List.mem_append_right _ (List.mem_cons_of_mem _
            (List.mem_append_right _ (List.mem_cons_of_mem _ h5))))
          omega)
      rw [hval, List.map_append, List.map_cons, List.map_cons, List.map_append,
        List.map_cons, List.map_cons]
      exact base3

/-- Every entry of every post-split polygon points back at its polygon through
the arena. -/
theorem entryAdj_sResult (m : PolygonMesh) (p i0 i1 : Nat) (t0 t1 : ℚ) (d : Bool)
    (inv : MeshInv m) (hp : p < m.polygons.length) (h01 : i0 < i1)
    (hi1 : i1 < (m.polygons.getD p []).length) :
    ∀ pi, pi < (PolygonMesh.sResult m p i0 i1 t0 t1 d).polygons.length →
      ∀ oe ∈ (PolygonMesh.sResult m p i0 i1 t0 t1 d).polygons.getD pi [],
        (arenaGet (PolygonMesh.sResult m p i0 i1 t0 t1 d).edgeStore
          oe.edge).adjacentPoly oe.orientation = some pi := by
  have hi0 : i0 < (m.polygons.getD p []).length := by omega
  have hpolymem : m.polygons.getD p [] ∈ m.polygons := getD_mem _ _ _ hp
  have hmem0 : PolygonMesh.sOe0 m p i0 ∈ m.polygons.getD p [] := getD_mem _ _ _ hi0
  have hmem1 : PolygonMesh.sOe1 m p i1 ∈ m.polygons.getD p [] := getD_mem _ _ _ hi1
  have he0 := (inv.wf _ hpolymem _ hmem0).1
  have he1 := (inv.wf _ hpolymem _ hmem1).1
  have ho0 := (inv.wf _ hpolymem _ hmem0).2
  have ho1 := (inv.wf _ hpolymem _ hmem1).2
  have hne : (PolygonMesh.sOe0 m p i0).edge ≠ (PolygonMesh.sOe1 m p i1).edge :=
    nodup_getD_edge_ne _ (inv.nodupEdges _ hpolymem) i0 i1 hi0 hi1 (by omega)
  have he0g : ((m.polygons.getD p []).getD i0 default).edge =
      (PolygonMesh.sOe0 m p i0).edge := rfl
  have he1g : ((m.polygons.getD p []).getD i1 default).edge =
      (PolygonMesh.sOe1 m p i1).edge := rfl
  have hndD := inv.nodupEdges _ hpolymem
  rw [poly_decomp (m.polygons.getD p []) i0 i1 h01 hi1] at hndD
  obtain ⟨hfP, hfQ, hfS, hfe⟩ := parts_edge_free _ _ _ _ _ hndD
  obtain ⟨hPQ, hPS, hQS⟩ := parts_mutual_disjoint _ _ _ _ _ hndD
  have hQpoly : ∀ z ∈ ((m.polygons.getD p []).drop (i0 + 1)).take (i1 - i0 - 1),
      z ∈ m.polygons.getD p [] :=
    fun z hz => List.mem_of_mem_drop (List.mem_of_mem_take hz)
  intro pi hpi oe hoe
  rw [sResult_polygons_length] at hpi
  show (arenaGet (PolygonMesh.sEs7 m p i0 i1) oe.edge).adjacentPoly oe.orientation =
    some pi
  by_cases hpin : pi = m.polygons.length
  · subst hpin
    rw [sResult_polygons_getD_last] at hoe
    exact adj_sEs7_entry m p i0 i1 inv hp h01 hi1 oe hoe
  by_cases hpip : pi = p
  · rw [hpip] at hoe ⊢
    rw [sResult_polygons_getD_p m p i0 i1 t0 t1 d hp] at hoe
    rcases (sPolyNew_entry_facts m p i0 i1 inv hp h01 hi1 oe hoe).2.2 with
      hP | hoeq | hoeq | hoeq | hS
    · -- entry from the head span of the old polygon
      have hoepoly : oe ∈ m.polygons.getD p [] := List.mem_of_mem_take hP
      have hoeN : oe.edge < m.edgeStore.length := (inv.wf _ hpolymem _ hoepoly).1
      have hnot : ∀ z ∈ PolygonMesh.sNewPoly m p i0 i1, z.edge ≠ oe.edge := by
        intro z hz
        rcases (sNewPoly_entry_facts m p i0 i1 inv hp h01 hi1 z hz).2.2 with
          rfl | hzQ | rfl | rfl
        · show m.edgeStore.length ≠ oe.edge
          omega
        · exact Ne.symm (hPQ oe hP z hzQ)
        · exact fun h => (hfP oe hP).2 h.symm
        · show m.edgeStore.length + 2 ≠ oe.edge
          omega
      rw [arenaGet_sEs7_of_not_entry m p i0 i1 oe.edge hnot
        (by unfold PolygonMesh.sMiddleId; omega)]
      rw [adj_sEs5_old m p i0 i1 oe.edge hoeN he0 he1 hne]
      exact inv.entryAdj p hp oe hoepoly
    · -- the first split edge itself
      subst hoeq
      have hnot : ∀ z ∈ PolygonMesh.sNewPoly m p i0 i1,
          z.edge ≠ ((m.polygons.getD p []).getD i0 default).edge := by
        intro z hz
        rcases (sNewPoly_entry_facts m p i0 i1 inv hp h01 hi1 z hz).2.2 with
          rfl | hzQ | rfl | rfl
        · show m.edgeStore.length ≠ _
          omega
        · exact hfQ z hzQ |>.1
        · exact Ne.symm hfe
        · show m.edgeStore.length + 2 ≠ _
          omega
      rw [arenaGet_sEs7_of_not_entry m p i0 i1 _ hnot
        (by unfold PolygonMesh.sMiddleId; omega)]
      rw [adj_sEs5_old m p i0 i1 ((m.polygons.getD p []).getD i0 default).edge
        (by rw [he0g]; exact he0) he0 he1 hne]
      exact inv.entryAdj p hp _ hmem0
    · -- the middle edge, side 0
      subst hoeq
      exact (adj_sEs7_mid m p i0 i1 inv hp h01 hi1).1
    · -- the second new half edge
      subst hoeq
      have hnot : ∀ z ∈ PolygonMesh.sNewPoly m p i0 i1,
          z.edge ≠ m.edgeStore.length + 1 := by
        intro z hz
        rcases (sNewPoly_entry_facts m p i0 i1 inv hp h01 hi1 z hz).2.2 with
          rfl | hzQ | rfl | rfl
        · show m.edgeStore.length ≠ _
          omega
        · have := (inv.wf _ hpolymem _ (hQpoly z hzQ)).1
          omega
        · have := he1
          omega
        · show m.edgeStore.length + 2 ≠ _
          omega
      show (arenaGet (PolygonMesh.sEs7 m p i0 i1)
        (m.edgeStore.length + 1)).adjacentPoly
        ((m.polygons.getD p []).getD i1 default).orientation = some p
      rw [arenaGet_sEs7_of_not_entry m p i0 i1 (m.edgeStore.length + 1) hnot
        (by unfold PolygonMesh.sMiddleId; omega)]
      show (arenaGet (PolygonMesh.sEs5 m p i0 i1)
        (PolygonMesh.sNewId1 m)).adjacentPoly
        ((m.polygons.getD p []).getD i1 default).orientation = some p
      rw [adj_sEs5_nid1 m p i0 i1 he0 he1]
      exact inv.entryAdj p hp _ hmem1
    · -- entry from the tail span of the old polygon
      have hoepoly : oe ∈ m.polygons.getD p [] := List.mem_of_mem_drop hS
      have hoeN : oe.edge < m.edgeStore.length := (inv.wf _ hpolymem _ hoepoly).1
      have hnot : ∀ z ∈ PolygonMesh.sNewPoly m p i0 i1, z.edge ≠ oe.edge := by
        intro z hz
        rcases (sNewPoly_entry_facts m p i0 i1 inv hp h01 hi1 z hz).2.2 with
          rfl | hzQ | rfl | rfl
        · show m.edgeStore.length ≠ oe.edge
          omega
        · exact hQS z hzQ oe hS
        · exact fun h => (hfS oe hS).2 h.symm
        · show m.edgeStore.length + 2 ≠ oe.edge
          omega
      rw [arenaGet_sEs7_of_not_entry m p i0 i1 oe.edge hnot
        (by unfold PolygonMesh.sMiddleId; omega)]
      rw [adj_sEs5_old m p i0 i1 oe.edge hoeN he0 he1 hne]
      exact inv.entryAdj p hp oe hoepoly
  · -- a far polygon
    have hq : pi < m.polygons.length := by omega
    rw [sResult_polygons_getD_far m p i0 i1 t0 t1 d pi hq hpip] at hoe
    rcases far_entry_facts m p i0 i1 inv hp h01 hi1 pi hq hpip oe hoe with
      hB | ⟨hoeq, h0⟩ | ⟨hoeq, h1⟩
    · have hoeN : oe.edge < m.edgeStore.length :=
        (inv.wf _ (getD_mem m.polygons pi [] hq) _ hB).1
      have hoeO : oe.orientation < 2 :=
        (inv.wf _ (getD_mem m.polygons pi [] hq) _ hB).2
      have hold := inv.entryAdj pi hq oe hB
      have hunw : ∀ z ∈ PolygonMesh.sNewPoly m p i0 i1, z.edge = oe.edge →
          z.orientation < 2 ∧ z.orientation ≠ oe.orientation := by
        intro z hz hze
        have hfacts := sNewPoly_entry_facts m p i0 i1 inv hp h01 hi1 z hz
        have hzpoly : z ∈ m.polygons.getD p [] := by
          rcases hfacts.2.2 with rfl | hzQ | rfl | rfl
          · exfalso
            have : (⟨m.edgeStore.length,
                ((m.polygons.getD p []).getD i0 default).orientation⟩ :
                OrientedEdge).edge = m.edgeStore.length := rfl
            omega
          · exact hQpoly z hzQ
          · exact hmem1
          · exfalso
            have : (⟨m.edgeStore.length + 2, 1⟩ : OrientedEdge).edge =
                m.edgeStore.length + 2 := rfl
            omega
        refine ⟨hfacts.2.1, ?_⟩
        intro hor
        have hpadj := inv.entryAdj p hp z hzpoly
        rw [hze, hor] at hpadj
        rw [hpadj] at hold
        injection hold with hcon
        exact hpip hcon.symm
      rw [adj_sEs7_unwritten m p i0 i1 oe.edge oe.orientation hoeO hunw
        (by unfold PolygonMesh.sMiddleId; omega)]
      rw [adj_sEs5_old m p i0 i1 oe.edge hoeN he0 he1 hne]
      exact hold
    · subst hoeq
      have hunw : ∀ z ∈ PolygonMesh.sNewPoly m p i0 i1,
          z.edge = m.edgeStore.length →
          z.orientation < 2 ∧ z.orientation ≠
            1 - (PolygonMesh.sOe0 m p i0).orientation := by
        intro z hz hze
        rcases (sNewPoly_entry_facts m p i0 i1 inv hp h01 hi1 z hz).2.2 with
          rfl | hzQ | rfl | rfl
        · exact ⟨ho0, Ne.symm (one_sub_ne _ ho0)⟩
        · exfalso
          have := (inv.wf _ hpolymem _ (hQpoly z hzQ)).1
          omega
        · exfalso
          have := he1
          omega
        · exfalso
          have : (⟨m.edgeStore.length + 2, 1⟩ : OrientedEdge).edge =
              m.edgeStore.length + 2 := rfl
          omega
      show (arenaGet (PolygonMesh.sEs7 m p i0 i1)
        (PolygonMesh.sNewId0 m)).adjacentPoly
        (1 - (PolygonMesh.sOe0 m p i0).orientation) = some pi
      rw [adj_sEs7_unwritten m p i0 i1 (PolygonMesh.sNewId0 m)
        (1 - (PolygonMesh.sOe0 m p i0).orientation) (one_sub_lt_two _) hunw
        (by unfold PolygonMesh.sMiddleId PolygonMesh.sNewId0; omega)]
      rw [adj_sEs5_nid0 m p i0 i1 he0 he1]
      exact h0
    · subst hoeq
      have hnot : ∀ z ∈ PolygonMesh.sNewPoly m p i0 i1,
          z.edge ≠ m.edgeStore.length + 1 := by
        intro z hz
        rcases (sNewPoly_entry_facts m p i0 i1 inv hp h01 hi1 z hz).2.2 with
          rfl | hzQ | rfl | rfl
        · show m.edgeStore.length ≠ _
          omega
        · have := (inv.wf _ hpolymem _ (hQpoly z hzQ)).1
          omega
        · have := he1
          omega
        · show m.edgeStore.length + 2 ≠ _
          omega
      show (arenaGet (PolygonMesh.sEs7 m p i0 i1)
        (m.edgeStore.length + 1)).adjacentPoly
        (1 - (PolygonMesh.sOe1 m p i1).orientation) = some pi
      rw [arenaGet_sEs7_of_not_entry m p i0 i1 (m.edgeStore.length + 1) hnot
        (by unfold PolygonMesh.sMiddleId; omega)]
      show (arenaGet (PolygonMesh.sEs5 m p i0 i1)
        (PolygonMesh.sNewId1 m)).adjacentPoly
        (1 - (PolygonMesh.sOe1 m p i1).orientation) = some pi
      rw [adj_sEs5_nid1 m p i0 i1 he0 he1]
      exact h1

/-- Every adjacency reference in the post-split arena points at a polygon that
really uses that edge side. -/
theorem adjEntry_sResult (m : PolygonMesh) (p i0 i1 : Nat) (t0 t1 : ℚ) (d : Bool)
    (inv : MeshInv m) (hp : p < m.polygons.length) (h01 : i0 < i1)
    (hi1 : i1 < (m.polygons.getD p []).length) :
    ∀ ei, ei < (PolygonMesh.sResult m p i0 i1 t0 t1 d).edgeStore.length →
      ∀ s, s < 2 → ∀ pi,
      (arenaGet (PolygonMesh.sResult m p i0 i1 t0 t1 d).edgeStore
        ei).adjacentPoly s = some pi →
      pi < (PolygonMesh.sResult m p i0 i1 t0 t1 d).polygons.length ∧
        (⟨ei, s⟩ : OrientedEdge) ∈
          (PolygonMesh.sResult m p i0 i1 t0 t1 d).polygons.getD pi [] := by
  have hi0 : i0 < (m.polygons.getD p []).length := by omega
  have hpolymem : m.polygons.getD p [] ∈ m.polygons := getD_mem _ _ _ hp
  have hmem0 : PolygonMesh.sOe0 m p i0 ∈ m.polygons.getD p [] := getD_mem _ _ _ hi0
  have hmem1 : PolygonMesh.sOe1 m p i1 ∈ m.polygons.getD p [] := getD_mem _ _ _ hi1
  have he0 := (inv.wf _ hpolymem _ hmem0).1
  have he1 := (inv.wf _ hpolymem _ hmem1).1
  have ho0 := (inv.wf _ hpolymem _ hmem0).2
  have ho1 := (inv.wf _ hpolymem _ hmem1).2
  have hne : (PolygonMesh.sOe0 m p i0).edge ≠ (PolygonMesh.sOe1 m p i1).edge :=
    nodup_getD_edge_ne _ (inv.nodupEdges _ hpolymem) i0 i1 hi0 hi1 (by omega)
  have he0g : ((m.polygons.getD p []).getD i0 default).edge =
      (PolygonMesh.sOe0 m p i0).edge := rfl
  have he1g : ((m.polygons.getD p []).getD i1 default).edge =
      (PolygonMesh.sOe1 m p i1).edge := rfl
  have ho0g : ((m.polygons.getD p []).getD i0 default).orientation =
      (PolygonMesh.sOe0 m p i0).orientation := rfl
  have ho1g : ((m.polygons.getD p []).getD i1 default).orientation =
      (PolygonMesh.sOe1 m p i1).orientation := rfl
  have hQpoly : ∀ z ∈ ((m.polygons.getD p []).drop (i0 + 1)).take (i1 - i0 - 1),
      z ∈ m.polygons.getD p [] :=
    fun z hz => List.mem_of_mem_drop (List.mem_of_mem_take hz)
  have hmemNewHead : (⟨m.edgeStore.length,
      ((m.polygons.getD p []).getD i0 default).orientation⟩ : OrientedEdge) ∈
      PolygonMesh.sNewPoly m p i0 i1 := by
    rw [sNewPoly_eq m p i0 i1 inv hp h01 hi1]
    exact List.mem_cons_self _ _
  have hmemNew1 : (m.polygons.getD p []).getD i1 default ∈
      PolygonMesh.sNewPoly m p i0 i1 := by
    rw [sNewPoly_eq m p i0 i1 inv hp h01 hi1]
    exact List.mem_cons_of_mem _ (List.mem_append_left _
      (List.mem_append_right _ (List.mem_singleton.2 rfl)))
  have hQmemNew : ∀ z ∈ ((m.polygons.getD p []).drop (i0 + 1)).take (i1 - i0 - 1),
      z ∈ PolygonMesh.sNewPoly m p i0 i1 := by
    intro z hz
    rw [sNewPoly_eq m p i0 i1 inv hp h01 hi1]
    exact List.mem_cons_of_mem _ (List.mem_append_left _ (List.mem_append_left _ hz))
  have hnotN1 : ∀ z ∈ PolygonMesh.sNewPoly m p i0 i1,
      z.edge ≠ m.edgeStore.length + 1 := by
    intro z hz
    rcases (sNewPoly_entry_facts m p i0 i1 inv hp h01 hi1 z hz).2.2 with
      rfl | hzQ | rfl | rfl
    · show m.edgeStore.length ≠ _
      omega
    · have := (inv.wf _ hpolymem _ (hQpoly z hzQ)).1
      omega
    · have := he1
      omega
    · show m.edgeStore.length + 2 ≠ _
      omega
  intro ei hei s hs pi hadj
  have heq : (PolygonMesh.sResult m p i0 i1 t0 t1 d).edgeStore =
      PolygonMesh.sEs7 m p i0 i1 := rfl
  rw [heq, sEs7_length] at hei
  rw [heq] at hadj
  rw [sResult_polygons_length]
  by_cases hmide : ei = m.edgeStore.length + 2
  · subst hmide
    have hmid := adj_sEs7_mid m p i0 i1 inv hp h01 hi1
    by_cases hs0 : s = 0
    · subst hs0
      have hmid0 : (arenaGet (PolygonMesh.sEs7 m p i0 i1)
          (m.edgeStore.length + 2)).adjacentPoly 0 = some p := hmid.1
      rw [hmid0] at hadj
      injection hadj with hadj
      subst hadj
      refine ⟨by omega, ?_⟩
      rw [sResult_polygons_getD_p m p i0 i1 t0 t1 d hp,
        sPolyNew_eq m p i0 i1 inv hp h01 hi1]
      exact List.mem_append_right _ (List.mem_cons_self _ _)
    · have hs1 : s = 1 := by omega
      subst hs1
      have hmid1 : (arenaGet (PolygonMesh.sEs7 m p i0 i1)
          (m.edgeStore.length + 2)).adjacentPoly 1 = some m.polygons.length :=
        hmid.2
      rw [hmid1] at hadj
      injection hadj with hadj
      subst hadj
      refine ⟨by omega, ?_⟩
      rw [sResult_polygons_getD_last,
        sNewPoly_eq m p i0 i1 inv hp h01 hi1]
      exact List.mem_cons_of_mem _ (List.mem_append_right _
        (List.mem_singleton.2 rfl))
  by_cases hn0e : ei = m.edgeStore.length
  · subst hn0e
    by_cases hso : s = ((m.polygons.getD p []).getD i0 default).orientation
    · subst hso
      have hwr : (arenaGet (PolygonMesh.sEs7 m p i0 i1)
          m.edgeStore.length).adjacentPoly
          ((m.polygons.getD p []).getD i0 default).orientation =
          some m.polygons.length :=
        adj_sEs7_entry m p i0 i1 inv hp h01 hi1 _ hmemNewHead
      rw [hwr] at hadj
      injection hadj with hadj
      subst hadj
      refine ⟨by omega, ?_⟩
      rw [sResult_polygons_getD_last]
      exact hmemNewHead
    · have hs1mo : s = 1 - ((m.polygons.getD p []).getD i0 default).orientation := by
        have := ho0g
        omega
      subst hs1mo
      have hunw : ∀ z ∈ PolygonMesh.sNewPoly m p i0 i1,
          z.edge = m.edgeStore.length → z.orientation < 2 ∧ z.orientation ≠
            1 - ((m.polygons.getD p []).getD i0 default).orientation := by
        intro z hz hze
        rcases (sNewPoly_entry_facts m p i0 i1 inv hp h01 hi1 z hz).2.2 with
          rfl | hzQ | rfl | rfl
        · refine ⟨by rw [ho0g]; exact ho0, ?_⟩
          show ((m.polygons.getD p []).getD i0 default).orientation ≠ _
          have := ho0
          omega
        · exfalso
          have := (inv.wf _ hpolymem _ (hQpoly z hzQ)).1
          omega
        · exfalso
          have := he1
          omega
        · exfalso
          have hredz : (⟨m.edgeStore.length + 2, 1⟩ : OrientedEdge).edge =
              m.edgeStore.length + 2 := rfl
          omega
      rw [adj_sEs7_unwritten m p i0 i1 m.edgeStore.length _
        (one_sub_lt_two _) hunw (by unfold PolygonMesh.sMiddleId; omega)] at hadj
      have hnidval : (arenaGet (PolygonMesh.sEs5 m p i0 i1)
          m.edgeStore.length).adjacentPoly
          (1 - ((m.polygons.getD p []).getD i0 default).orientation) =
          (arenaGet m.edgeStore (PolygonMesh.sOe0 m p i0).edge).adjacentPoly
          (1 - ((m.polygons.getD p []).getD i0 default).orientation) :=
        adj_sEs5_nid0 m p i0 i1 he0 he1 _
      rw [hnidval] at hadj
      have hfar : PolygonMesh.sAdj0 m p i0 = some pi := hadj
      have hnf := neighbor_facts m inv p hp _ hmem0 pi hfar
      refine ⟨by omega, ?_⟩
      rw [sResult_polygons_getD_far m p i0 i1 t0 t1 d pi hnf.1 hnf.2.1]
      exact rev0_mem_far m p i0 i1 inv hp h01 hi1 pi hnf.1 hnf.2.1 hfar
  by_cases hn1e : ei = m.edgeStore.length + 1
  · subst hn1e
    have harena : arenaGet (PolygonMesh.sEs7 m p i0 i1) (m.edgeStore.length + 1) =
        arenaGet (PolygonMesh.sEs5 m p i0 i1) (m.edgeStore.length + 1) :=
      arenaGet_sEs7_of_not_entry m p i0 i1 _ hnotN1
        (by unfold PolygonMesh.sMiddleId; omega)
    rw [harena] at hadj
    have hnidval : ∀ s', (arenaGet (PolygonMesh.sEs5 m p i0 i1)
        (PolygonMesh.sNewId1 m)).adjacentPoly s' =
        (arenaGet m.edgeStore (PolygonMesh.sOe1 m p i1).edge).adjacentPoly s' :=
      adj_sEs5_nid1 m p i0 i1 he0 he1
    have hadj' : (arenaGet m.edgeStore
        (PolygonMesh.sOe1 m p i1).edge).adjacentPoly s = some pi := by
      rw [← hnidval s]
      exact hadj
    by_cases hso : s = ((m.polygons.getD p []).getD i1 default).orientation
    · subst hso
      have hold : (arenaGet m.edgeStore
          (PolygonMesh.sOe1 m p i1).edge).adjacentPoly
          ((m.polygons.getD p []).getD i1 default).orientation = some p :=
        inv.entryAdj p hp _ hmem1
      rw [hold] at hadj'
      injection hadj' with hadj'
      subst hadj'
      refine ⟨by omega, ?_⟩
      rw [sResult_polygons_getD_p m p i0 i1 t0 t1 d hp,
        sPolyNew_eq m p i0 i1 inv hp h01 hi1]
      exact List.mem_append_right _ (List.mem_cons_of_mem _ (List.mem_cons_self _ _))
    · have hs1mo : s = 1 - ((m.polygons.getD p []).getD i1 default).orientation := by
        have := ho1g
        have := ho1
        omega
      subst hs1mo
      have hfar : PolygonMesh.sAdj1 m p i1 = some pi := hadj'
      have hnf := neighbor_facts m inv p hp _ hmem1 pi hfar
      refine ⟨by omega, ?_⟩
      rw [sResult_polygons_getD_far m p i0 i1 t0 t1 d pi hnf.1 hnf.2.1]
      exact rev1_mem_far m p i0 i1 inv hp h01 hi1 pi hnf.1 hnf.2.1 hfar
  by_cases he0e : ei = ((m.polygons.getD p []).getD i0 default).edge
  · subst he0e
    have hnot : ∀ z ∈ PolygonMesh.sNewPoly m p i0 i1,
        z.edge ≠ ((m.polygons.getD p []).getD i0 default).edge := by
      intro z hz
      have hndD := inv.nodupEdges _ hpolymem
      rw [poly_decomp (m.polygons.getD p []) i0 i1 h01 hi1] at hndD
      obtain ⟨hfP, hfQ, hfS, hfe⟩ := parts_edge_free _ _ _ _ _ hndD
      rcases (sNewPoly_entry_facts m p i0 i1 inv hp h01 hi1 z hz).2.2 with
        rfl | hzQ | rfl | rfl
      · show m.edgeStore.length ≠ _
        omega
      · exact (hfQ z hzQ).1
      · exact Ne.symm hfe
      · show m.edgeStore.length + 2 ≠ _
        omega
    have harena := arenaGet_sEs7_of_not_entry m p i0 i1 _ hnot
      (by unfold PolygonMesh.sMiddleId; omega)
    rw [harena] at hadj
    rw [adj_sEs5_old m p i0 i1 _ (by rw [he0g]; exact he0) he0 he1 hne] at hadj
    by_cases hso : s = ((m.polygons.getD p []).getD i0 default).orientation
    · subst hso
      have hold : (arenaGet m.edgeStore
          ((m.polygons.getD p []).getD i0 default).edge).adjacentPoly
          ((m.polygons.getD p []).getD i0 default).orientation = some p :=
        inv.entryAdj p hp _ hmem0
      rw [hold] at hadj
      injection hadj with hadj
      subst hadj
      refine ⟨by omega, ?_⟩
      rw [sResult_polygons_getD_p m p i0 i1 t0 t1 d hp,
        sPolyNew_eq m p i0 i1 inv hp h01 hi1]
      exact List.mem_append_left _ (List.mem_append_right _
        (List.mem_singleton.2 rfl))
    · have hs1mo : s = 1 - ((m.polygons.getD p []).getD i0 default).orientation := by
        have := ho0g
        have := ho0
        omega
      subst hs1mo
      have hfar : PolygonMesh.sAdj0 m p i0 = some pi := hadj
      have hnf := neighbor_facts m inv p hp _ hmem0 pi hfar
      refine ⟨by omega, ?_⟩
      rw [sResult_polygons_getD_far m p i0 i1 t0 t1 d pi hnf.1 hnf.2.1]
      exact old_mem_far m p i0 i1 inv hp h01 hi1 pi hnf.1 hnf.2.1 _ hnf.2.2
  by_cases he1e : ei = ((m.polygons.getD p []).getD i1 default).edge
  · subst he1e
    by_cases hso : s = ((m.polygons.getD p []).getD i1 default).orientation
    · subst hso
      have hwr : (arenaGet (PolygonMesh.sEs7 m p i0 i1)
          ((m.polygons.getD p []).getD i1 default).edge).adjacentPoly
          ((m.polygons.getD p []).getD i1 default).orientation =
          some m.polygons.length :=
        adj_sEs7_entry m p i0 i1 inv hp h01 hi1 _ hmemNew1
      rw [hwr] at hadj
      injection hadj with hadj
      subst hadj
      refine ⟨by omega, ?_⟩
      rw [sResult_polygons_getD_last]
      exact hmemNew1
    · have hs1mo : s = 1 - ((m.polygons.getD p []).getD i1 default).orientation := by
        have := ho1g
        have := ho1
        omega
      subst hs1mo
      have hunw : ∀ z ∈ PolygonMesh.sNewPoly m p i0 i1,
          z.edge = ((m.polygons.getD p []).getD i1 default).edge →
          z.orientation < 2 ∧ z.orientation ≠
            1 - ((m.polygons.getD p []).getD i1 default).orientation := by
        intro z hz hze
        have hndD := inv.nodupEdges _ hpolymem
        rw [poly_decomp (m.polygons.getD p []) i0 i1 h01 hi1] at hndD
        obtain ⟨hfP, hfQ, hfS, hfe⟩ := parts_edge_free _ _ _ _ _ hndD
        rcases (sNewPoly_entry_facts m p i0 i1 inv hp h01 hi1 z hz).2.2 with
          rfl | hzQ | rfl | rfl
        · exfalso
          have hzed : (⟨m.edgeStore.length,
              ((m.polygons.getD p []).getD i0 default).orientation⟩ :
              OrientedEdge).edge = m.edgeStore.length := rfl
          have := he1
          omega
        · exact absurd hze (hfQ z hzQ).2
        · refine ⟨by rw [ho1g]; exact ho1, ?_⟩
          show ((m.polygons.getD p []).getD i1 default).orientation ≠ _
          have := ho1
          omega
        · exfalso
          have hzed : (⟨m.edgeStore.length + 2, 1⟩ : OrientedEdge).edge =
              m.edgeStore.length + 2 := rfl
          have := he1
          omega
      rw [adj_sEs7_unwritten m p i0 i1 _ _ (one_sub_lt_two _) hunw
        (by rw [he1g]; unfold PolygonMesh.sMiddleId; omega)] at hadj
      rw [adj_sEs5_old m p i0 i1 _ (by rw [he1g]; exact he1) he0 he1 hne] at hadj
      have hfar : PolygonMesh.sAdj1 m p i1 = some pi := hadj
      have hnf := neighbor_facts m inv p hp _ hmem1 pi hfar
      refine ⟨by omega, ?_⟩
      rw [sResult_polygons_getD_far m p i0 i1 t0 t1 d pi hnf.1 hnf.2.1]
      exact old_mem_far m p i0 i1 inv hp h01 hi1 pi hnf.1 hnf.2.1 _ hnf.2.2
  -- an ordinary old edge
  have heiN : ei < m.edgeStore.length := by omega
  by_cases hQex : ∃ z ∈ ((m.polygons.getD p []).drop (i0 + 1)).take (i1 - i0 - 1),
      z.edge = ei
  · obtain ⟨z, hzQ, hze⟩ := hQex
    have hzo2 := (inv.wf _ hpolymem _ (hQpoly z hzQ)).2
    by_cases hsz : s = z.orientation
    · subst hsz
      have hwr := adj_sEs7_entry m p i0 i1 inv hp h01 hi1 z (hQmemNew z hzQ)
      rw [← hze] at hadj
      rw [hwr] at hadj
      injection hadj with hadj
      subst hadj
      refine ⟨by omega, ?_⟩
      rw [sResult_polygons_getD_last, ← hze, oe_eta z]
      exact hQmemNew z hzQ
    · have hunw : ∀ y ∈ PolygonMesh.sNewPoly m p i0 i1, y.edge = ei →
          y.orientation < 2 ∧ y.orientation ≠ s := by
        intro y hy hyq
        have hyQe : y.edge = z.edge := by rw [hyq, hze]
        have hynd := sNewPoly_nodup m p i0 i1 inv hp h01 hi1
        have hyz : y = z := nodup_map_eq_of_mem _ OrientedEdge.edge hynd y z hy
          (hQmemNew z hzQ) hyQe
        subst hyz
        exact ⟨hzo2, fun hcon => hsz hcon.symm⟩
      rw [adj_sEs7_unwritten m p i0 i1 ei s hs hunw
        (by unfold PolygonMesh.sMiddleId; omega)] at hadj
      rw [adj_sEs5_old m p i0 i1 ei heiN he0 he1 hne] at hadj
      have hold := inv.adjEntry ei heiN s hs pi hadj
      have hpip : pi ≠ p := by
        intro hcon
        subst hcon
        have heqz : (⟨ei, s⟩ : OrientedEdge) = z :=
          nodup_map_eq_of_mem _ OrientedEdge.edge (inv.nodupEdges _ hpolymem)
            ⟨ei, s⟩ z hold.2 (hQpoly z hzQ) (by show ei = z.edge; omega)
        have : s = z.orientation := congrArg OrientedEdge.orientation heqz
        exact hsz this
      refine ⟨by omega, ?_⟩
      rw [sResult_polygons_getD_far m p i0 i1 t0 t1 d pi hold.1 hpip]
      exact old_mem_far m p i0 i1 inv hp h01 hi1 pi hold.1 hpip _ hold.2
  · have hnot : ∀ z ∈ PolygonMesh.sNewPoly m p i0 i1, z.edge ≠ ei := by
      intro z hz
      rcases (sNewPoly_entry_facts m p i0 i1 inv hp h01 hi1 z hz).2.2 with
        rfl | hzQ | rfl | rfl
      · show m.edgeStore.length ≠ _
        omega
      · exact fun hcon => hQex ⟨z, hzQ, hcon⟩
      · exact fun hcon => he1e (by rw [← hcon])
      · show m.edgeStore.length + 2 ≠ _
        omega
    have harena := arenaGet_sEs7_of_not_entry m p i0 i1 _ hnot
      (by unfold PolygonMesh.sMiddleId; omega)
    rw [harena] at hadj
    rw [adj_sEs5_old m p i0 i1 ei heiN he0 he1 hne] at hadj
    have hold := inv.adjEntry ei heiN s hs pi hadj
    by_cases hpip : pi = p
    · rw [hpip] at hold ⊢
      refine ⟨by omega, ?_⟩
      rw [sResult_polygons_getD_p m p i0 i1 t0 t1 d hp,
        sPolyNew_eq m p i0 i1 inv hp h01 hi1]
      have hmemp := hold.2
      rw [poly_decomp (m.polygons.getD p []) i0 i1 h01 hi1] at hmemp
      rcases List.mem_append.1 hmemp with hP | hrest
      · exact List.mem_append_left _ (List.mem_append_left _ hP)
      rcases List.mem_cons.1 hrest with heq0 | hrest2
      · exfalso
        have : (⟨ei, s⟩ : OrientedEdge).edge =
            ((m.polygons.getD p []).getD i0 default).edge := by rw [heq0]
        exact he0e this
      rcases List.mem_append.1 hrest2 with hQ | hrest3
      · exact absurd ⟨⟨ei, s⟩, hQ, rfl⟩ hQex
      rcases List.mem_cons.1 hrest3 with heq1 | hS
      · exfalso
        have : (⟨ei, s⟩ : OrientedEdge).edge =
            ((m.polygons.getD p []).getD i1 default).edge := by rw [heq1]
        exact he1e this
      · exact List.mem_append_right _ (List.mem_cons_of_mem _
          (List.mem_cons_of_mem _ hS))
    · refine ⟨by omega, ?_⟩
      rw [sResult_polygons_getD_far m p i0 i1 t0 t1 d pi hold.1 hpip]
      exact old_mem_far m p i0 i1 inv hp h01 hi1 pi hold.1 hpip _ hold.2

/-- Every edge of the post-split arena has endpoint indices inside the grown
vertex sequence. -/
theorem vtx_sEs7 (m : PolygonMesh) (p i0 i1 : Nat) (inv : MeshInv m)
    (hp : p < m.polygons.length) (h01 : i0 < i1)
    (hi1 : i1 < (m.polygons.getD p []).length) :
    ∀ e ∈ PolygonMesh.sEs7 m p i0 i1,
      e.indices.1 < m.vertices.length + 2 ∧ e.indices.2 < m.vertices.length + 2 := by
  have hi0 : i0 < (m.polygons.getD p []).length := by omega
  have hpolymem : m.polygons.getD p [] ∈ m.polygons := getD_mem _ _ _ hp
  have hmem0 : PolygonMesh.sOe0 m p i0 ∈ m.polygons.getD p [] := getD_mem _ _ _ hi0
  have hmem1 : PolygonMesh.sOe1 m p i1 ∈ m.polygons.getD p [] := getD_mem _ _ _ hi1
  have he0 := (inv.wf _ hpolymem _ hmem0).1
  have he1 := (inv.wf _ hpolymem _ hmem1).1
  have hne : (PolygonMesh.sOe0 m p i0).edge ≠ (PolygonMesh.sOe1 m p i1).edge :=
    nodup_getD_edge_ne _ (inv.nodupEdges _ hpolymem) i0 i1 hi0 hi1 (by omega)
  have hold : ∀ x, x < m.edgeStore.length →
      (arenaGet m.edgeStore x).indices.1 < m.vertices.length ∧
      (arenaGet m.edgeStore x).indices.2 < m.vertices.length :=
    fun x hx => inv.vtxBound _ (getD_mem m.edgeStore x default hx)
  intro e he
  obtain ⟨x, hx, hxe⟩ := List.getElem_of_mem he
  have hx3 : x < m.edgeStore.length + 3 := by
    rw [sEs7_length] at hx
    exact hx
  have harena : arenaGet (PolygonMesh.sEs7 m p i0 i1) x = e := by
    rw [← hxe]
    exact List.getD_eq_getElem _ _ hx
  rw [← harena]
  by_cases hxm : x = m.edgeStore.length + 2
  · subst hxm
    have hmid : (arenaGet (PolygonMesh.sEs7 m p i0 i1)
        (m.edgeStore.length + 2)).indices =
        (m.vertices.length, m.vertices.length + 1) :=
      indices_sEs7_mid m p i0 i1 he0 he1
    rw [hmid]
    exact ⟨by show m.vertices.length < _; omega,
      by show m.vertices.length + 1 < _; omega⟩
  rw [show (arenaGet (PolygonMesh.sEs7 m p i0 i1) x).indices.1 =
      (arenaGet (PolygonMesh.sEs5 m p i0 i1) x).indices.1 from by
    rw [indices_sEs7_of_ne_mid m p i0 i1 x (by
      unfold PolygonMesh.sMiddleId; omega)]]
  rw [show (arenaGet (PolygonMesh.sEs7 m p i0 i1) x).indices.2 =
      (arenaGet (PolygonMesh.sEs5 m p i0 i1) x).indices.2 from by
    rw [indices_sEs7_of_ne_mid m p i0 i1 x (by
      unfold PolygonMesh.sMiddleId; omega)]]
  by_cases hxn0 : x = m.edgeStore.length
  · subst hxn0
    have hv : arenaGet (PolygonMesh.sEs5 m p i0 i1) m.edgeStore.length =
        (arenaGet m.edgeStore (PolygonMesh.sOe0 m p i0).edge).setIndex
          (PolygonMesh.sOe0 m p i0).orientation m.vertices.length :=
      arenaGet_sEs5_nid0 m p i0 i1 he0 he1
    rw [hv]
    have hb := hold _ he0
    have := Edge.setIndex_indices_bound (arenaGet m.edgeStore
      (PolygonMesh.sOe0 m p i0).edge) (PolygonMesh.sOe0 m p i0).orientation
      m.vertices.length (m.vertices.length + 2) (by omega) (by omega) (by omega)
    exact this
  by_cases hxn1 : x = m.edgeStore.length + 1
  · subst hxn1
    have hv : arenaGet (PolygonMesh.sEs5 m p i0 i1) (m.edgeStore.length + 1) =
        (arenaGet m.edgeStore (PolygonMesh.sOe1 m p i1).edge).setIndex
          (PolygonMesh.sOe1 m p i1).orientation (m.vertices.length + 1) :=
      arenaGet_sEs5_nid1 m p i0 i1 he0 he1
    rw [hv]
    have hb := hold _ he1
    exact Edge.setIndex_indices_bound _ _ _ _ (by omega) (by omega) (by omega)
  have hxN : x < m.edgeStore.length := by omega
  by_cases hxe0 : x = (PolygonMesh.sOe0 m p i0).edge
  · subst hxe0
    rw [arenaGet_sEs5_e0 m p i0 i1 he0 hne]
    have hb := hold _ he0
    exact Edge.setIndex_indices_bound _ _ _ _ (by omega) (by omega) (by omega)
  by_cases hxe1 : x = (PolygonMesh.sOe1 m p i1).edge
  · subst hxe1
    rw [arenaGet_sEs5_e1 m p i0 i1 he1 hne]
    have hb := hold _ he1
    exact Edge.setIndex_indices_bound _ _ _ _ (by omega) (by omega) (by omega)
  rw [arenaGet_sEs5_old m p i0 i1 x hxN hxe0 hxe1]
  have hb := hold _ hxN
  exact ⟨by omega, by omega⟩

/-! ## Shoelace algebra for area conservation -/

theorem cross_self (a : Vector2) : Vector2.Cross a a = 0 := by
  unfold Vector2.Cross
  ring

theorem cross_antisymm_add (a b : Vector2) :
    Vector2.Cross a b + Vector2.Cross b a = 0 := by
  unfold Vector2.Cross
  ring

theorem cross_sub_base (a b r : Vector2) :
    Vector2.Cross (Vector2.Subtract a r) (Vector2.Subtract b r) =
      Vector2.Cross a b - Vector2.Cross a r + Vector2.Cross b r := by
  unfold Vector2.Cross Vector2.Subtract
  ring

/-- Splitting a cross product at an interpolated point of the segment. -/
theorem cross_split_interp₁ (a b : Vector2) (t : ℚ) :
    Vector2.Cross a (Vector2.Interpolate a b t) +
      Vector2.Cross (Vector2.Interpolate a b t) b = Vector2.Cross a b := by
  unfold Vector2.Cross Vector2.Interpolate Vector2.Add Vector2.ScalarMult
  ring

theorem cross_split_interp₂ (a b : Vector2) (t : ℚ) :
    Vector2.Cross a (Vector2.Interpolate b a t) +
      Vector2.Cross (Vector2.Interpolate b a t) b = Vector2.Cross a b := by
  unfold Vector2.Cross Vector2.Interpolate Vector2.Add Vector2.ScalarMult
  ring

theorem pathSum_eq_sum (l : List Vector2) :
    pathSum l = ∑ i ∈ Finset.range (l.length - 1),
      Vector2.Cross (l.getD i default) (l.getD (i + 1) default) := by
  induction l with
  | nil => rfl
  | cons a t ih =>
    cases t with
    | nil => rfl
    | cons b r =>
      show Vector2.Cross a b + pathSum (b :: r) = _
      rw [ih]
      have hlen : (a :: b :: r).length - 1 = (r.length) + 1 := by
        simp
      rw [hlen, Finset.sum_range_succ']
      have hlen2 : (b :: r).length - 1 = r.length := by simp
      rw [hlen2]
      have hterm0 : Vector2.Cross ((a :: b :: r).getD 0 default)
          ((a :: b :: r).getD 1 default) = Vector2.Cross a b := rfl
      rw [hterm0]
      have hcongr : ∀ i ∈ Finset.range r.length,
          Vector2.Cross ((a :: b :: r).getD (i + 1) default)
            ((a :: b :: r).getD (i + 1 + 1) default) =
          Vector2.Cross ((b :: r).getD i default) ((b :: r).getD (i + 1) default) := by
        intro i hi
        rw [List.getD_cons_succ, List.getD_cons_succ]
      rw [Finset.sum_congr rfl hcongr]
      ring

theorem pathSum_concat (t : List Vector2) (a : Vector2) :
    pathSum (t ++ [a]) = pathSum t + Vector2.Cross (t.getLastD a) a := by
  induction t with
  | nil =>
    show (0 : ℚ) = 0 + Vector2.Cross a a
    rw [cross_self]
    ring
  | cons h t' ih =>
    cases t' with
    | nil =>
      show Vector2.Cross h a + pathSum [a] = pathSum [h] + Vector2.Cross h a
      show Vector2.Cross h a + 0 = 0 + Vector2.Cross h a
      ring
    | cons h2 r =>
      show Vector2.Cross h h2 + pathSum ((h2 :: r) ++ [a]) = _
      rw [ih]
      show _ = Vector2.Cross h h2 + pathSum (h2 :: r) +
        Vector2.Cross ((h2 :: r).getLastD a) a
      ring

theorem pathSum_append_cons (X : List Vector2) (c : Vector2) (T : List Vector2) :
    pathSum (X ++ c :: T) = pathSum (X ++ [c]) + pathSum (c :: T) := by
  induction X with
  | nil =>
    show pathSum (c :: T) = pathSum [c] + pathSum (c :: T)
    show pathSum (c :: T) = 0 + pathSum (c :: T)
    ring
  | cons x X' ih =>
    cases X' with
    | nil =>
      show Vector2.Cross x c + pathSum (c :: T) = pathSum [x, c] + pathSum (c :: T)
      show Vector2.Cross x c + pathSum (c :: T) =
        (Vector2.Cross x c + pathSum [c]) + pathSum (c :: T)
      show Vector2.Cross x c + pathSum (c :: T) =
        (Vector2.Cross x c + 0) + pathSum (c :: T)
      ring
    | cons x2 X'' =>
      show Vector2.Cross x x2 + pathSum ((x2 :: X'') ++ c :: T) = _
      rw [ih]
      show _ = Vector2.Cross x x2 + pathSum ((x2 :: X'') ++ [c]) + pathSum (c :: T)
      ring

/-- Inserting a point `m` that splits the leading cross keeps the walk sum. -/
theorem pathSum_subdiv (a m : Vector2) (T : List Vector2) (hT : T ≠ [])
    (hm : Vector2.Cross a m + Vector2.Cross m (T.headD default) =
      Vector2.Cross a (T.headD default)) :
    pathSum (a :: m :: T) = pathSum (a :: T) := by
  obtain ⟨h, T', rfl⟩ := List.exists_cons_of_ne_nil hT
  show Vector2.Cross a m + (Vector2.Cross m h + pathSum (h :: T')) =
    Vector2.Cross a h + pathSum (h :: T')
  have hm' : Vector2.Cross a m + Vector2.Cross m h = Vector2.Cross a h := hm
  rw [← hm']
  ring

theorem cyclicSum_eq (l : List Vector2) :
    cyclicSum l = pathSum l +
      Vector2.Cross (l.getD (l.length - 1) default) (l.getD 0 default) := by
  cases hl : l with
  | nil =>
    show (0 : ℚ) = 0 + Vector2.Cross default default
    rw [cross_self]
    ring
  | cons a t =>
    have hlen : (a :: t).length = t.length + 1 := rfl
    unfold cyclicSum
    rw [hlen, Finset.sum_range_succ]
    have hmod : (t.length + 1) % (t.length + 1) = 0 := Nat.mod_self _
    rw [hmod]
    have hcongr : ∀ i ∈ Finset.range t.length,
        Vector2.Cross ((a :: t).getD i default)
          ((a :: t).getD ((i + 1) % (t.length + 1)) default) =
        Vector2.Cross ((a :: t).getD i default) ((a :: t).getD (i + 1) default) := by
      intro i hi
      rw [Finset.mem_range] at hi
      rw [Nat.mod_eq_of_lt (by omega)]
    rw [Finset.sum_congr rfl hcongr]
    rw [pathSum_eq_sum (a :: t)]
    have hlen2 : (a :: t).length - 1 = t.length := by simp
    rw [hlen2]
    have hidx : t.length + 1 - 1 = t.length := rfl
    rw [hidx]

theorem getLastD_eq_getD_pred (a : Vector2) (t : List Vector2) :
    (a :: t).getLastD a = (a :: t).getD ((a :: t).length - 1) default := by
  have hne : a :: t ≠ [] := List.cons_ne_nil a t
  rw [List.getLastD_eq_getLast?, List.getLast?_eq_getLast _ hne]
  show (a :: t).getLast hne = _
  rw [List.getLast_eq_getElem, List.getD_eq_getElem _ _ (by simp)]

/-- A rooted cycle's sum is the walk around and back to the root. -/
theorem cyclicSum_cons (a : Vector2) (t : List Vector2) :
    cyclicSum (a :: t) = pathSum ((a :: t) ++ [a]) := by
  rw [cyclicSum_eq, pathSum_concat, getLastD_eq_getD_pred]
  rfl

theorem cyclicSum_rotate (a : Vector2) (t : List Vector2) :
    cyclicSum (a :: t) = cyclicSum (t ++ [a]) := by
  cases t with
  | nil => rfl
  | cons h t' =>
    rw [cyclicSum_cons]
    simp only [List.cons_append]
    rw [cyclicSum_cons]
    have hL : pathSum (a :: h :: (t' ++ [a])) =
        Vector2.Cross a h + pathSum (h :: (t' ++ [a])) := rfl
    have hR : pathSum ((h :: (t' ++ [a])) ++ [h]) =
        pathSum (h :: (t' ++ [a])) + Vector2.Cross a h := by
      rw [pathSum_concat]
      have e2 : (h :: (t' ++ [a])).getLastD h = a := by
        rw [show h :: (t' ++ [a]) = (h :: t') ++ [a] from rfl, List.getLastD_concat]
      rw [e2]
    rw [hL, hR]
    ring

theorem cyclicSum_append_swap (A B : List Vector2) :
    cyclicSum (A ++ B) = cyclicSum (B ++ A) := by
  induction A generalizing B with
  | nil => rw [List.nil_append, List.append_nil]
  | cons a A' ih =>
    have h1 : (a :: A') ++ B = a :: (A' ++ B) := rfl
    rw [h1, cyclicSum_rotate a (A' ++ B), List.append_assoc, ih]
    rw [List.append_assoc]
    rfl

theorem pathSum_cons_ne (a : Vector2) (l : List Vector2) (hl : l ≠ []) :
    pathSum (a :: l) = Vector2.Cross a (l.headD default) + pathSum l := by
  obtain ⟨h, t, rfl⟩ := List.exists_cons_of_ne_nil hl
  rfl

/-- Cutting a cycle along a chord `m0–m1` that subdivides the two crossed
edges: the two resulting cycles' sums add up to the original cycle's sum.
`P ++ [x0]`, `B ++ [x1]` and `C` are the three arcs of the original cycle;
the two affinity hypotheses say that `m0` (resp. `m1`) splits the cross
product of the edge leaving `x0` (resp. `x1`). -/
theorem cyclicSum_split (P B C : List Vector2) (x0 x1 m0 m1 : Vector2)
    (h0 : Vector2.Cross x0 m0 + Vector2.Cross m0 ((B ++ [x1]).headD default) =
        Vector2.Cross x0 ((B ++ [x1]).headD default))
    (h1 : Vector2.Cross x1 m1 +
        Vector2.Cross m1 ((C ++ (P ++ [x0])).headD default) =
        Vector2.Cross x1 ((C ++ (P ++ [x0])).headD default)) :
    cyclicSum (P ++ x0 :: m0 :: m1 :: C) + cyclicSum (m0 :: (B ++ [x1, m1])) =
      cyclicSum (P ++ x0 :: (B ++ x1 :: C)) := by
  have e1 : cyclicSum (P ++ x0 :: m0 :: m1 :: C) =
      pathSum (x0 :: m0 :: m1 :: (C ++ (P ++ [x0]))) := by
    rw [cyclicSum_append_swap P (x0 :: m0 :: m1 :: C)]
    simp only [List.cons_append]
    rw [cyclicSum_cons]
    simp only [List.cons_append, List.append_assoc]
  have e2 : cyclicSum (m0 :: (B ++ [x1, m1])) =
      pathSum (m0 :: (B ++ [x1, m1, m0])) := by
    rw [cyclicSum_cons]
    simp only [List.cons_append, List.append_assoc, List.nil_append]
  have e3 : cyclicSum (P ++ x0 :: (B ++ x1 :: C)) =
      pathSum (x0 :: (B ++ x1 :: (C ++ (P ++ [x0])))) := by
    rw [cyclicSum_append_swap P (x0 :: (B ++ x1 :: C))]
    simp only [List.cons_append, List.append_assoc]
    rw [cyclicSum_cons]
    simp only [List.cons_append, List.append_assoc]
  rw [e1, e2, e3]
  rw [pathSum_cons_ne x0 (m0 :: m1 :: (C ++ (P ++ [x0]))) (by simp)]
  rw [pathSum_cons_ne m0 (m1 :: (C ++ (P ++ [x0]))) (by simp)]
  rw [pathSum_cons_ne m1 (C ++ (P ++ [x0])) (by simp)]
  rw [pathSum_cons_ne m0 (B ++ [x1, m1, m0]) (by simp)]
  rw [pathSum_cons_ne x0 (B ++ x1 :: (C ++ (P ++ [x0]))) (by simp)]
  simp only [List.headD_cons]
  have hhead : ∀ T : List Vector2,
      (B ++ x1 :: T).headD default = (B ++ [x1]).headD default := by
    intro T
    cases B with
    | nil => rfl
    | cons b B' => rfl
  rw [hhead [m1, m0], hhead (C ++ (P ++ [x0]))]
  rw [pathSum_append_cons B x1 [m1, m0]]
  rw [pathSum_append_cons B x1 (C ++ (P ++ [x0]))]
  have hps3 : pathSum [x1, m1, m0] =
      Vector2.Cross x1 m1 + (Vector2.Cross m1 m0 + 0) := rfl
  rw [hps3]
  rw [pathSum_cons_ne x1 (C ++ (P ++ [x0])) (by simp)]
  linear_combination h0 + h1 + cross_antisymm_add m0 m1

/-- `Polygon.area` is half the base-point-free cyclic sum. -/
theorem area_eq_cyclicSum (l : List Vector2) :
    Polygon.area l = cyclicSum l / 2 := by
  unfold Polygon.area cyclicSum
  rw [← Finset.sum_div]
  congr 1
  cases hl : l with
  | nil => rfl
  | cons a t =>
    have hcongr : ∀ i ∈ Finset.range (a :: t).length,
        Vector2.Cross
          (Vector2.Subtract ((a :: t).getD i default) ((a :: t).getD 0 default))
          (Vector2.Subtract ((a :: t).getD ((i + 1) % (a :: t).length) default)
            ((a :: t).getD 0 default)) =
        Vector2.Cross ((a :: t).getD i default)
            ((a :: t).getD ((i + 1) % (a :: t).length) default) -
          Vector2.Cross ((a :: t).getD i default) ((a :: t).getD 0 default) +
          Vector2.Cross ((a :: t).getD ((i + 1) % (a :: t).length) default)
            ((a :: t).getD 0 default) := by
      intro i hi
      rw [cross_sub_base]
    rw [Finset.sum_congr rfl hcongr]
    rw [Finset.sum_add_distrib, Finset.sum_sub_distrib]
    have hshift : ∑ i ∈ Finset.range (a :: t).length,
        Vector2.Cross ((a :: t).getD ((i + 1) % (a :: t).length) default)
          ((a :: t).getD 0 default) =
        ∑ i ∈ Finset.range (a :: t).length,
        Vector2.Cross ((a :: t).getD i default) ((a :: t).getD 0 default) := by
      have hlen : (a :: t).length = t.length + 1 := rfl
      rw [hlen, Finset.sum_range_succ, Finset.sum_range_succ']
      have hmod : (t.length + 1) % (t.length + 1) = 0 := Nat.mod_self _
      rw [hmod]
      congr 1
      refine Finset.sum_congr rfl ?_
      intro i hi
      rw [Finset.mem_range] at hi
      rw [Nat.mod_eq_of_lt (by omega)]
    rw [hshift]
    ring

/-! ## Coordinates of the split polygons -/

theorem indexedPolyToCoordinates_eq_map (m : PolygonMesh) (poly : IndexedPolygon) :
    indexedPolyToCoordinates m poly = poly.map (leadCoord m) := rfl

theorem getD_append_left {α : Type} (l l2 : List α) (i : Nat) (d : α)
    (h : i < l.length) : (l ++ l2).getD i d = l.getD i d := by
  induction l generalizing i with
  | nil => exact absurd h (by simp)
  | cons a l' ih =>
    cases i with
    | zero => rfl
    | succ n =>
      show (a :: (l' ++ l2)).getD (n + 1) d = (a :: l').getD (n + 1) d
      rw [List.getD_cons_succ, List.getD_cons_succ]
      exact ih n (by simp only [List.length_cons] at h; omega)

theorem getD_append_two0 {α : Type} (l : List α) (a b d : α) :
    (l ++ [a, b]).getD l.length d = a := by
  induction l with
  | nil => rfl
  | cons x l' ih =>
    show (x :: (l' ++ [a, b])).getD (l'.length + 1) d = a
    rw [List.getD_cons_succ]
    exact ih

theorem getD_append_two1 {α : Type} (l : List α) (a b d : α) :
    (l ++ [a, b]).getD (l.length + 1) d = b := by
  induction l with
  | nil => rfl
  | cons x l' ih =>
    show (x :: (l' ++ [a, b])).getD (l'.length + 1 + 1) d = b
    rw [List.getD_cons_succ]
    exact ih

theorem getD_shape_succ {α : Type} (A : List α) (z : α) (R : List α) (d : α) :
    (A ++ z :: R).getD (A.length + 1) d = R.getD 0 d := by
  induction A with
  | nil =>
    show (z :: R).getD (0 + 1) d = R.getD 0 d
    rw [List.getD_cons_succ]
  | cons a A' ih =>
    show (a :: (A' ++ z :: R)).getD (A'.length + 1 + 1) d = R.getD 0 d
    rw [List.getD_cons_succ]
    exact ih

theorem getD_shape_two {α : Type} (A B : List α) (z0 z1 : α) (R : List α) (d : α) :
    (A ++ z0 :: (B ++ z1 :: R)).getD (A.length + B.length + 2) d = R.getD 0 d := by
  induction A with
  | nil =>
    simp only [List.nil_append, List.length_nil, Nat.zero_add]
    show (z0 :: (B ++ z1 :: R)).getD (B.length + 1 + 1) d = R.getD 0 d
    rw [List.getD_cons_succ]
    exact getD_shape_succ B z1 R d
  | cons a A' ih =>
    have hidx : (a :: A').length + B.length + 2 = (A'.length + B.length + 2) + 1 := by
      simp only [List.length_cons]
      omega
    rw [show (a :: A') ++ z0 :: (B ++ z1 :: R) = a :: (A' ++ z0 :: (B ++ z1 :: R))
        from rfl,
      hidx, List.getD_cons_succ]
    exact ih

theorem leadVertex_lt (m : PolygonMesh) (inv : MeshInv m) (y : OrientedEdge)
    (hy : y.edge < m.edgeStore.length) :
    leadVertex m.edgeStore y < m.vertices.length := by
  have hmem : arenaGet m.edgeStore y.edge ∈ m.edgeStore := getD_mem _ _ _ hy
  have hb := inv.vtxBound _ hmem
  unfold leadVertex Edge.index
  by_cases ho : y.orientation = 0
  · rw [if_pos ho]
    exact hb.1
  · rw [if_neg ho]
    exact hb.2

/-- An entry of the split polygon whose edge is neither split edge keeps its
leading-vertex coordinate across the split. -/
theorem leadCoord_sResult_stable (m : PolygonMesh) (p i0 i1 : Nat) (t0 t1 : ℚ)
    (inv : MeshInv m) (y : OrientedEdge)
    (hyN : y.edge < m.edgeStore.length)
    (hy0 : y.edge ≠ (PolygonMesh.sOe0 m p i0).edge)
    (hy1 : y.edge ≠ (PolygonMesh.sOe1 m p i1).edge) :
    leadCoord (PolygonMesh.sResult m p i0 i1 t0 t1 false) y = leadCoord m y := by
  have hlead : leadVertex (PolygonMesh.sEs7 m p i0 i1) y = leadVertex m.edgeStore y :=
    congrArg Prod.fst (pair_sEs7_stable m p i0 i1 y hyN hy0 hy1)
  have hlt := leadVertex_lt m inv y hyN
  show (PolygonMesh.sVerts2 m p i0 i1 t0 t1 false).getD
      (leadVertex (PolygonMesh.sEs7 m p i0 i1) y) default = leadCoord m y
  rw [hlead]
  show (PolygonMesh.sVerts1 m p i0 i1 t0 t1).getD
      (leadVertex m.edgeStore y) default = leadCoord m y
  unfold PolygonMesh.sVerts1 leadCoord
  exact getD_append_left _ _ _ _ hlt

/-- The first split edge keeps its leading-vertex coordinate (only its
trailing endpoint is rewired). -/
theorem leadCoord_sResult_oe0 (m : PolygonMesh) (p i0 i1 : Nat) (t0 t1 : ℚ)
    (inv : MeshInv m)
    (he0 : (PolygonMesh.sOe0 m p i0).edge < m.edgeStore.length)
    (hne : (PolygonMesh.sOe0 m p i0).edge ≠ (PolygonMesh.sOe1 m p i1).edge)
    (ho0 : (PolygonMesh.sOe0 m p i0).orientation < 2) :
    leadCoord (PolygonMesh.sResult m p i0 i1 t0 t1 false) (PolygonMesh.sOe0 m p i0) =
      leadCoord m (PolygonMesh.sOe0 m p i0) := by
  have hlead : leadVertex (PolygonMesh.sEs7 m p i0 i1) (PolygonMesh.sOe0 m p i0) =
      leadVertex m.edgeStore (PolygonMesh.sOe0 m p i0) :=
    congrArg Prod.fst (pair_sEs7_oe0 m p i0 i1 (PolygonMesh.sOe0 m p i0) rfl rfl he0 hne ho0)
  have hlt := leadVertex_lt m inv _ he0
  show (PolygonMesh.sVerts2 m p i0 i1 t0 t1 false).getD
      (leadVertex (PolygonMesh.sEs7 m p i0 i1) (PolygonMesh.sOe0 m p i0)) default = _
  rw [hlead]
  show (PolygonMesh.sVerts1 m p i0 i1 t0 t1).getD
      (leadVertex m.edgeStore (PolygonMesh.sOe0 m p i0)) default = _
  unfold PolygonMesh.sVerts1 leadCoord
  exact getD_append_left _ _ _ _ hlt

/-- The second split edge keeps its leading-vertex coordinate. -/
theorem leadCoord_sResult_oe1 (m : PolygonMesh) (p i0 i1 : Nat) (t0 t1 : ℚ)
    (inv : MeshInv m)
    (he1 : (PolygonMesh.sOe1 m p i1).edge < m.edgeStore.length)
    (hne : (PolygonMesh.sOe0 m p i0).edge ≠ (PolygonMesh.sOe1 m p i1).edge)
    (ho1 : (PolygonMesh.sOe1 m p i1).orientation < 2) :
    leadCoord (PolygonMesh.sResult m p i0 i1 t0 t1 false) (PolygonMesh.sOe1 m p i1) =
      leadCoord m (PolygonMesh.sOe1 m p i1) := by
  have hlead : leadVertex (PolygonMesh.sEs7 m p i0 i1) (PolygonMesh.sOe1 m p i1) =
      leadVertex m.edgeStore (PolygonMesh.sOe1 m p i1) :=
    congrArg Prod.fst (pair_sEs7_oe1 m p i0 i1 (PolygonMesh.sOe1 m p i1) rfl rfl he1 hne ho1)
  have hlt := leadVertex_lt m inv _ he1
  show (PolygonMesh.sVerts2 m p i0 i1 t0 t1 false).getD
      (leadVertex (PolygonMesh.sEs7 m p i0 i1) (PolygonMesh.sOe1 m p i1)) default = _
  rw [hlead]
  show (PolygonMesh.sVerts1 m p i0 i1 t0 t1).getD
      (leadVertex m.edgeStore (PolygonMesh.sOe1 m p i1)) default = _
  unfold PolygonMesh.sVerts1 leadCoord
  exact getD_append_left _ _ _ _ hlt

/-- The first new half edge leads at the first midpoint. -/
theorem leadCoord_sResult_new0 (m : PolygonMesh) (p i0 i1 : Nat) (t0 t1 : ℚ)
    (he0 : (PolygonMesh.sOe0 m p i0).edge < m.edgeStore.length)
    (he1 : (PolygonMesh.sOe1 m p i1).edge < m.edgeStore.length)
    (ho0 : (PolygonMesh.sOe0 m p i0).orientation < 2) :
    leadCoord (PolygonMesh.sResult m p i0 i1 t0 t1 false)
        ⟨m.edgeStore.length, (PolygonMesh.sOe0 m p i0).orientation⟩ =
      PolygonMesh.sMid m (PolygonMesh.sOe0 m p i0) t0 := by
  have hlead : leadVertex (PolygonMesh.sEs7 m p i0 i1)
      ⟨m.edgeStore.length, (PolygonMesh.sOe0 m p i0).orientation⟩ =
      m.vertices.length :=
    congrArg Prod.fst (pair_sEs7_new0 m p i0 i1
      ⟨m.edgeStore.length, (PolygonMesh.sOe0 m p i0).orientation⟩ rfl rfl he0 he1 ho0)
  show (PolygonMesh.sVerts2 m p i0 i1 t0 t1 false).getD
      (leadVertex (PolygonMesh.sEs7 m p i0 i1)
        ⟨m.edgeStore.length, (PolygonMesh.sOe0 m p i0).orientation⟩) default = _
  rw [hlead]
  show (PolygonMesh.sVerts1 m p i0 i1 t0 t1).getD m.vertices.length default = _
  unfold PolygonMesh.sVerts1
  exact getD_append_two0 _ _ _ _

/-- The second new half edge leads at the second midpoint. -/
theorem leadCoord_sResult_new1 (m : PolygonMesh) (p i0 i1 : Nat) (t0 t1 : ℚ)
    (he0 : (PolygonMesh.sOe0 m p i0).edge < m.edgeStore.length)
    (he1 : (PolygonMesh.sOe1 m p i1).edge < m.edgeStore.length)
    (ho1 : (PolygonMesh.sOe1 m p i1).orientation < 2) :
    leadCoord (PolygonMesh.sResult m p i0 i1 t0 t1 false)
        ⟨m.edgeStore.length + 1, (PolygonMesh.sOe1 m p i1).orientation⟩ =
      PolygonMesh.sMid m (PolygonMesh.sOe1 m p i1) t1 := by
  have hlead : leadVertex (PolygonMesh.sEs7 m p i0 i1)
      ⟨m.edgeStore.length + 1, (PolygonMesh.sOe1 m p i1).orientation⟩ =
      m.vertices.length + 1 :=
    congrArg Prod.fst (pair_sEs7_new1 m p i0 i1
      ⟨m.edgeStore.length + 1, (PolygonMesh.sOe1 m p i1).orientation⟩ rfl rfl he0 he1 ho1)
  show (PolygonMesh.sVerts2 m p i0 i1 t0 t1 false).getD
      (leadVertex (PolygonMesh.sEs7 m p i0 i1)
        ⟨m.edgeStore.length + 1, (PolygonMesh.sOe1 m p i1).orientation⟩) default = _
  rw [hlead]
  show (PolygonMesh.sVerts1 m p i0 i1 t0 t1).getD (m.vertices.length + 1) default = _
  unfold PolygonMesh.sVerts1
  exact getD_append_two1 _ _ _ _

/-- The middle edge in orientation 0 leads at the first midpoint. -/
theorem leadCoord_sResult_mid0 (m : PolygonMesh) (p i0 i1 : Nat) (t0 t1 : ℚ)
    (he0 : (PolygonMesh.sOe0 m p i0).edge < m.edgeStore.length)
    (he1 : (PolygonMesh.sOe1 m p i1).edge < m.edgeStore.length) :
    leadCoord (PolygonMesh.sResult m p i0 i1 t0 t1 false)
        ⟨m.edgeStore.length + 2, 0⟩ =
      PolygonMesh.sMid m (PolygonMesh.sOe0 m p i0) t0 := by
  have hlead : leadVertex (PolygonMesh.sEs7 m p i0 i1)
      ⟨m.edgeStore.length + 2, 0⟩ = m.vertices.length :=
    congrArg Prod.fst (pair_sEs7_mid m p i0 i1 ⟨m.edgeStore.length + 2, 0⟩ rfl he0 he1)
  show (PolygonMesh.sVerts2 m p i0 i1 t0 t1 false).getD
      (leadVertex (PolygonMesh.sEs7 m p i0 i1) ⟨m.edgeStore.length + 2, 0⟩) default = _
  rw [hlead]
  show (PolygonMesh.sVerts1 m p i0 i1 t0 t1).getD m.vertices.length default = _
  unfold PolygonMesh.sVerts1
  exact getD_append_two0 _ _ _ _

/-- The middle edge in orientation 1 leads at the second midpoint. -/
theorem leadCoord_sResult_mid1 (m : PolygonMesh) (p i0 i1 : Nat) (t0 t1 : ℚ)
    (he0 : (PolygonMesh.sOe0 m p i0).edge < m.edgeStore.length)
    (he1 : (PolygonMesh.sOe1 m p i1).edge < m.edgeStore.length) :
    leadCoord (PolygonMesh.sResult m p i0 i1 t0 t1 false)
        ⟨m.edgeStore.length + 2, 1⟩ =
      PolygonMesh.sMid m (PolygonMesh.sOe1 m p i1) t1 := by
  have hlead : leadVertex (PolygonMesh.sEs7 m p i0 i1)
      ⟨m.edgeStore.length + 2, 1⟩ = m.vertices.length + 1 :=
    congrArg Prod.fst (pair_sEs7_mid m p i0 i1 ⟨m.edgeStore.length + 2, 1⟩ rfl he0 he1)
  show (PolygonMesh.sVerts2 m p i0 i1 t0 t1 false).getD
      (leadVertex (PolygonMesh.sEs7 m p i0 i1) ⟨m.edgeStore.length + 2, 1⟩) default = _
  rw [hlead]
  show (PolygonMesh.sVerts1 m p i0 i1 t0 t1).getD (m.vertices.length + 1) default = _
  unfold PolygonMesh.sVerts1
  exact getD_append_two1 _ _ _ _

/-- The midpoint of a split edge splits the cross product of the edge's
leading-to-trailing coordinate pair: the interpolation is along the edge's
stored endpoint order, which is the lead—trail order read through the
orientation bit. -/
theorem cross_split_mid (m : PolygonMesh) (oe : OrientedEdge) (t : ℚ)
    (ho : oe.orientation < 2) :
    Vector2.Cross (leadCoord m oe) (PolygonMesh.sMid m oe t) +
      Vector2.Cross (PolygonMesh.sMid m oe t)
        (m.vertices.getD (trailVertex m.edgeStore oe) default) =
    Vector2.Cross (leadCoord m oe)
      (m.vertices.getD (trailVertex m.edgeStore oe) default) := by
  by_cases h : oe.orientation = 0
  · have hl : leadVertex m.edgeStore oe = (arenaGet m.edgeStore oe.edge).indices.1 := by
      unfold leadVertex Edge.index
      rw [h]
      rfl
    have ht : trailVertex m.edgeStore oe = (arenaGet m.edgeStore oe.edge).indices.2 := by
      unfold trailVertex Edge.index
      rw [h]
      rfl
    unfold leadCoord
    rw [hl, ht]
    unfold PolygonMesh.sMid
    exact cross_split_interp₁ _ _ t
  · have h1 : oe.orientation = 1 := by omega
    have hl : leadVertex m.edgeStore oe = (arenaGet m.edgeStore oe.edge).indices.2 := by
      unfold leadVertex Edge.index
      rw [h1]
      rfl
    have ht : trailVertex m.edgeStore oe = (arenaGet m.edgeStore oe.edge).indices.1 := by
      unfold trailVertex Edge.index
      rw [h1]
      rfl
    unfold leadCoord
    rw [hl, ht]
    unfold PolygonMesh.sMid
    exact cross_split_interp₂ _ _ t

/-- Area conservation at the stage level: under the mesh invariant, the
rewritten original polygon and the appended polygon of an undisplaced split
have signed areas summing to the original polygon's. -/
theorem sResult_area (m : PolygonMesh) (p i0 i1 : Nat) (t0 t1 : ℚ)
    (inv : MeshInv m) (hp : p < m.polygons.length) (h01 : i0 < i1)
    (hi1 : i1 < (m.polygons.getD p []).length) :
    Polygon.area (indexedPolyToCoordinates (PolygonMesh.sResult m p i0 i1 t0 t1 false)
        (PolygonMesh.sPolyNew m p i0 i1)) +
      Polygon.area (indexedPolyToCoordinates (PolygonMesh.sResult m p i0 i1 t0 t1 false)
        (PolygonMesh.sNewPoly m p i0 i1)) =
      Polygon.area (indexedPolyToCoordinates m (m.polygons.getD p [])) := by
  have h0i : i0 < (m.polygons.getD p []).length := by omega
  have hQmem : m.polygons.getD p [] ∈ m.polygons := getD_mem _ _ _ hp
  have he0 : (PolygonMesh.sOe0 m p i0).edge < m.edgeStore.length :=
    (inv.wf _ hQmem _ (getD_mem _ i0 default h0i)).1
  have ho0 : (PolygonMesh.sOe0 m p i0).orientation < 2 :=
    (inv.wf _ hQmem _ (getD_mem _ i0 default h0i)).2
  have he1 : (PolygonMesh.sOe1 m p i1).edge < m.edgeStore.length :=
    (inv.wf _ hQmem _ (getD_mem _ i1 default hi1)).1
  have ho1 : (PolygonMesh.sOe1 m p i1).orientation < 2 :=
    (inv.wf _ hQmem _ (getD_mem _ i1 default hi1)).2
  have hnd := inv.nodupEdges _ hQmem
  have hne : (PolygonMesh.sOe0 m p i0).edge ≠ (PolygonMesh.sOe1 m p i1).edge :=
    nodup_getD_edge_ne _ hnd i0 i1 h0i hi1 (by omega)
  have hdec := poly_decomp (m.polygons.getD p []) i0 i1 h01 hi1
  have hndD := hnd
  rw [poly_decomp (m.polygons.getD p []) i0 i1 h01 hi1] at hndD
  obtain ⟨hfA, hfB, hfC, -⟩ := parts_edge_free _ _ _ _ _ hndD
  have hAlen : ((m.polygons.getD p []).take i0).length = i0 := by
    rw [List.length_take]
    omega
  have hBlen : (((m.polygons.getD p []).drop (i0 + 1)).take (i1 - i0 - 1)).length =
      i1 - i0 - 1 := by
    rw [List.length_take, List.length_drop]
    omega
  -- pointwise coordinate values
  have hfz0 : leadCoord (PolygonMesh.sResult m p i0 i1 t0 t1 false)
      ((m.polygons.getD p []).getD i0 default) =
      leadCoord m ((m.polygons.getD p []).getD i0 default) :=
    leadCoord_sResult_oe0 m p i0 i1 t0 t1 inv he0 hne ho0
  have hfz1 : leadCoord (PolygonMesh.sResult m p i0 i1 t0 t1 false)
      ((m.polygons.getD p []).getD i1 default) =
      leadCoord m ((m.polygons.getD p []).getD i1 default) :=
    leadCoord_sResult_oe1 m p i0 i1 t0 t1 inv he1 hne ho1
  have hfmid0 : leadCoord (PolygonMesh.sResult m p i0 i1 t0 t1 false)
      ⟨m.edgeStore.length + 2, 0⟩ =
      PolygonMesh.sMid m (PolygonMesh.sOe0 m p i0) t0 :=
    leadCoord_sResult_mid0 m p i0 i1 t0 t1 he0 he1
  have hfmid1 : leadCoord (PolygonMesh.sResult m p i0 i1 t0 t1 false)
      ⟨m.edgeStore.length + 2, 1⟩ =
      PolygonMesh.sMid m (PolygonMesh.sOe1 m p i1) t1 :=
    leadCoord_sResult_mid1 m p i0 i1 t0 t1 he0 he1
  have hfnew0 : leadCoord (PolygonMesh.sResult m p i0 i1 t0 t1 false)
      ⟨m.edgeStore.length, ((m.polygons.getD p []).getD i0 default).orientation⟩ =
      PolygonMesh.sMid m (PolygonMesh.sOe0 m p i0) t0 :=
    leadCoord_sResult_new0 m p i0 i1 t0 t1 he0 he1 ho0
  have hfnew1 : leadCoord (PolygonMesh.sResult m p i0 i1 t0 t1 false)
      ⟨m.edgeStore.length + 1, ((m.polygons.getD p []).getD i1 default).orientation⟩ =
      PolygonMesh.sMid m (PolygonMesh.sOe1 m p i1) t1 :=
    leadCoord_sResult_new1 m p i0 i1 t0 t1 he0 he1 ho1
  -- pointwise stability of the three old spans
  have hmapA : ((m.polygons.getD p []).take i0).map
      (leadCoord (PolygonMesh.sResult m p i0 i1 t0 t1 false)) =
      ((m.polygons.getD p []).take i0).map (leadCoord m) := by
    apply List.map_congr_left
    intro y hy
    have hymem : y ∈ m.polygons.getD p [] := List.mem_of_mem_take hy
    have hywf := inv.wf _ hQmem y hymem
    have hyfree := hfA y hy
    exact leadCoord_sResult_stable m p i0 i1 t0 t1 inv y hywf.1 hyfree.1 hyfree.2
  have hmapB : (((m.polygons.getD p []).drop (i0 + 1)).take (i1 - i0 - 1)).map
      (leadCoord (PolygonMesh.sResult m p i0 i1 t0 t1 false)) =
      (((m.polygons.getD p []).drop (i0 + 1)).take (i1 - i0 - 1)).map (leadCoord m) := by
    apply List.map_congr_left
    intro y hy
    have hymem : y ∈ m.polygons.getD p [] :=
      List.mem_of_mem_drop (List.mem_of_mem_take hy)
    have hywf := inv.wf _ hQmem y hymem
    have hyfree := hfB y hy
    exact leadCoord_sResult_stable m p i0 i1 t0 t1 inv y hywf.1 hyfree.1 hyfree.2
  have hmapC : ((m.polygons.getD p []).drop (i1 + 1)).map
      (leadCoord (PolygonMesh.sResult m p i0 i1 t0 t1 false)) =
      ((m.polygons.getD p []).drop (i1 + 1)).map (leadCoord m) := by
    apply List.map_congr_left
    intro y hy
    have hymem : y ∈ m.polygons.getD p [] := List.mem_of_mem_drop hy
    have hywf := inv.wf _ hQmem y hymem
    have hyfree := hfC y hy
    exact leadCoord_sResult_stable m p i0 i1 t0 t1 inv y hywf.1 hyfree.1 hyfree.2
  -- the three coordinate walks
  have hmapNew : indexedPolyToCoordinates (PolygonMesh.sResult m p i0 i1 t0 t1 false)
      (PolygonMesh.sPolyNew m p i0 i1) =
      ((m.polygons.getD p []).take i0).map (leadCoord m) ++
        leadCoord m ((m.polygons.getD p []).getD i0 default) ::
        PolygonMesh.sMid m (PolygonMesh.sOe0 m p i0) t0 ::
        PolygonMesh.sMid m (PolygonMesh.sOe1 m p i1) t1 ::
        ((m.polygons.getD p []).drop (i1 + 1)).map (leadCoord m) := by
    rw [indexedPolyToCoordinates_eq_map, sPolyNew_eq m p i0 i1 inv hp h01 hi1]
    simp only [List.map_append, List.map_cons, List.map_nil]
    rw [hfz0, hfmid0, hfnew1, hmapA, hmapC]
    simp only [List.append_assoc, List.singleton_append]
  have hmapNP : indexedPolyToCoordinates (PolygonMesh.sResult m p i0 i1 t0 t1 false)
      (PolygonMesh.sNewPoly m p i0 i1) =
      PolygonMesh.sMid m (PolygonMesh.sOe0 m p i0) t0 ::
        ((((m.polygons.getD p []).drop (i0 + 1)).take (i1 - i0 - 1)).map (leadCoord m) ++
          [leadCoord m ((m.polygons.getD p []).getD i1 default),
            PolygonMesh.sMid m (PolygonMesh.sOe1 m p i1) t1]) := by
    rw [indexedPolyToCoordinates_eq_map, sNewPoly_eq m p i0 i1 inv hp h01 hi1]
    simp only [List.map_append, List.map_cons, List.map_nil]
    rw [hfnew0, hfz1, hfmid1, hmapB]
    simp only [List.append_assoc, List.singleton_append]
  have hmapOld : indexedPolyToCoordinates m (m.polygons.getD p []) =
      ((m.polygons.getD p []).take i0).map (leadCoord m) ++
        leadCoord m ((m.polygons.getD p []).getD i0 default) ::
        ((((m.polygons.getD p []).drop (i0 + 1)).take (i1 - i0 - 1)).map (leadCoord m) ++
          leadCoord m ((m.polygons.getD p []).getD i1 default) ::
          ((m.polygons.getD p []).drop (i1 + 1)).map (leadCoord m)) := by
    rw [indexedPolyToCoordinates_eq_map]
    conv_lhs => rw [hdec]
    simp only [List.map_append, List.map_cons]
  -- closure: each split edge trails at its cyclic successor's lead
  have hcl := inv.closed _ hQmem
  have hsucc0 : trailVertex m.edgeStore (PolygonMesh.sOe0 m p i0) =
      leadVertex m.edgeStore ((m.polygons.getD p []).getD (i0 + 1) default) := by
    have h := hcl i0 h0i
    rwa [Nat.mod_eq_of_lt (by omega)] at h
  have hsucc1 : trailVertex m.edgeStore (PolygonMesh.sOe1 m p i1) =
      leadVertex m.edgeStore ((m.polygons.getD p []).getD
        ((i1 + 1) % (m.polygons.getD p []).length) default) := hcl i1 hi1
  -- the successor of the first split edge is the head of the middle arc
  have hgot : (m.polygons.getD p []).getD (i0 + 1) default =
      ((((m.polygons.getD p []).drop (i0 + 1)).take (i1 - i0 - 1)) ++
        ((m.polygons.getD p []).getD i1 default ::
          (m.polygons.getD p []).drop (i1 + 1))).getD 0 default := by
    have h := getD_shape_succ ((m.polygons.getD p []).take i0)
      ((m.polygons.getD p []).getD i0 default)
      ((((m.polygons.getD p []).drop (i0 + 1)).take (i1 - i0 - 1)) ++
        ((m.polygons.getD p []).getD i1 default ::
          (m.polygons.getD p []).drop (i1 + 1))) default
    rw [hAlen] at h
    conv_lhs => rw [hdec]
    exact h
  have hu : ((((m.polygons.getD p []).drop (i0 + 1)).take (i1 - i0 - 1)).map (leadCoord m) ++
      [leadCoord m ((m.polygons.getD p []).getD i1 default)]).headD default =
      leadCoord m ((m.polygons.getD p []).getD (i0 + 1) default) := by
    rw [hgot]
    cases hB : ((m.polygons.getD p []).drop (i0 + 1)).take (i1 - i0 - 1) with
    | nil => rfl
    | cons b B' => rfl
  -- the successor of the second split edge is the head of the closing arc
  have hw : (((m.polygons.getD p []).drop (i1 + 1)).map (leadCoord m) ++
      (((m.polygons.getD p []).take i0).map (leadCoord m) ++
        [leadCoord m ((m.polygons.getD p []).getD i0 default)])).headD default =
      leadCoord m ((m.polygons.getD p []).getD
        ((i1 + 1) % (m.polygons.getD p []).length) default) := by
    cases hC : (m.polygons.getD p []).drop (i1 + 1) with
    | nil =>
      have hlenC := congrArg List.length hC
      rw [List.length_drop] at hlenC
      simp only [List.length_nil] at hlenC
      have hlen : (m.polygons.getD p []).length = i1 + 1 := by omega
      rw [hlen, Nat.mod_self]
      cases hA : (m.polygons.getD p []).take i0 with
      | nil =>
        have hlenA := congrArg List.length hA
        rw [List.length_take] at hlenA
        simp only [List.length_nil] at hlenA
        have hi00 : i0 = 0 := by omega
        rw [hi00]
        rfl
      | cons a A' =>
        have hq0 : (m.polygons.getD p []).getD 0 default = a := by
          conv_lhs => rw [hdec, hA]
          rfl
        rw [hq0]
        rfl
    | cons c C' =>
      have hlenC := congrArg List.length hC
      rw [List.length_drop] at hlenC
      simp only [List.length_cons] at hlenC
      have hlt : i1 + 1 < (m.polygons.getD p []).length := by omega
      rw [Nat.mod_eq_of_lt hlt]
      have hq : (m.polygons.getD p []).getD (i1 + 1) default = c := by
        have h := getD_shape_two ((m.polygons.getD p []).take i0)
          ((((m.polygons.getD p []).drop (i0 + 1)).take (i1 - i0 - 1)))
          ((m.polygons.getD p []).getD i0 default)
          ((m.polygons.getD p []).getD i1 default)
          ((m.polygons.getD p []).drop (i1 + 1)) default
        rw [hAlen, hBlen] at h
        have hidx : i0 + (i1 - i0 - 1) + 2 = i1 + 1 := by omega
        rw [hidx] at h
        conv_lhs => rw [hdec]
        rw [h, hC]
        rfl
      rw [hq]
      rfl
  -- the two affinity facts, phrased on the walk heads
  have h0aff : Vector2.Cross (leadCoord m ((m.polygons.getD p []).getD i0 default))
      (PolygonMesh.sMid m (PolygonMesh.sOe0 m p i0) t0) +
      Vector2.Cross (PolygonMesh.sMid m (PolygonMesh.sOe0 m p i0) t0)
        (((((m.polygons.getD p []).drop (i0 + 1)).take (i1 - i0 - 1)).map (leadCoord m) ++
          [leadCoord m ((m.polygons.getD p []).getD i1 default)]).headD default) =
      Vector2.Cross (leadCoord m ((m.polygons.getD p []).getD i0 default))
        (((((m.polygons.getD p []).drop (i0 + 1)).take (i1 - i0 - 1)).map (leadCoord m) ++
          [leadCoord m ((m.polygons.getD p []).getD i1 default)]).headD default) := by
    have hu' : ((((m.polygons.getD p []).drop (i0 + 1)).take (i1 - i0 - 1)).map
        (leadCoord m) ++
        [leadCoord m ((m.polygons.getD p []).getD i1 default)]).headD default =
        m.vertices.getD (trailVertex m.edgeStore (PolygonMesh.sOe0 m p i0)) default := by
      rw [hu]
      show m.vertices.getD (leadVertex m.edgeStore
        ((m.polygons.getD p []).getD (i0 + 1) default)) default = _
      rw [← hsucc0]
    rw [hu']
    exact cross_split_mid m (PolygonMesh.sOe0 m p i0) t0 ho0
  have h1aff : Vector2.Cross (leadCoord m ((m.polygons.getD p []).getD i1 default))
      (PolygonMesh.sMid m (PolygonMesh.sOe1 m p i1) t1) +
      Vector2.Cross (PolygonMesh.sMid m (PolygonMesh.sOe1 m p i1) t1)
        ((((m.polygons.getD p []).drop (i1 + 1)).map (leadCoord m) ++
          (((m.polygons.getD p []).take i0).map (leadCoord m) ++
            [leadCoord m ((m.polygons.getD p []).getD i0 default)])).headD default) =
      Vector2.Cross (leadCoord m ((m.polygons.getD p []).getD i1 default))
        ((((m.polygons.getD p []).drop (i1 + 1)).map (leadCoord m) ++
          (((m.polygons.getD p []).take i0).map (leadCoord m) ++
            [leadCoord m ((m.polygons.getD p []).getD i0 default)])).headD default) := by
    have hw' : (((m.polygons.getD p []).drop (i1 + 1)).map (leadCoord m) ++
        (((m.polygons.getD p []).take i0).map (leadCoord m) ++
          [leadCoord m ((m.polygons.getD p []).getD i0 default)])).headD default =
        m.vertices.getD (trailVertex m.edgeStore (PolygonMesh.sOe1 m p i1)) default := by
      rw [hw]
      show m.vertices.getD (leadVertex m.edgeStore ((m.polygons.getD p []).getD
        ((i1 + 1) % (m.polygons.getD p []).length) default)) default = _
      rw [← hsucc1]
    rw [hw']
    exact cross_split_mid m (PolygonMesh.sOe1 m p i1) t1 ho1
  rw [hmapNew, hmapNP, hmapOld, area_eq_cyclicSum, area_eq_cyclicSum, area_eq_cyclicSum,
    div_add_div_same]
  congr 1
  exact cyclicSum_split _ _ _ _ _ _ _ h0aff h1aff

/-! ## The rank selector -/

theorem findLastIndexJS_split {α : Type} (p : α → Bool) (A B : List α)
    (hA : ∀ a ∈ A, p a = true) (hB : ∀ b ∈ B, p b = false) :
    findLastIndexJS p (A ++ B) = (A.length : Int) - 1 := by
  have hBnone : B.reverse.findIdx? p = none :=
    List.findIdx?_eq_none_iff.2 fun x hx => hB x (List.mem_reverse.1 hx)
  rcases eq_or_ne A [] with rfl | hAne
  · have hfind : (([] : List α) ++ B).reverse.findIdx? p = none := by
      simpa using hBnone
    unfold findLastIndexJS
    rw [hfind]
    simp
  · have hbexists : ∃ b rest, A.reverse = b :: rest := by
      cases hArev : A.reverse with
      | nil => exact absurd (by simpa using congrArg List.reverse hArev) hAne
      | cons b rest => exact ⟨b, rest, rfl⟩
    obtain ⟨b, rest, hArev⟩ := hbexists
    have hb : p b = true :=
      hA b (List.mem_reverse.1 (hArev ▸ List.mem_cons_self b rest))
    have hfind : (A ++ B).reverse.findIdx? p = some B.length := by
      rw [List.reverse_append, List.findIdx?_append, hBnone, Option.none_or, hArev,
        List.findIdx?_cons, hb]
      simp
    unfold findLastIndexJS
    rw [hfind]
    show ((A ++ B).length : Int) - 1 - B.length = (A.length : Int) - 1
    simp only [List.length_append]
    push_cast
    ring

/-- Everything dropped by `takeWhile (· > v)` from a best-first-sorted list
scores at most `v`. -/
theorem dropWhile_le_of_sortedDesc {α : Type} {v : ℚ} {l : List (α × ℚ)}
    (h : SortedDesc l) :
    ∀ b ∈ l.dropWhile (fun e => decide (e.2 > v)), b.2 ≤ v := by
  induction l with
  | nil => intro b hb; simp at hb
  | cons a as ih =>
    intro b hb
    rw [List.dropWhile_cons] at hb
    simp only [decide_eq_true_eq] at hb
    by_cases ha : a.2 > v
    · rw [if_pos ha] at hb
      exact ih (List.Pairwise.of_cons h) b hb
    · rw [if_neg ha] at hb
      rcases List.mem_cons.1 hb with rfl | hb
      · exact le_of_not_lt ha
      · exact le_trans (List.rel_of_pairwise_cons h hb) (le_of_not_lt ha)

theorem sortedDesc_getLast_le {α : Type} {l : List (α × ℚ)} (h : SortedDesc l)
    (hne : l ≠ []) : ∀ w ∈ l, (l.getLast hne).2 ≤ w.2 := by
  induction l with
  | nil => exact absurd rfl hne
  | cons a as ih =>
    intro w hw
    cases as with
    | nil =>
      simp only [List.mem_singleton] at hw
      subst hw; simp [List.getLast]
    | cons b bs =>
      have hlast : (a :: b :: bs).getLast (by simp) = (b :: bs).getLast (by simp) := by
        simp [List.getLast]
      rcases List.mem_cons.1 hw with rfl | hw
      · rw [hlast]
        exact le_trans
          (List.rel_of_pairwise_cons h (List.getLast_mem (by simp)))
          le_rfl
      · rw [hlast]
        exact ih (List.Pairwise.of_cons h) (by simp) w hw

/-- `TopN.insert` on a sorted container, characterised by the strictly-greater
prefix: if fewer than `size` entries strictly exceed the new score, the new
entry is placed right after them (and the container truncated to `size`);
otherwise the call leaves the container unchanged. -/
theorem TopN.insert_eq_of_sorted {α : Type} (t : TopN α) (o : α) (v : ℚ)
    (h : SortedDesc t.topNArray) :
    (t.insert o v).topNArray =
      if (t.topNArray.takeWhile (fun e => decide (e.2 > v))).length < t.size then
        ((t.topNArray.takeWhile (fun e => decide (e.2 > v))) ++
          (o, v) :: t.topNArray.dropWhile (fun e => decide (e.2 > v))).take t.size
      else t.topNArray := by
  set p : α × ℚ → Bool := fun e => decide (e.2 > v) with hp
  have hsplit : t.topNArray.takeWhile p ++ t.topNArray.dropWhile p = t.topNArray :=
    List.takeWhile_append_dropWhile p t.topNArray
  have hrank : findLastIndexJS p t.topNArray =
      ((t.topNArray.takeWhile p).length : Int) - 1 := by
    conv_lhs => rw [← hsplit]
    exact findLastIndexJS_split p _ _
      (fun a ha => List.mem_takeWhile_imp ha)
      (fun b hb => by
        have := dropWhile_le_of_sortedDesc h b hb
        simp [hp, not_lt.2 this])
  unfold TopN.insert
  simp only [hrank]
  by_cases hcond : ((t.topNArray.takeWhile p).length : Int) - 1 < (t.size : Int) - 1
  · have hlt : (t.topNArray.takeWhile p).length < t.size := by omega
    rw [if_pos hcond, if_pos hlt]
    have htoNat : (((t.topNArray.takeWhile p).length : Int) - 1 + 1).toNat =
        (t.topNArray.takeWhile p).length := by omega
    simp only [htoNat]
    have key : t.topNArray.insertIdx (t.topNArray.takeWhile p).length (o, v) =
        t.topNArray.takeWhile p ++ (o, v) :: t.topNArray.dropWhile p := by
      have h2 := insertIdx_append_length (t.topNArray.takeWhile p)
        (t.topNArray.dropWhile p) (o, v)
      rw [hsplit] at h2
      exact h2
    rw [key]
  · have hge : ¬ (t.topNArray.takeWhile p).length < t.size := by omega
    rw [if_neg hcond, if_neg hge]

theorem TopN.insert_size {α : Type} (t : TopN α) (o : α) (v : ℚ) :
    (t.insert o v).size = t.size := by
  unfold TopN.insert
  dsimp only
  split <;> rfl

theorem TopN.runInserts_size {α : Type} (size : Nat) (l : List (α × ℚ)) :
    (TopN.runInserts size l).size = size := by
  suffices h : ∀ (t : TopN α), (l.foldl (fun t x => t.insert x.1 x.2) t).size = t.size by
    exact h ⟨[], size⟩
  induction l with
  | nil => intro t; rfl
  | cons a as ih => intro t; rw [List.foldl_cons, ih, TopN.insert_size]

theorem mem_take_append_cons {α : Type} (A B : List α) (y : α) (n : Nat)
    (h : A.length < n) : y ∈ (A ++ y :: B).take n := by
  obtain ⟨k, hk⟩ : ∃ k, n = A.length + (k + 1) := ⟨n - A.length - 1, by omega⟩
  rw [hk, List.take_append, List.take_succ_cons]
  exact List.mem_append_right _ (List.mem_cons_self _ _)

/-- One `insert` call preserves the rank-selector state invariant. -/
theorem topNStateInv_insert {α : Type} (pr : List (α × ℚ)) (t : TopN α) (y : α × ℚ)
    (h : TopNStateInv pr t) : TopNStateInv (pr ++ [y]) (t.insert y.1 y.2) := by
  obtain ⟨hlen, hsort, hfull, hdisc⟩ := h
  set p : α × ℚ → Bool := fun e => decide (e.2 > y.2) with hp
  set A := t.topNArray.takeWhile p with hA
  set B := t.topNArray.dropWhile p with hB
  have hsplit : A ++ B = t.topNArray := List.takeWhile_append_dropWhile p t.topNArray
  have hins := TopN.insert_eq_of_sorted t y.1 y.2 hsort
  rw [show ((y.1, y.2) : α × ℚ) = y from rfl] at hins
  rw [← hp, ← hA, ← hB] at hins
  have hAmem : ∀ a ∈ A, y.2 < a.2 := by
    intro a ha
    have h1 : p a = true := List.mem_takeWhile_imp (hA ▸ ha)
    rw [hp] at h1
    exact of_decide_eq_true h1
  have hBmem : ∀ b ∈ B, b.2 ≤ y.2 := by
    intro b hb
    exact dropWhile_le_of_sortedDesc hsort b (hB ▸ hb)
  have hsortAB : List.Pairwise (fun a b : α × ℚ => b.2 ≤ a.2) (A ++ B) := by
    rw [hsplit]; exact hsort
  have hAB : ∀ a ∈ A, ∀ b ∈ B, b.2 ≤ a.2 :=
    fun a ha b hb => (List.pairwise_append.1 hsortAB).2.2 a ha b hb
  have hAlenle : A.length ≤ t.topNArray.length := by
    have hsub : List.Sublist (List.takeWhile p t.topNArray) t.topNArray :=
      List.takeWhile_sublist p
    have hlen2 := List.Sublist.length_le hsub
    rw [← hA] at hlen2
    exact hlen2
  have hsz := TopN.insert_size t y.1 y.2
  by_cases hcase : A.length < t.size
  · -- the new entry is admitted
    rw [if_pos hcase] at hins
    have hsortABy : List.Pairwise (fun a b : α × ℚ => b.2 ≤ a.2) (A ++ y :: B) := by
      rw [List.pairwise_append]
      refine ⟨(List.pairwise_append.1 hsortAB).1, ?_, ?_⟩
      · exact List.Pairwise.cons hBmem (List.pairwise_append.1 hsortAB).2.1
      · intro a ha c hc
        rcases List.mem_cons.1 hc with rfl | hc
        · exact le_of_lt (hAmem a ha)
        · exact hAB a ha c hc
    refine ⟨?_, ?_, ?_, ?_⟩
    · rw [hins, hsz, List.length_take]
      exact min_le_left _ _
    · rw [hins]
      exact List.Pairwise.sublist (List.take_sublist _ _) hsortABy
    · -- once something is discarded, the container is full
      rintro ⟨x, hxmem, hxnot⟩
      rw [hins] at hxnot ⊢
      rw [hsz]
      have hlenABy : (A ++ y :: B).length = t.topNArray.length + 1 := by
        rw [← hsplit]; simp only [List.length_append, List.length_cons]; omega
      rcases lt_or_eq_of_le hlen with hlt | heq
      · -- container not yet full: nothing can have been discarded
        exfalso
        have hnotake : (A ++ y :: B).take t.size = A ++ y :: B :=
          List.take_of_length_le (by omega)
        rw [hnotake] at hxnot
        rcases List.mem_append.1 hxmem with hx | hx
        · rcases em (x ∈ t.topNArray) with hxin | hxout
          · rw [← hsplit] at hxin
            rcases List.mem_append.1 hxin with h1 | h1
            · exact hxnot (List.mem_append_left _ h1)
            · exact hxnot (List.mem_append_right _ (List.mem_cons_of_mem _ h1))
          · exact absurd (hfull ⟨x, hx, hxout⟩) (Nat.ne_of_lt hlt)
        · simp only [List.mem_singleton] at hx
          subst hx
          exact hxnot (List.mem_append_right _ (List.mem_cons_self _ _))
      · rw [List.length_take]
        omega
    · -- discarded scores never beat retained scores
      intro x hxmem hxnot w hw
      rw [hins] at hxnot hw
      have hwmem : w ∈ A ++ y :: B := List.Sublist.mem hw (List.take_sublist _ _)
      rcases List.mem_append.1 hxmem with hx | hx
      swap
      · -- y itself is in the result
        exfalso
        simp only [List.mem_singleton] at hx
        subst hx
        exact hxnot (mem_take_append_cons A B x t.size hcase)
      rcases em (x ∈ t.topNArray) with hxin | hxout
      · -- x was retained before this insert; only the truncated last entry can vanish
        rw [← hsplit] at hxin
        rcases List.mem_append.1 hxin with hxA | hxB
        · -- the strictly-greater prefix survives the truncation
          exfalso
          apply hxnot
          obtain ⟨k, hk⟩ : ∃ k, t.size = A.length + k := ⟨t.size - A.length, by omega⟩
          rw [hk, List.take_append]
          exact List.mem_append_left _ hxA
        · -- x sat in the tail, at or below the tied scores
          have hBne : B ≠ [] := List.ne_nil_of_mem hxB
          have hBsorted : List.Pairwise (fun a b : α × ℚ => b.2 ≤ a.2) B :=
            (List.pairwise_append.1 hsortAB).2.1
          rcases lt_or_eq_of_le hlen with hlt | hfl
          · exfalso
            apply hxnot
            rw [List.take_of_length_le (by
              have : (A ++ y :: B).length = t.topNArray.length + 1 := by
                rw [← hsplit]; simp only [List.length_append, List.length_cons]; omega
              omega)]
            exact List.mem_append_right _ (List.mem_cons_of_mem _ hxB)
          · -- the container was full, so the old last entry is dropped; x must be it
            have hABlen : A.length + B.length = t.size := by
              have := congrArg List.length hsplit
              simp at this
              omega
            have hresult : (A ++ y :: B).take t.size =
                A ++ y :: B.take (B.length - 1) := by
              obtain ⟨k, hk⟩ : ∃ k, t.size = A.length + (k + 1) :=
                ⟨t.size - A.length - 1, by omega⟩
              rw [hk, List.take_append, List.take_succ_cons]
              have : k = B.length - 1 := by omega
              rw [this]
            rw [hresult] at hxnot hw
            have hxlast : x = B.getLast hBne := by
              have hBsplit : B.dropLast ++ [B.getLast hBne] = B :=
                List.dropLast_append_getLast hBne
              have hxtake : x ∉ B.take (B.length - 1) := by
                intro hmem
                exact hxnot (List.mem_append_right _ (List.mem_cons_of_mem _ hmem))
              rw [← List.dropLast_eq_take] at hxtake
              rcases List.mem_append.1 (hBsplit ▸ hxB) with h1 | h1
              · exact absurd h1 hxtake
              · simpa using h1
            rcases List.mem_append.1 hw with hwA | hwyB
            · exact hAB w hwA x hxB
            rcases List.mem_cons.1 hwyB with rfl | hwB
            · exact hBmem x hxB
            · rw [hxlast]
              exact sortedDesc_getLast_le hBsorted hBne w
                (List.Sublist.mem hwB (List.take_sublist _ _))
      · -- x was discarded earlier
        have hfl := hfull ⟨x, hx, hxout⟩
        have hxle : ∀ w' ∈ t.topNArray, x.2 ≤ w'.2 := hdisc x hx hxout
        have hBne : B ≠ [] := by
          intro hBnil
          rw [hBnil, List.append_nil] at hsplit
          rw [← hsplit] at hfl
          omega
        rcases List.mem_append.1 hwmem with hwA | hwyB
        · exact hxle w (hsplit ▸ List.mem_append_left _ hwA)
        rcases List.mem_cons.1 hwyB with rfl | hwB
        · calc x.2 ≤ (B.getLast hBne).2 :=
                hxle _ (hsplit ▸ List.mem_append_right _ (List.getLast_mem hBne))
            _ ≤ w.2 := hBmem _ (List.getLast_mem hBne)
        · exact hxle w (hsplit ▸ List.mem_append_right _ hwB)
  · -- the new entry is rejected: container unchanged
    rw [if_neg hcase] at hins
    have hfullnow : t.topNArray.length = t.size := by omega
    have hAeq : A = t.topNArray :=
      (hA ▸ List.takeWhile_prefix p).eq_of_length (by omega)
    refine ⟨by rw [hins, hsz]; exact hlen, by rw [hins]; exact hsort, ?_, ?_⟩
    · intro _
      rw [hins, hsz]
      exact hfullnow
    · intro x hxmem hxnot w hw
      rw [hins] at hxnot hw
      rcases List.mem_append.1 hxmem with hx | hx
      · exact hdisc x hx hxnot w hw
      · simp only [List.mem_singleton] at hx
        subst hx
        exact le_of_lt (hAmem w (hAeq ▸ hw))

/-- Any run of `insert` calls from the empty container satisfies the state
invariant. -/
theorem topNStateInv_run {α : Type} (size : Nat) (inserts : List (α × ℚ)) :
    TopNStateInv inserts (TopN.runInserts size inserts) := by
  suffices h : ∀ (rest pr : List (α × ℚ)) (t : TopN α), TopNStateInv pr t →
      TopNStateInv (pr ++ rest) (rest.foldl (fun t x => t.insert x.1 x.2) t) by
    have hemp : TopNStateInv ([] : List (α × ℚ)) (⟨[], size⟩ : TopN α) := by
      refine ⟨by simp, List.Pairwise.nil, ?_, ?_⟩
      · rintro ⟨x, hx, -⟩
        simp at hx
      · intro x hx
        simp at hx
    have := h inserts [] ⟨[], size⟩ hemp
    simpa [TopN.runInserts] using this
  intro rest
  induction rest with
  | nil =>
    intro pr t ht
    simpa using ht
  | cons a as ih =>
    intro pr t ht
    have step := topNStateInv_insert pr t a ht
    have := ih (pr ++ [a]) (t.insert a.1 a.2) step
    simpa using this

/-- C6: after any sequence of `insert` calls against a `TopN` of capacity `N`,
the container holds at most `N` entries, sorted by non-increasing score, and
no entry of the insert sequence that is absent from the final container has a
score strictly exceeding any retained entry's score. -/
theorem topN_insert_invariant {α : Type} (N : Nat) (inserts : List (α × ℚ)) :
    (TopN.runInserts N inserts).topNArray.length ≤ N ∧
    SortedDesc (TopN.runInserts N inserts).topNArray ∧
    ∀ x ∈ inserts, x ∉ (TopN.runInserts N inserts).topNArray →
      ∀ w ∈ (TopN.runInserts N inserts).topNArray, x.2 ≤ w.2 := by
  obtain ⟨h1, h2, _, h4⟩ := topNStateInv_run N inserts
  exact ⟨le_trans h1 (le_of_eq (TopN.runInserts_size N inserts)), h2, h4⟩

/-- C6 (witness): a concrete run — capacity 2, four inserts. -/
theorem topN_insert_invariant_witness :
    (TopN.runInserts 2 [((0 : Nat), (5 : ℚ)), (1, 7), (2, 6), (3, 1)]).topNArray.length ≤ 2 ∧
    SortedDesc (TopN.runInserts 2 [((0 : Nat), (5 : ℚ)), (1, 7), (2, 6), (3, 1)]).topNArray ∧
    ∀ x ∈ [((0 : Nat), (5 : ℚ)), (1, 7), (2, 6), (3, 1)],
      x ∉ (TopN.runInserts 2 [((0 : Nat), (5 : ℚ)), (1, 7), (2, 6), (3, 1)]).topNArray →
      ∀ w ∈ (TopN.runInserts 2 [((0 : Nat), (5 : ℚ)), (1, 7), (2, 6), (3, 1)]).topNArray,
        x.2 ≤ w.2 :=
  topN_insert_invariant 2 [((0 : Nat), (5 : ℚ)), (1, 7), (2, 6), (3, 1)]

/-- C7 (counterexample): with capacity 3 and the single retained entry
`(0, 5)`, inserting a second object with the exactly tied score 5 does NOT
discard it — the container changes, growing to two entries with the newcomer
placed before the old tied entry. -/
theorem topN_tie_counterexample :
    ((TopN.runInserts 3 [((0 : Nat), (5 : ℚ))]).insert 1 5).topNArray = [(1, 5), (0, 5)] ∧
    ((TopN.runInserts 3 [((0 : Nat), (5 : ℚ))]).insert 1 5).topNArray ≠
      (TopN.runInserts 3 [((0 : Nat), (5 : ℚ))]).topNArray := by
  constructor <;> decide

/-- C7 (amended): an insert whose score ties the current last-ranked entry is
admitted, not discarded.  Whenever fewer than `size` current entries strictly
exceed the incoming score — in particular whenever the container holds fewer
than `size` entries — the new entry is inserted immediately after the
strictly-greater prefix, i.e. before every tied entry, and the container is
truncated to `size`; the new entry itself is always retained. -/
theorem topN_tie_admitted {α : Type} (t : TopN α) (o : α) (v : ℚ)
    (hs : SortedDesc t.topNArray)
    (hcount : (t.topNArray.takeWhile (fun e => decide (e.2 > v))).length < t.size) :
    (t.insert o v).topNArray =
      ((t.topNArray.takeWhile (fun e => decide (e.2 > v))) ++
        (o, v) :: t.topNArray.dropWhile (fun e => decide (e.2 > v))).take t.size ∧
    (o, v) ∈ (t.insert o v).topNArray := by
  have h := TopN.insert_eq_of_sorted t o v hs
  rw [if_pos hcount] at h
  exact ⟨h, h ▸ mem_take_append_cons _ _ _ _ hcount⟩

/-- C7 (witness): the tied insert of the counterexample, through the amended
theorem. -/
theorem topN_tie_admitted_witness :
    ((TopN.runInserts 3 [((0 : Nat), (5 : ℚ))]).insert 1 5).topNArray =
      (((TopN.runInserts 3 [((0 : Nat), (5 : ℚ))]).topNArray.takeWhile
          (fun e => decide (e.2 > 5))) ++
        ((1 : Nat), (5 : ℚ)) :: (TopN.runInserts 3 [((0 : Nat), (5 : ℚ))]).topNArray.dropWhile
          (fun e => decide (e.2 > 5))).take (TopN.runInserts 3 [((0 : Nat), (5 : ℚ))]).size ∧
    ((1 : Nat), (5 : ℚ)) ∈ ((TopN.runInserts 3 [((0 : Nat), (5 : ℚ))]).insert 1 5).topNArray :=
  topN_tie_admitted (TopN.runInserts 3 [((0 : Nat), (5 : ℚ))]) 1 5 (by decide) (by decide)

/-! ## The multi-choice policies -/

/-- C8: the single-pass scan of `randomElements` has its selection comparison
reversed relative to selection sampling, so the selection count is wrong.  On
two positions with one item requested: the draws `[3/5, 1/2]` — neither of
which is below the required ratio `(k-r)/m` — produce BOTH positions, and the
draws `[1/4, 2/5]` produce neither. -/
theorem randomElements_miscount :
    MultipleIndicesChoiceFunctions.randomElements [1, 1] 1 [3/5, 1/2] = [0, 1] ∧
    MultipleIndicesChoiceFunctions.randomElements [1, 1] 1 [1/4, 2/5] = [] := by
  constructor
  · show (List.range 2).foldl _ [] = [0, 1]
    rw [show List.range 2 = [0, 1] from rfl]
    simp only [List.foldl_cons, List.foldl_nil]
    norm_num
  · show (List.range 2).foldl _ [] = []
    rw [show List.range 2 = [0, 1] from rfl]
    simp only [List.foldl_cons, List.foldl_nil]
    norm_num

/-- C9 (counterexample): on the empty score array with one item requested, the
inner `reduce` (no initial value) throws, so no empty selection is returned. -/
theorem weightedRandomElements_empty_array_counterexample :
    MultipleIndicesChoiceFunctions.weightedRandomElements [] 1 [0] = none := by
  decide

/-- C9 (amended): for every nonempty score array, every requested count and
every draw sequence, `weightedRandomElements` returns the empty selection —
no accepted draw is ever recorded into the output. -/
theorem weightedRandomElements_yields_empty (arr : List ℚ) (numItems : Nat)
    (draws : List ℚ) (h : arr ≠ []) :
    MultipleIndicesChoiceFunctions.weightedRandomElements arr numItems draws = some [] := by
  obtain ⟨a, rest, rfl⟩ := List.exists_cons_of_ne_nil h
  unfold MultipleIndicesChoiceFunctions.weightedRandomElements
  induction numItems generalizing draws with
  | zero => rfl
  | succ n ih =>
    rw [MultipleIndicesChoiceFunctions.weightedLoop]
    rw [show weightedRandomElement (a :: rest) (draws.headD 0) =
      some (weightedScanLoop (a :: rest) ((rest.foldl (fun x y => x + y) a) * draws.headD 0) 0)
      from rfl]
    exact ih draws.tail

/-- C9 (witness): a concrete nonempty run. -/
theorem weightedRandomElements_yields_empty_witness :
    MultipleIndicesChoiceFunctions.weightedRandomElements [1, 2, 3] 2 [1/2, 1/3] = some [] :=
  weightedRandomElements_yields_empty [1, 2, 3] 2 [1/2, 1/3] (by decide)

/-! ## The split operation: growth, failure, and the vertex frame -/

/-- C1 (concrete evaluation of the defect): splitting the initial `10×10`
rectangle's polygon along edges 0 and 2 at `t = 1/2` appends 2 vertices and
1 polygon, and allocates 3 new edge objects (arena 4 → 7) — but `this.edges`
grows by only ONE entry (4 → 5, the middle edge): the two half edges never
reach it, because `this.edges.concat([...newEdges])` builds a fresh array
that is discarded. -/
theorem splitPolygon_growth_concrete :
    demoSplitMesh.vertices.length = 6 ∧
    demoSplitMesh.edges.length = 5 ∧
    demoSplitMesh.polygons.length = 2 ∧
    demoSplitMesh.edgeStore.length = 7 :=
  ⟨rfl, rfl, rfl, rfl⟩

/-- C5 (counterexample): calling `splitPolygon` with the two edge positions
EQUAL (both 1, in range for the initial rectangle) does not fail — the code
performs no check — and the mesh is mutated: the call completes (`isSome`)
and two vertices have been appended. -/
theorem splitPolygon_equal_positions_counterexample :
    (demoMesh.splitPolygon 0 1 1 (1/2) (1/2) false).isSome = true ∧
    ((demoMesh.splitPolygon 0 1 1 (1/2) (1/2) false).getD demoMesh).vertices.length = 6 :=
  ⟨rfl, rfl⟩

/-- C5 (amended): an out-of-range edge position makes `splitPolygon` throw
while computing the midpoints — before any mutation — so the error reaches
the caller with the mesh exactly as before (`none` in the model); equal
in-range positions, however, are NOT detected: such a call completes and
mutates the mesh (see the counterexample). -/
theorem splitPolygon_out_of_range_none (m : PolygonMesh) (p i j : Nat)
    (tA tB : ℚ) (d : Bool)
    (h : (m.polygons.getD p []).length ≤ i ∨ (m.polygons.getD p []).length ≤ j) :
    m.splitPolygon p i j tA tB d = none := by
  unfold PolygonMesh.splitPolygon
  by_cases hij : i < j
  · simp only [if_pos hij]
    rw [if_neg]
    rintro ⟨h1, h2⟩
    omega
  · simp only [if_neg hij]
    rw [if_neg]
    rintro ⟨h1, h2⟩
    omega

/-- C5 (witness): position 9 is out of range for the initial rectangle. -/
theorem splitPolygon_out_of_range_none_witness :
    demoMesh.splitPolygon 0 9 2 (1/2) (1/2) false = none :=
  splitPolygon_out_of_range_none demoMesh 0 9 2 (1/2) (1/2) false (Or.inl (by decide))

theorem sVerts1_length (m : PolygonMesh) (p i0 i1 : Nat) (t0 t1 : ℚ) :
    (PolygonMesh.sVerts1 m p i0 i1 t0 t1).length = m.vertices.length + 2 := by
  simp [PolygonMesh.sVerts1]

theorem sVerts2_length (m : PolygonMesh) (p i0 i1 : Nat) (t0 t1 : ℚ) (d : Bool) :
    (PolygonMesh.sVerts2 m p i0 i1 t0 t1 d).length = m.vertices.length + 2 := by
  unfold PolygonMesh.sVerts2
  cases d with
  | false => simpa using sVerts1_length m p i0 i1 t0 t1
  | true =>
    dsimp only
    rcases hd0 : PolygonMesh.sDisplacementT m (PolygonMesh.sVerts1 m p i0 i1 t0 t1)
        (PolygonMesh.sMid m (PolygonMesh.sOe0 m p i0) t0)
        (PolygonMesh.sMid m (PolygonMesh.sOe1 m p i1) t1)
        (PolygonMesh.sOe0 m p i0) with - | ta <;>
      rcases hd1 : PolygonMesh.sDisplacementT m (PolygonMesh.sVerts1 m p i0 i1 t0 t1)
          (PolygonMesh.sMid m (PolygonMesh.sOe1 m p i1) t1)
          (PolygonMesh.sMid m (PolygonMesh.sOe0 m p i0) t0)
          (PolygonMesh.sOe1 m p i1) with - | tb <;>
    simp [List.length_set, sVerts1_length m p i0 i1 t0 t1]

theorem sVerts2_getD (m : PolygonMesh) (p i0 i1 : Nat) (t0 t1 : ℚ) (d : Bool)
    (k : Nat) (hk : k < m.vertices.length) :
    (PolygonMesh.sVerts2 m p i0 i1 t0 t1 d).getD k default =
      m.vertices.getD k default := by
  have h1 : (PolygonMesh.sVerts1 m p i0 i1 t0 t1).getD k default =
      m.vertices.getD k default :=
    List.getD_append _ _ _ _ hk
  unfold PolygonMesh.sVerts2
  cases d with
  | false => simpa using h1
  | true =>
    dsimp only
    rcases hd0 : PolygonMesh.sDisplacementT m (PolygonMesh.sVerts1 m p i0 i1 t0 t1)
        (PolygonMesh.sMid m (PolygonMesh.sOe0 m p i0) t0)
        (PolygonMesh.sMid m (PolygonMesh.sOe1 m p i1) t1)
        (PolygonMesh.sOe0 m p i0) with - | ta <;>
      rcases hd1 : PolygonMesh.sDisplacementT m (PolygonMesh.sVerts1 m p i0 i1 t0 t1)
          (PolygonMesh.sMid m (PolygonMesh.sOe1 m p i1) t1)
          (PolygonMesh.sMid m (PolygonMesh.sOe0 m p i0) t0)
          (PolygonMesh.sOe1 m p i1) with - | tb
    all_goals simp only [if_true]
    all_goals repeat rw [getD_set_ne _ _ _ _ _ (by omega)]
    all_goals exact h1

/-- C10: `splitPolygon` never changes a pre-existing vertex: it appends
exactly two vertices, every previously stored coordinate is unchanged, and
without displacement the vertex sequence is exactly the old one plus the two
appended midpoints (with displacement only the two appended slots may be
rewritten). -/
theorem splitPolygon_vertex_frame (m m' : PolygonMesh) (p i j : Nat)
    (tA tB : ℚ) (d : Bool) (h : m.splitPolygon p i j tA tB d = some m') :
    m'.vertices.length = m.vertices.length + 2 ∧
    (∀ k, k < m.vertices.length →
      m'.vertices.getD k default = m.vertices.getD k default) ∧
    (d = false → ∃ a b, m'.vertices = m.vertices ++ [a, b]) := by
  unfold PolygonMesh.splitPolygon at h
  by_cases hij : i < j
  · simp only [if_pos hij] at h
    split at h
    · injection h with h
      subst h
      refine ⟨sVerts2_length m p i j tA tB d, fun k hk => sVerts2_getD m p i j tA tB d k hk, ?_⟩
      rintro rfl
      exact ⟨_, _, rfl⟩
    · exact absurd h (by simp)
  · simp only [if_neg hij] at h
    split at h
    · injection h with h
      subst h
      refine ⟨sVerts2_length m p j i tB tA d, fun k hk => sVerts2_getD m p j i tB tA d k hk, ?_⟩
      rintro rfl
      exact ⟨_, _, rfl⟩
    · exact absurd h (by simp)

/-- C10 (witness): the demonstration split, without displacement. -/
theorem splitPolygon_vertex_frame_witness :
    demoSplitMesh.vertices.length = demoMesh.vertices.length + 2 ∧
    (∀ k, k < demoMesh.vertices.length →
      demoSplitMesh.vertices.getD k default = demoMesh.vertices.getD k default) ∧
    (false = false → ∃ a b, demoSplitMesh.vertices = demoMesh.vertices ++ [a, b]) :=
  splitPolygon_vertex_frame demoMesh demoSplitMesh 0 0 2 (1/2) (1/2) false rfl

/-! ## The mesh invariant is preserved by splits -/

/-- The heart of the invariant proofs: one (normalised, in-range) split
preserves the whole mesh invariant. -/
theorem meshInv_sResult (m : PolygonMesh) (p i0 i1 : Nat) (t0 t1 : ℚ) (d : Bool)
    (inv : MeshInv m) (hp : p < m.polygons.length) (h01 : i0 < i1)
    (hi1 : i1 < (m.polygons.getD p []).length) :
    MeshInv (PolygonMesh.sResult m p i0 i1 t0 t1 d) := by
  refine ⟨?_, ?_, ?_, ?_, ?_, ?_⟩
  · -- well-formed entries
    intro poly' hpoly' oe hoe
    have hlen : (PolygonMesh.sResult m p i0 i1 t0 t1 d).edgeStore.length =
        m.edgeStore.length + 3 := sEs7_length m p i0 i1
    rw [hlen]
    rcases sResult_polygons_mem m p i0 i1 t0 t1 d hp poly' hpoly' with
      rfl | rfl | ⟨q, hq, hqp, rfl⟩
    · have hfacts := sNewPoly_entry_facts m p i0 i1 inv hp h01 hi1 oe hoe
      exact ⟨hfacts.1, hfacts.2.1⟩
    · have hfacts := sPolyNew_entry_facts m p i0 i1 inv hp h01 hi1 oe hoe
      exact ⟨hfacts.1, hfacts.2.1⟩
    · rcases far_entry_facts m p i0 i1 inv hp h01 hi1 q hq hqp oe hoe with
        hB | ⟨rfl, h0⟩ | ⟨rfl, h1⟩
      · have hwf := inv.wf _ (getD_mem m.polygons q [] hq) oe hB
        exact ⟨by omega, hwf.2⟩
      · constructor
        · show m.edgeStore.length < m.edgeStore.length + 3
          omega
        · exact one_sub_lt_two _
      · constructor
        · show m.edgeStore.length + 1 < m.edgeStore.length + 3
          omega
        · exact one_sub_lt_two _
  · -- closure
    intro poly' hpoly'
    show PolyClosed (PolygonMesh.sEs7 m p i0 i1) poly'
    rcases sResult_polygons_mem m p i0 i1 t0 t1 d hp poly' hpoly' with
      rfl | rfl | ⟨q, hq, hqp, rfl⟩
    · exact closed_sNewPoly m p i0 i1 inv hp h01 hi1
    · exact closed_sPolyNew m p i0 i1 inv hp h01 hi1
    · exact closed_far m p i0 i1 inv hp h01 hi1 q hq hqp
  · -- per-polygon distinct edges
    intro poly' hpoly'
    rcases sResult_polygons_mem m p i0 i1 t0 t1 d hp poly' hpoly' with
      rfl | rfl | ⟨q, hq, hqp, rfl⟩
    · exact sNewPoly_nodup m p i0 i1 inv hp h01 hi1
    · exact sPolyNew_nodup m p i0 i1 inv hp h01 hi1
    · exact nodup_far m p i0 i1 inv hp h01 hi1 q hq hqp
  · exact entryAdj_sResult m p i0 i1 t0 t1 d inv hp h01 hi1
  · exact adjEntry_sResult m p i0 i1 t0 t1 d inv hp h01 hi1
  · -- vertex-index bounds
    intro e he
    have he' : e ∈ PolygonMesh.sEs7 m p i0 i1 := he
    have hvl : (PolygonMesh.sResult m p i0 i1 t0 t1 d).vertices.length =
        m.vertices.length + 2 := sVerts2_length m p i0 i1 t0 t1 d
    rw [hvl]
    exact vtx_sEs7 m p i0 i1 inv hp h01 hi1 e he'

/-- The constructed rectangle satisfies the invariant. -/
theorem meshInv_init (vmin vmax : Vector2) : MeshInv (PolygonMesh.init vmin vmax) := by
  have hes : (PolygonMesh.init vmin vmax).edgeStore =
      [{ indices := (0, 1), adjacentPolys := (some 0, none) },
       { indices := (1, 2), adjacentPolys := (some 0, none) },
       { indices := (2, 3), adjacentPolys := (some 0, none) },
       { indices := (3, 0), adjacentPolys := (some 0, none) }] := rfl
  have hpolys : (PolygonMesh.init vmin vmax).polygons =
      [[⟨0, 0⟩, ⟨1, 0⟩, ⟨2, 0⟩, ⟨3, 0⟩]] := rfl
  have hvl : (PolygonMesh.init vmin vmax).vertices.length = 4 := rfl
  refine ⟨?_, ?_, ?_, ?_, ?_, ?_⟩
  · rw [hes, hpolys]
    decide
  · intro poly hpoly
    rw [hpolys] at hpoly
    rw [List.mem_singleton] at hpoly
    subst hpoly
    intro i hi
    have hi4 : i < 4 := hi
    unfold trailVertex leadVertex arenaGet
    rw [hes]
    interval_cases i <;> decide
  · rw [hpolys]
    decide
  · intro pi hpi oe hoe
    rw [hpolys] at hpi hoe
    have hpi1 : pi < 1 := hpi
    interval_cases pi
    unfold arenaGet
    rw [hes]
    simp only [List.getD_cons_zero, List.mem_cons, List.mem_singleton,
      List.mem_nil_iff, or_false] at hoe
    rcases hoe with rfl | rfl | rfl | rfl <;> decide
  · intro ei hei s hs pi hadj
    rw [hes] at hadj
    have hei4 : ei < 4 := hei
    rw [hpolys]
    interval_cases ei <;> interval_cases s <;>
      (unfold arenaGet at hadj) <;>
      first
      | exact Option.noConfusion hadj
      | (have hpi : (some 0 : Option Nat) = some pi := hadj
         injection hpi with hpi
         subst hpi
         exact ⟨by decide, by decide⟩)
  · intro e he
    rw [hes] at he
    rw [hvl]
    simp only [List.mem_cons, List.mem_singleton, List.mem_nil_iff, or_false] at he
    rcases he with rfl | rfl | rfl | rfl <;> decide

/-- A successful (unnormalised) split call is one of the two normalised
forms. -/
theorem splitPolygon_eq_sResult (m : PolygonMesh) (p i j : Nat) (tA tB : ℚ)
    (d : Bool) (m' : PolygonMesh) (hij : i ≠ j)
    (h : m.splitPolygon p i j tA tB d = some m') :
    ∃ i0 i1 t0 t1, i0 < i1 ∧ i1 < (m.polygons.getD p []).length ∧
      m' = PolygonMesh.sResult m p i0 i1 t0 t1 d := by
  unfold PolygonMesh.splitPolygon at h
  by_cases hlt : i < j
  · simp only [if_pos hlt] at h
    by_cases hcond : i < (m.polygons.getD p []).length ∧
        j < (m.polygons.getD p []).length
    · rw [if_pos hcond] at h
      injection h with h
      exact ⟨i, j, tA, tB, hlt, hcond.2, h.symm⟩
    · rw [if_neg hcond] at h
      exact absurd h (by simp)
  · have hgt : j < i := by omega
    simp only [if_neg hlt] at h
    by_cases hcond : j < (m.polygons.getD p []).length ∧
        i < (m.polygons.getD p []).length
    · rw [if_pos hcond] at h
      injection h with h
      exact ⟨j, i, tB, tA, hgt, hcond.2, h.symm⟩
    · rw [if_neg hcond] at h
      exact absurd h (by simp)

/-- Every reachable mesh satisfies the full invariant. -/
theorem reachable_meshInv (m : PolygonMesh) (h : Reachable m) : MeshInv m := by
  induction h with
  | init vmin vmax => exact meshInv_init vmin vmax
  | step m m' p i j tA tB d hre hp hij hi hj ha hb hc hd hsplit ih =>
    obtain ⟨i0, i1, t0, t1, h01, hi1, rfl⟩ :=
      splitPolygon_eq_sResult m p i j tA tB d m' hij hsplit
    exact meshInv_sResult m p i0 i1 t0 t1 d ih hp h01 hi1

/-- The demonstration split mesh is reachable: one precondition-satisfying
split of the initial rectangle. -/
theorem demoSplitMesh_reachable : Reachable demoSplitMesh :=
  Reachable.step demoMesh demoSplitMesh 0 0 2 (1/2) (1/2) false
    (Reachable.init ⟨0, 0⟩ ⟨10, 10⟩) (by decide) (by decide) (by decide)
    (by decide) (by norm_num) (by norm_num) (by norm_num) (by norm_num) rfl

/-- C2: for every mesh reachable from the initial rectangle by
precondition-satisfying splits (distinct in-range edge positions, `t` values
in `(0,1)`), every polygon satisfies closure: at every position `i`, the
trailing vertex (endpoint index at `1 - orientation`) of oriented edge `i`
equals the leading vertex (endpoint index at `orientation`) of oriented edge
`(i+1) mod length`. -/
theorem reachable_closure (m : PolygonMesh) (h : Reachable m) :
    ∀ poly ∈ m.polygons, ∀ i, i < poly.length →
      trailVertex m.edgeStore (poly.getD i default) =
        leadVertex m.edgeStore (poly.getD ((i + 1) % poly.length) default) :=
  fun poly hpoly => (reachable_meshInv m h).closed poly hpoly

/-- C2 (witness): the invariant holds concretely after splitting the
demonstration rectangle. -/
theorem reachable_closure_witness :
    Reachable demoSplitMesh ∧
    (∀ poly ∈ demoSplitMesh.polygons, ∀ i, i < poly.length →
      trailVertex demoSplitMesh.edgeStore (poly.getD i default) =
        leadVertex demoSplitMesh.edgeStore
          (poly.getD ((i + 1) % poly.length) default)) :=
  ⟨demoSplitMesh_reachable,
    reachable_closure demoSplitMesh demoSplitMesh_reachable⟩

/-- C3: in every reachable mesh, an adjacency slot `s` of an edge that
references polygon `P` is faithful: `P` is a valid polygon containing the
entry `⟨edge, s⟩`, no other polygon contains that entry, and the opposite
side of the edge does not reference `P` (the two sides never reference the
same polygon). -/
theorem reachable_adjacency (m : PolygonMesh) (h : Reachable m) :
    ∀ ei, ei < m.edgeStore.length → ∀ s, s < 2 → ∀ P,
      (arenaGet m.edgeStore ei).adjacentPoly s = some P →
      P < m.polygons.length ∧
      (⟨ei, s⟩ : OrientedEdge) ∈ m.polygons.getD P [] ∧
      (∀ q, q < m.polygons.length →
        (⟨ei, s⟩ : OrientedEdge) ∈ m.polygons.getD q [] → q = P) ∧
      (arenaGet m.edgeStore ei).adjacentPoly (1 - s) ≠ some P := by
  intro ei hei s hs P hadj
  have inv := reachable_meshInv m h
  have hae := inv.adjEntry ei hei s hs P hadj
  refine ⟨hae.1, hae.2, ?_, ?_⟩
  · intro q hq hmem
    have h2 : (arenaGet m.edgeStore ei).adjacentPoly s = some q :=
      inv.entryAdj q hq ⟨ei, s⟩ hmem
    rw [hadj] at h2
    injection h2 with h2
    exact h2.symm
  · intro hcon
    have hae2 := inv.adjEntry ei hei (1 - s) (by omega) P hcon
    have heq := nodup_map_eq_of_mem _ OrientedEdge.edge
      (inv.nodupEdges _ (getD_mem m.polygons P [] hae.1)) ⟨ei, s⟩ ⟨ei, 1 - s⟩
      hae.2 hae2.2 rfl
    have hor : s = 1 - s := congrArg OrientedEdge.orientation heq
    omega

/-- C3 (witness): the adjacency invariant holds concretely after splitting
the demonstration rectangle. -/
theorem reachable_adjacency_witness :
    Reachable demoSplitMesh ∧
    (∀ ei, ei < demoSplitMesh.edgeStore.length → ∀ s, s < 2 → ∀ P,
      (arenaGet demoSplitMesh.edgeStore ei).adjacentPoly s = some P →
      P < demoSplitMesh.polygons.length ∧
      (⟨ei, s⟩ : OrientedEdge) ∈ demoSplitMesh.polygons.getD P [] ∧
      (∀ q, q < demoSplitMesh.polygons.length →
        (⟨ei, s⟩ : OrientedEdge) ∈ demoSplitMesh.polygons.getD q [] → q = P) ∧
      (arenaGet demoSplitMesh.edgeStore ei).adjacentPoly (1 - s) ≠ some P) :=
  ⟨demoSplitMesh_reachable,
    reachable_adjacency demoSplitMesh demoSplitMesh_reachable⟩

/-- C4: for every polygon of a reachable mesh and every
precondition-satisfying, undisplaced call to `splitPolygon` on it, the signed
shoelace area of the rewritten original polygon plus that of the newly
appended polygon equals the signed area the original polygon had before the
call, exactly over rational arithmetic. -/
theorem splitPolygon_area_conservation (m m' : PolygonMesh) (p i j : Nat)
    (tA tB : ℚ) (hre : Reachable m) (hp : p < m.polygons.length) (hij : i ≠ j)
    (hi : i < (m.polygons.getD p []).length)
    (hj : j < (m.polygons.getD p []).length)
    (htA0 : 0 < tA) (htA1 : tA < 1) (htB0 : 0 < tB) (htB1 : tB < 1)
    (hs : m.splitPolygon p i j tA tB false = some m') :
    Polygon.area (indexedPolyToCoordinates m' (m'.polygons.getD p [])) +
      Polygon.area (indexedPolyToCoordinates m'
        (m'.polygons.getD m.polygons.length [])) =
      Polygon.area (indexedPolyToCoordinates m (m.polygons.getD p [])) := by
  have inv := reachable_meshInv m hre
  obtain ⟨i0, i1, t0, t1, h01, hi1, rfl⟩ :=
    splitPolygon_eq_sResult m p i j tA tB false m' hij hs
  rw [sResult_polygons_getD_p m p i0 i1 t0 t1 false hp,
    sResult_polygons_getD_last m p i0 i1 t0 t1 false]
  exact sResult_area m p i0 i1 t0 t1 inv hp h01 hi1

/-- C4 (witness): splitting the demonstration rectangle through edges 0 and 2
at the midpoints conserves the signed area. -/
theorem splitPolygon_area_conservation_witness :
    demoMesh.splitPolygon 0 0 2 (1/2) (1/2) false = some demoSplitMesh ∧
    (Polygon.area (indexedPolyToCoordinates demoSplitMesh
        (demoSplitMesh.polygons.getD 0 [])) +
      Polygon.area (indexedPolyToCoordinates demoSplitMesh
        (demoSplitMesh.polygons.getD demoMesh.polygons.length [])) =
      Polygon.area (indexedPolyToCoordinates demoMesh
        (demoMesh.polygons.getD 0 []))) :=
  ⟨rfl, splitPolygon_area_conservation demoMesh demoSplitMesh 0 0 2 (1/2) (1/2)
    (Reachable.init ⟨0, 0⟩ ⟨10, 10⟩) (by decide) (by decide) (by decide)
    (by decide) (by norm_num) (by norm_num) (by norm_num) (by norm_num) rfl⟩

end RegionSlicer
